import Mathlib

/-! The LRU file cache priority queue, its eviction candidates, and `firstTruthy`.

A shallow embedding of `src/Interpreters/Cache/LRUFileCachePriority.cpp`, of the inline
members of `src/Interpreters/Cache/EvictionCandidates.h`, and of `executeImpl` of
`src/Functions/firstTruthy.cpp`.

Conventions of the embedding.

* `size_t` values are natural numbers; every arithmetic result that the source stores in
  or compares as a `size_t` is reduced modulo `2 ^ 64` (`to_size_t`), and an `int64_t`
  argument is an integer obtained with `to_int64`.
* `std::list<EntryPtr>` is a list of nodes. A node carries an identifier that plays the
  part of the node address: it is what an `LRUQueue::iterator` refers to, it never
  changes while the node is linked, and `splice` moves the node together with it.
  Each node owns its entry (entries are not aliased between nodes).
* A member function that can throw is a function from the object before the call to a
  record holding the outcome and the object as the call leaves it, so that a throw
  keeps whatever had already been written.
* `chassert` conditions are not control flow: each function that carries them has a
  companion `*_chassert` giving the asserted condition on the state before the call.
* `ndebug` says whether the preprocessor symbol `NDEBUG` is defined; the blocks under
  `#ifndef NDEBUG` run exactly when it is `false`.
* Locks, logging, metrics and profile events carry no state of the queue and are left out.
-/

namespace DB

deriving instance DecidableEq for Except

/-- Number of values of a `size_t` (64 bits). -/
def SIZE_T_RANGE : Nat := 18446744073709551616

/-- Conversion of an integer to `size_t`: reduction modulo `2 ^ 64`. -/
def to_size_t (i : Int) : Nat := (i % 18446744073709551616).toNat

/-- Conversion of a `size_t` value to `int64_t` (two's complement). -/
def to_int64 (u : Nat) : Int :=
  if u % 18446744073709551616 < 9223372036854775808 then ((u % 18446744073709551616 : Nat) : Int)
  else ((u % 18446744073709551616 : Nat) : Int) - 18446744073709551616

/-- Outcomes other than a normal return. `LOGICAL_ERROR` is
`Exception(ErrorCodes::LOGICAL_ERROR, ...)`. `DANGLING_ITERATOR` marks a call that
dereferences an iterator whose node is not linked in the queue, which the source leaves
undefined; the embedding reports it and keeps the state. -/
inductive Failure where
  | LOGICAL_ERROR
  | DANGLING_ITERATOR
deriving DecidableEq, Repr

/-- Opaque fixed-width cache key, compared only for equality. -/
abbrev FileCacheKey := Nat

/-- Modelled from the spec: the queue entry (`IFileCachePriority::Entry`, declared in a
header that is not among the sources). Identity is `(key, offset)`; `size = 0` means
invalidated; `hits` counts priority increases; `evicting` is the eviction flag. -/
structure Entry where
  key : FileCacheKey
  offset : Nat
  size : Nat
  hits : Nat
  evicting : Bool
deriving DecidableEq, Repr

/-- Modelled from the spec: the counters object `LRUFileCachePriority::State`
(`state->current_size`, `state->current_elements_num`), declared in the class header. -/
structure State where
  current_size : Nat
  current_elements_num : Nat
deriving DecidableEq, Repr

/-- A node of `LRUQueue` (`std::list<EntryPtr>`): the entry and the identity of the node. -/
structure Node where
  id : Nat
  entry : Entry
deriving DecidableEq, Repr

/-- The queue `std::list<EntryPtr>`, head first. -/
abbrev LRUQueue := List Node

/-- Dereference `*it`: the entry of the linked node `it`, if there is one. -/
def LRUQueue.deref : LRUQueue → Nat → Option Entry
  | [], _ => none
  | n :: rest, it => if n.id = it then some n.entry else LRUQueue.deref rest it

/-- The list after `queue.erase(it)`: the node `it` unlinked, the others in place. -/
def LRUQueue.erase : LRUQueue → Nat → LRUQueue
  | [], _ => []
  | n :: rest, it => if n.id = it then rest else n :: LRUQueue.erase rest it

/-- The position following `it` (what `queue.erase(it)` returns): the identity of the next
node, or `none` for `queue.end()`. -/
def LRUQueue.next : LRUQueue → Nat → Option Nat
  | [], _ => none
  | n :: rest, it => if n.id = it then rest.head?.map Node.id else LRUQueue.next rest it

/-- A write through `*it`: the entry of node `it` replaced by `f` of it. -/
def LRUQueue.assign : LRUQueue → Nat → (Entry → Entry) → LRUQueue
  | [], _, _ => []
  | n :: rest, it, f =>
    if n.id = it then { n with entry := f n.entry } :: rest
    else n :: LRUQueue.assign rest it f

/-- The list after `queue.splice(queue.end(), queue, it)`: node `it` relinked last. -/
def LRUQueue.splice_end (queue : LRUQueue) (it : Nat) : LRUQueue :=
  match LRUQueue.deref queue it with
  | none => queue
  | some entry => LRUQueue.erase queue it ++ [{ id := it, entry := entry }]

/-- The object `LRUFileCachePriority`: the limits inherited from `IFileCachePriority`, the
counters, the queue, and the identity the next inserted node will get. -/
structure LRUFileCachePriority where
  max_size : Nat
  max_elements : Nat
  state : State
  queue : LRUQueue
  next_id : Nat
deriving DecidableEq, Repr

/-- The handle `LRUFileCachePriority::LRUIterator`. `iterator = none` is the position
`LRUQueue::iterator{}` (default-constructed); `some id` refers to node `id`. The back
pointer `cache_priority` is the queue object passed to each handle method. -/
structure LRUIterator where
  iterator : Option Nat
deriving DecidableEq, Repr

/-- What a call of a member function leaves: its outcome and the object after it. -/
structure Call (α : Type) where
  result : Except Failure α
  self : LRUFileCachePriority
deriving DecidableEq

/-- What a call of a handle method leaves: its outcome, the handle and the queue object. -/
structure HandleCall (α : Type) where
  result : Except Failure α
  handle : LRUIterator
  cache_priority : LRUFileCachePriority
deriving DecidableEq

namespace LRUFileCachePriority

/-- The constructor: a given shared state is adopted, otherwise a fresh zero state. -/
def construct (max_size_ max_elements_ : Nat) (state_ : Option State) : LRUFileCachePriority :=
  { max_size := max_size_
    max_elements := max_elements_
    state := match state_ with
      | some s => s
      | none => { current_size := 0, current_elements_num := 0 }
    queue := []
    next_id := 0 }

/-- Modelled from the spec: `getSizeLimit(lock)` of the base class, the limit `max_size`
(0 meaning unbounded); its definition is in a header that is not among the sources. -/
def getSizeLimit (self : LRUFileCachePriority) : Nat := self.max_size

/-- `updateSize(int64_t size)`: `state->current_size += size` in `size_t` arithmetic. -/
def updateSize (self : LRUFileCachePriority) (size : Int) : LRUFileCachePriority :=
  { self with state :=
      { self.state with current_size := to_size_t ((self.state.current_size : Int) + size) } }

/-- The two `chassert` conditions of `updateSize`. -/
def updateSize_chassert (self : LRUFileCachePriority) (size : Int) : Bool :=
  decide (size ≠ 0) && (decide (size > 0) || decide (self.state.current_size ≥ to_size_t (-size)))

/-- `updateElementsCount(int64_t num)`: `state->current_elements_num += num`. -/
def updateElementsCount (self : LRUFileCachePriority) (num : Int) : LRUFileCachePriority :=
  { self with state :=
      { self.state with
        current_elements_num := to_size_t ((self.state.current_elements_num : Int) + num) } }

/-- `add(EntryPtr entry, lock)`. -/
def add (ndebug : Bool) (self : LRUFileCachePriority) (entry : Entry) : Call LRUIterator :=
  if entry.size = 0 then
    { result := .error .LOGICAL_ERROR, self := self }
  else if !ndebug && self.queue.any (fun queue_entry =>
      decide (queue_entry.entry.size ≠ 0) && decide (queue_entry.entry.key = entry.key)
        && decide (queue_entry.entry.offset = entry.offset)) then
    { result := .error .LOGICAL_ERROR, self := self }
  else
    let size_limit := self.getSizeLimit
    if size_limit ≠ 0 ∧ to_size_t ((self.state.current_size : Int) + entry.size) > size_limit then
      { result := .error .LOGICAL_ERROR, self := self }
    else
      let iterator := self.next_id
      let inserted : LRUFileCachePriority :=
        { self with
          queue := self.queue ++ [{ id := iterator, entry := entry }]
          next_id := self.next_id + 1 }
      { result := .ok { iterator := some iterator }
        self := (inserted.updateSize (to_int64 entry.size)).updateElementsCount 1 }

/-- `remove(LRUQueue::iterator it, lock)`: returns the position after the erased node. -/
def remove (self : LRUFileCachePriority) (it : Nat) : Call (Option Nat) :=
  match self.queue.deref it with
  | none => { result := .error .DANGLING_ITERATOR, self := self }
  | some entry =>
    let updated : LRUFileCachePriority :=
      if entry.size ≠ 0 then
        (self.updateSize (to_int64 (to_size_t (-(entry.size : Int))))).updateElementsCount (-1)
      else self
    { result := .ok (self.queue.next it)
      self := { updated with queue := updated.queue.erase it } }

/-- Result of `canFit`: the returned flag, the two optional out-parameters after the call
(`none` for a null pointer), and the object after the call. -/
structure CanFitResult where
  fits : Bool
  reached_size_limit : Option Bool
  reached_elements_limit : Option Bool
  self : LRUFileCachePriority
deriving DecidableEq

/-- The seven-parameter `canFit`; all arithmetic is `size_t` arithmetic. -/
def canFit (self : LRUFileCachePriority) (size elements : Nat)
    (released_size_assumption released_elements_assumption : Nat)
    (reached_size_limit reached_elements_limit : Option Bool) : CanFitResult :=
  let size_limit_satisifed : Bool :=
    decide (self.max_size = 0) ||
      decide (to_size_t ((self.state.current_size : Int) + size - released_size_assumption)
        ≤ self.max_size)
  let elements_limit_satisfied : Bool :=
    decide (self.max_elements = 0) ||
      decide (to_size_t ((self.state.current_elements_num : Int) + elements
        - released_elements_assumption) ≤ self.max_elements)
  { fits := size_limit_satisifed && elements_limit_satisfied
    reached_size_limit := reached_size_limit.map (fun flag => flag || !size_limit_satisifed)
    reached_elements_limit :=
      reached_elements_limit.map (fun flag => flag || !elements_limit_satisfied)
    self := self }

/-- The short `canFit(size, elements, lock, IteratorPtr, bool)`. -/
def canFit_short (self : LRUFileCachePriority) (size elements : Nat) : Bool :=
  (self.canFit size elements 0 0 none none).fits

/-- `modifySizeLimits(max_size_, max_elements_, size_ratio_, lock)`; the unnamed
`double` parameter is not read. -/
def modifySizeLimits (self : LRUFileCachePriority) (max_size_ max_elements_ : Nat) : Call Unit :=
  if self.max_size = max_size_ ∧ self.max_elements = max_elements_ then
    { result := .ok (), self := self }
  else if self.state.current_size ≥ self.max_size
      ∨ self.state.current_elements_num ≥ self.max_elements then
    { result := .error .LOGICAL_ERROR, self := self }
  else
    { result := .ok (), self := { self with max_size := max_size_, max_elements := max_elements_ } }

end LRUFileCachePriority

namespace LRUIterator

/-- `assertValid()`: throws a logic error on the position `LRUQueue::iterator{}`; otherwise
the call goes on with the position the handle holds. -/
def assertValid (it : LRUIterator) : Except Failure Nat :=
  match it.iterator with
  | none => .error .LOGICAL_ERROR
  | some iterator => .ok iterator

/-- `LRUIterator::remove(lock)`: removes the node and resets the handle. -/
def remove (it : LRUIterator) (cache_priority : LRUFileCachePriority) : HandleCall Unit :=
  match it.assertValid with
  | .error failure =>
    { result := .error failure, handle := it, cache_priority := cache_priority }
  | .ok iterator =>
    let removed := cache_priority.remove iterator
    match removed.result with
    | .error failure => { result := .error failure, handle := it, cache_priority := removed.self }
    | .ok _ => { result := .ok (), handle := { iterator := none }, cache_priority := removed.self }

/-- `LRUIterator::invalidate()`. -/
def invalidate (it : LRUIterator) (cache_priority : LRUFileCachePriority) : HandleCall Unit :=
  match it.assertValid with
  | .error failure =>
    { result := .error failure, handle := it, cache_priority := cache_priority }
  | .ok iterator =>
    match cache_priority.queue.deref iterator with
    | none =>
      { result := .error .DANGLING_ITERATOR, handle := it, cache_priority := cache_priority }
    | some entry =>
      let updated :=
        (cache_priority.updateSize (to_int64 (to_size_t (-(entry.size : Int))))).updateElementsCount
          (-1)
      { result := .ok ()
        handle := it
        cache_priority :=
          { updated with
            queue := updated.queue.assign iterator (fun e => { e with size := 0 }) } }

/-- The `chassert` conditions met by `invalidate`, its own and those of `updateSize`. -/
def invalidate_chassert (it : LRUIterator) (cache_priority : LRUFileCachePriority) : Bool :=
  match it.iterator with
  | none => true
  | some iterator =>
    match cache_priority.queue.deref iterator with
    | none => true
    | some entry =>
      decide (entry.size ≠ 0)
        && cache_priority.updateSize_chassert (to_int64 (to_size_t (-(entry.size : Int))))

/-- `LRUIterator::incrementSize(size, lock)`. -/
def incrementSize (it : LRUIterator) (cache_priority : LRUFileCachePriority) (size : Nat) :
    HandleCall Unit :=
  match it.assertValid with
  | .error failure =>
    { result := .error failure, handle := it, cache_priority := cache_priority }
  | .ok iterator =>
    match cache_priority.queue.deref iterator with
    | none =>
      { result := .error .DANGLING_ITERATOR, handle := it, cache_priority := cache_priority }
    | some _ =>
      let updated := cache_priority.updateSize (to_int64 size)
      { result := .ok ()
        handle := it
        cache_priority :=
          { updated with
            queue := updated.queue.assign iterator
              (fun e => { e with size := to_size_t ((e.size : Int) + size) }) } }

/-- The `chassert` conditions met by `incrementSize`. -/
def incrementSize_chassert (it : LRUIterator) (cache_priority : LRUFileCachePriority)
    (size : Nat) : Bool :=
  match it.iterator with
  | none => true
  | some iterator =>
    match cache_priority.queue.deref iterator with
    | none => true
    | some _ => decide (size ≠ 0) && cache_priority.updateSize_chassert (to_int64 size)

/-- `LRUIterator::decrementSize(size)`. -/
def decrementSize (it : LRUIterator) (cache_priority : LRUFileCachePriority) (size : Nat) :
    HandleCall Unit :=
  match it.assertValid with
  | .error failure =>
    { result := .error failure, handle := it, cache_priority := cache_priority }
  | .ok iterator =>
    match cache_priority.queue.deref iterator with
    | none =>
      { result := .error .DANGLING_ITERATOR, handle := it, cache_priority := cache_priority }
    | some _ =>
      let updated := cache_priority.updateSize (to_int64 (to_size_t (-(size : Int))))
      { result := .ok ()
        handle := it
        cache_priority :=
          { updated with
            queue := updated.queue.assign iterator
              (fun e => { e with size := to_size_t ((e.size : Int) - size) }) } }

/-- The `chassert` conditions met by `decrementSize`. -/
def decrementSize_chassert (it : LRUIterator) (cache_priority : LRUFileCachePriority)
    (size : Nat) : Bool :=
  match it.iterator with
  | none => true
  | some iterator =>
    match cache_priority.queue.deref iterator with
    | none => true
    | some entry =>
      decide (size ≠ 0) && decide (entry.size ≥ size)
        && cache_priority.updateSize_chassert (to_int64 (to_size_t (-(size : Int))))

/-- `LRUIterator::increasePriority(lock)`: splice to the tail, then `++hits`. -/
def increasePriority (it : LRUIterator) (cache_priority : LRUFileCachePriority) :
    HandleCall Nat :=
  match it.assertValid with
  | .error failure =>
    { result := .error failure, handle := it, cache_priority := cache_priority }
  | .ok iterator =>
    match cache_priority.queue.deref iterator with
    | none =>
      { result := .error .DANGLING_ITERATOR, handle := it, cache_priority := cache_priority }
    | some entry =>
      let spliced := cache_priority.queue.splice_end iterator
      { result := .ok (to_size_t ((entry.hits : Int) + 1))
        handle := it
        cache_priority :=
          { cache_priority with
            queue := spliced.assign iterator
              (fun e => { e with hits := to_size_t ((e.hits : Int) + 1) }) } }

end LRUIterator

/-- One call on the queue, directly or through a handle. -/
inductive Op where
  | add (entry : Entry)
  | remove (it : LRUIterator)
  | invalidate (it : LRUIterator)
  | incrementSize (it : LRUIterator) (size : Nat)
  | decrementSize (it : LRUIterator) (size : Nat)
  | increasePriority (it : LRUIterator)
deriving DecidableEq, Repr

/-- The queue object after one call; a call that throws leaves what it had written. -/
def Op.apply (ndebug : Bool) (self : LRUFileCachePriority) : Op → LRUFileCachePriority
  | .add entry => (self.add ndebug entry).self
  | .remove it => (it.remove self).cache_priority
  | .invalidate it => (it.invalidate self).cache_priority
  | .incrementSize it size => (it.incrementSize self size).cache_priority
  | .decrementSize it size => (it.decrementSize self size).cache_priority
  | .increasePriority it => (it.increasePriority self).cache_priority

/-- The asserted conditions that one call evaluates, on the state in which it is made. An
`add` reaches `updateSize` only when it accepts the entry, a `remove` only for a non-zero
size; a call that throws before its assertions evaluates none. -/
def Op.chassert (ndebug : Bool) (self : LRUFileCachePriority) : Op → Bool
  | .add entry =>
    match (self.add ndebug entry).result with
    | .error _ => true
    | .ok _ => self.updateSize_chassert (to_int64 entry.size)
  | .remove it =>
    match it.iterator with
    | none => true
    | some iterator =>
      match self.queue.deref iterator with
      | none => true
      | some entry =>
        decide (entry.size = 0)
          || self.updateSize_chassert (to_int64 (to_size_t (-(entry.size : Int))))
  | .invalidate it => it.invalidate_chassert self
  | .incrementSize it size => it.incrementSize_chassert self size
  | .decrementSize it size => it.decrementSize_chassert self size
  | .increasePriority _ => true

/-- Whether a call is one of `add`, `remove`, `invalidate`. -/
def Op.is_add_remove_invalidate : Op → Bool
  | .add _ => true
  | .remove _ => true
  | .invalidate _ => true
  | _ => false

/-- The queue object after a sequence of calls, first call first. -/
def run (ndebug : Bool) : LRUFileCachePriority → List Op → LRUFileCachePriority
  | self, [] => self
  | self, op :: rest => run ndebug (op.apply ndebug self) rest

/-- Whether every call of the sequence satisfies the assertions it evaluates. -/
def run_chassert (ndebug : Bool) : LRUFileCachePriority → List Op → Bool
  | _, [] => true
  | self, op :: rest =>
    op.chassert ndebug self && run_chassert ndebug (op.apply ndebug self) rest

/-- Whether a call leaves the liveness of the entry it resizes as the counters assume: an
`invalidate` meets an entry with `size > 0` (its assertion), and an `incrementSize` or
`decrementSize` meets an entry with `size > 0` and leaves it a size `> 0`. -/
def Op.keeps_liveness (self : LRUFileCachePriority) : Op → Bool
  | .invalidate it =>
    match it.iterator.bind self.queue.deref with
    | none => true
    | some entry => decide (entry.size ≠ 0)
  | .incrementSize it size =>
    match it.iterator.bind self.queue.deref with
    | none => true
    | some entry =>
      decide (entry.size ≠ 0) && decide (to_size_t ((entry.size : Int) + size) ≠ 0)
  | .decrementSize it size =>
    match it.iterator.bind self.queue.deref with
    | none => true
    | some entry =>
      decide (entry.size ≠ 0) && decide (to_size_t ((entry.size : Int) - size) ≠ 0)
  | _ => true

/-- Whether every call of the sequence keeps liveness, each on the state it is made in. -/
def run_keeps_liveness (ndebug : Bool) : LRUFileCachePriority → List Op → Bool
  | _, [] => true
  | self, op :: rest =>
    op.keeps_liveness self && run_keeps_liveness ndebug (op.apply ndebug self) rest

/-- Sum of the sizes of the linked entries with `size > 0`. -/
def live_size (queue : LRUQueue) : Nat :=
  ((queue.filter (fun n => decide (n.entry.size ≠ 0))).map (fun n => n.entry.size)).sum

/-- Number of linked entries with `size > 0`. -/
def live_count (queue : LRUQueue) : Nat :=
  (queue.filter (fun n => decide (n.entry.size ≠ 0))).length

/-- The `(key, offset)` pairs of the linked entries with `size > 0`, in queue order. -/
def live_keys (queue : LRUQueue) : List (FileCacheKey × Nat) :=
  (queue.filter (fun n => decide (n.entry.size ≠ 0))).map (fun n => (n.entry.key, n.entry.offset))

/-- What a call of `move` leaves: its outcome, the receiving queue and the giving queue. -/
structure MoveCall where
  result : Except Failure LRUIterator
  self : LRUFileCachePriority
  other : LRUFileCachePriority
deriving DecidableEq

/-- `move(it, other, lock)`: `self` and `other` are two distinct queue objects and `it` is
a position of `other`. `shared_state` says whether both were constructed on one `State`
object; then every counter update lands on that one object, whose value is read from
`self` and written to both. A position that is not a linked node of `other` cannot be
dereferenced. The moved node keeps its identity, and `next_id` of the receiver is kept
above it. Identities stand for node addresses, which no two linked nodes share, whatever
queue links them: the call models `move` for a position that is not the identity of a
node of `self`, and the handle it returns then denotes the moved node in `self`. -/
def LRUFileCachePriority.move (ndebug shared_state : Bool) (self other : LRUFileCachePriority)
    (it : LRUIterator) : MoveCall :=
  match it.iterator with
  | none => { result := .error .DANGLING_ITERATOR, self := self, other := other }
  | some iterator =>
    match other.queue.deref iterator with
    | none => { result := .error .DANGLING_ITERATOR, self := self, other := other }
    | some entry =>
      if entry.size = 0 then
        { result := .error .LOGICAL_ERROR, self := self, other := other }
      else if !ndebug && self.queue.any (fun queue_entry =>
          decide (queue_entry.entry.size ≠ 0) && decide (queue_entry.entry.key = entry.key)
            && decide (queue_entry.entry.offset = entry.offset)) then
        { result := .error .LOGICAL_ERROR, self := self, other := other }
      else
        let spliced_self : LRUFileCachePriority :=
          { self with
            queue := self.queue ++ [{ id := iterator, entry := entry }]
            next_id := max self.next_id (iterator + 1) }
        let spliced_other : LRUFileCachePriority :=
          { other with queue := other.queue.erase iterator }
        let grown := (spliced_self.updateSize (to_int64 entry.size)).updateElementsCount 1
        let giver : LRUFileCachePriority :=
          if shared_state then { spliced_other with state := grown.state } else spliced_other
        let shrunk :=
          (giver.updateSize (to_int64 (to_size_t (-(entry.size : Int))))).updateElementsCount
            (-1)
        { result := .ok { iterator := some iterator }
          self := if shared_state then { grown with state := shrunk.state } else grown
          other := shrunk }

/-! The walk over the queue, the eviction candidates and the reservation protocol. -/

/-- The value an `IterateFunc` returns. -/
inductive IterationResult where
  | BREAK
  | CONTINUE
  | REMOVE_AND_CONTINUE
deriving DecidableEq, Repr

/-- Modelled from the spec: the segment metadata (`FileSegmentMetadata`, declared in a header
that is not among the sources) as far as the queue reads it: the segment it describes, the
size it reports (`size()`) and whether it can be released (`releasable()`). -/
structure FileSegmentMetadata where
  key : FileCacheKey
  offset : Nat
  size : Nat
  releasable : Bool
deriving DecidableEq, Repr

/-- Modelled from the spec: the key metadata behind `entry.key_metadata`, as one walk
observes it. `tryLock key` says whether the non-blocking lock of the key is acquired;
`tryGetByOffset key offset` is the segment the locked key holds at that offset, if any.
The segment held at the key and offset of a queue entry is the segment of that entry. -/
structure CacheMetadata where
  tryLock : FileCacheKey → Bool
  tryGetByOffset : FileCacheKey → Nat → Option FileSegmentMetadata

/-- What one call of an `IterateFunc` leaves: the value it returns, what the closure
captured by reference, and the visited entry, which the closure reaches through the
segment metadata. -/
structure FuncReturn (σ : Type) where
  result : IterationResult
  captured : σ
  entry : Entry

/-- The callback `IterateFunc`: it is called with what it captured, the queue object as it
is at the call (to read), the visited node and its segment metadata. -/
abbrev IterateFunc (σ : Type) :=
  σ → LRUFileCachePriority → Node → FileSegmentMetadata → FuncReturn σ

/-- What `iterate` leaves: its outcome, the queue object, what the callback captured, and
the nodes handed to the callback, in the order of the calls and as they were handed. -/
structure IterateCall (σ : Type) where
  result : Except Failure Unit
  self : LRUFileCachePriority
  captured : σ
  delivered : List Node

/-- The loop of `iterate` with the cursor `it` at the head of `rest`; `visited` are the
nodes the cursor has passed and left linked. `self` carries the limits and the counters;
its queue is `visited ++ rest`. `remove(it, lock)` is `remove` on the object seen from
the cursor, and `++it` moves the head of `rest` behind `visited`. -/
def LRUFileCachePriority.iterate_loop {σ : Type} (metadata : CacheMetadata)
    (func : IterateFunc σ) :
    LRUQueue → LRUQueue → LRUFileCachePriority → σ → List Node → IterateCall σ
  | [], visited, self, captured, delivered =>
    { result := .ok (), self := { self with queue := visited }, captured := captured
      delivered := delivered }
  | n :: rest, visited, self, captured, delivered =>
    if n.entry.size = 0 then
      LRUFileCachePriority.iterate_loop metadata func rest visited
        ({ self with queue := n :: rest }.remove n.id).self captured delivered
    else if n.entry.evicting then
      LRUFileCachePriority.iterate_loop metadata func rest (visited ++ [n]) self captured
        delivered
    else if !metadata.tryLock n.entry.key || decide (n.entry.size = 0) then
      LRUFileCachePriority.iterate_loop metadata func rest visited
        ({ self with queue := n :: rest }.remove n.id).self captured delivered
    else
      match metadata.tryGetByOffset n.entry.key n.entry.offset with
      | none =>
        LRUFileCachePriority.iterate_loop metadata func rest visited
          ({ self with queue := n :: rest }.remove n.id).self captured delivered
      | some segment =>
        if segment.size ≠ n.entry.size then
          { result := .error .LOGICAL_ERROR
            self := { self with queue := visited ++ n :: rest }
            captured := captured
            delivered := delivered }
        else
          let returned := func captured { self with queue := visited ++ n :: rest } n segment
          let node : Node := { n with entry := returned.entry }
          match returned.result with
          | .BREAK =>
            { result := .ok ()
              self := { self with queue := visited ++ node :: rest }
              captured := returned.captured
              delivered := delivered ++ [n] }
          | .CONTINUE =>
            LRUFileCachePriority.iterate_loop metadata func rest (visited ++ [node]) self
              returned.captured (delivered ++ [n])
          | .REMOVE_AND_CONTINUE =>
            LRUFileCachePriority.iterate_loop metadata func rest visited
              ({ self with queue := node :: rest }.remove node.id).self returned.captured
              (delivered ++ [n])

/-- `iterate(func, lock)`: the loop from `queue.begin()`. -/
def LRUFileCachePriority.iterate {σ : Type} (self : LRUFileCachePriority)
    (metadata : CacheMetadata) (func : IterateFunc σ) (captured : σ) : IterateCall σ :=
  LRUFileCachePriority.iterate_loop metadata func self.queue [] self captured []

/-- Whether the walk hands a node to the callback when it stands at it, the size check
apart: `size > 0`, not evicting, key lock acquired, segment present at the offset. -/
def CacheMetadata.eligible (metadata : CacheMetadata) (n : Node) : Bool :=
  decide (n.entry.size ≠ 0) && !n.entry.evicting && metadata.tryLock n.entry.key
    && (metadata.tryGetByOffset n.entry.key n.entry.offset).isSome

/-- Whether the segment present at the key and offset of a node reports another size than
the entry. -/
def CacheMetadata.mismatch (metadata : CacheMetadata) (n : Node) : Bool :=
  match metadata.tryGetByOffset n.entry.key n.entry.offset with
  | none => false
  | some segment => decide (segment.size ≠ n.entry.size)

/-- Modelled from the spec: `getSize(lock)`, the counter `current_size`. -/
def LRUFileCachePriority.getSize (self : LRUFileCachePriority) : Nat := self.state.current_size

/-- Modelled from the spec: `getElementsCount(lock)`, the counter `current_elements_num`. -/
def LRUFileCachePriority.getElementsCount (self : LRUFileCachePriority) : Nat :=
  self.state.current_elements_num

/-- `releaseImpl(size, elements, IteratorPtr)`. -/
def LRUFileCachePriority.releaseImpl (self : LRUFileCachePriority) (size elements : Nat) :
    LRUFileCachePriority :=
  { self with state :=
      { current_size := to_size_t ((self.state.current_size : Int) - size)
        current_elements_num := to_size_t ((self.state.current_elements_num : Int) - elements) } }

/-- Modelled from the spec: the counters of `FileCacheReserveStat` (declared in a header
that is not among the sources): size and count of the releasable and of the
non-releasable segments met. -/
structure FileCacheReserveStat.Stat where
  releasable_size : Nat
  releasable_count : Nat
  non_releasable_size : Nat
  non_releasable_count : Nat
deriving DecidableEq, Repr

/-- Modelled from the spec: `FileCacheReserveStat`, read by the source as `stat.stat`. -/
structure FileCacheReserveStat where
  stat : FileCacheReserveStat.Stat
deriving DecidableEq, Repr

/-- Modelled from the spec: `FileCacheReserveStat::update(size, kind, releasable)`: the size
and one count go to the releasable or to the non-releasable side. The segment kind
selects a per-kind breakdown that the queue never reads. -/
def FileCacheReserveStat.update (self : FileCacheReserveStat) (size : Nat) (releasable : Bool) :
    FileCacheReserveStat :=
  if releasable then
    { stat := { self.stat with
        releasable_size := to_size_t ((self.stat.releasable_size : Int) + size)
        releasable_count := to_size_t ((self.stat.releasable_count : Int) + 1) } }
  else
    { stat := { self.stat with
        non_releasable_size := to_size_t ((self.stat.non_releasable_size : Int) + size)
        non_releasable_count := to_size_t ((self.stat.non_releasable_count : Int) + 1) } }

/-- The struct `EvictionCandidates::KeyCandidates`: the segments of one key (the
`key_metadata` reference is the key of the bucket). -/
structure KeyCandidates where
  candidates : List FileSegmentMetadata
deriving DecidableEq, Repr

/-- The class `EvictionCandidates`: the map `candidates` as a list with one pair per key,
`candidates_size`, and `queue_entries_to_invalidate`. The optional
`finalize_eviction_func` is not called by any function here. -/
structure EvictionCandidates where
  candidates : List (FileCacheKey × KeyCandidates)
  candidates_size : Nat
  queue_entries_to_invalidate : List LRUIterator
deriving DecidableEq, Repr

namespace EvictionCandidates

/-- The default constructor: no candidates. -/
def empty : EvictionCandidates :=
  { candidates := [], candidates_size := 0, queue_entries_to_invalidate := [] }

/-- `size()`. -/
def size (self : EvictionCandidates) : Nat := self.candidates_size

/-- The segments held, bucket after bucket. -/
def segments (self : EvictionCandidates) : List FileSegmentMetadata :=
  (self.candidates.map (fun bucket => bucket.2.candidates)).flatten

/-- The bucket list after `emplace(key, KeyCandidates{})` followed by `push_back(candidate)`
on the bucket of the key. -/
def push : List (FileCacheKey × KeyCandidates) → FileCacheKey → FileSegmentMetadata →
    List (FileCacheKey × KeyCandidates)
  | [], key, candidate => [(key, { candidates := [candidate] })]
  | bucket :: rest, key, candidate =>
    if bucket.1 = key then (bucket.1, { candidates := bucket.2.candidates ++ [candidate] }) :: rest
    else bucket :: push rest key candidate

/-- Modelled from the spec: `add(candidate, locked_key, lock)`, defined in a file that is not
among the sources. It inserts the segment under the bucket of its key (created on the
first insert), captures the iterator handle of the segment into
`queue_entries_to_invalidate`, sets the evicting flag of the entry behind it and
increments `candidates_size`. The result pairs the object with that entry. -/
def add (self : EvictionCandidates) (candidate : FileSegmentMetadata) (locked_key : FileCacheKey)
    (node : Node) : EvictionCandidates × Entry :=
  ({ candidates := push self.candidates locked_key candidate
     candidates_size := to_size_t ((self.candidates_size : Int) + 1)
     queue_entries_to_invalidate :=
       self.queue_entries_to_invalidate ++ [{ iterator := some node.id }] },
   { node.entry with evicting := true })

/-- The map after `std::unordered_map::insert(first, last)`: a pair is inserted only when
the map holds no pair with its key. -/
def insert_range : List (FileCacheKey × KeyCandidates) → List (FileCacheKey × KeyCandidates) →
    List (FileCacheKey × KeyCandidates)
  | map, [] => map
  | map, bucket :: rest =>
    if map.any (fun held => decide (held.1 = bucket.1)) then insert_range map rest
    else insert_range (map ++ [bucket]) rest

/-- `add(const EvictionCandidates & other, lock)`: the merge. -/
def add_other (self other : EvictionCandidates) : EvictionCandidates :=
  { self with candidates := insert_range self.candidates other.candidates }

/-- Modelled from the spec: the destructor of an object that was never finalized, defined in
a file that is not among the sources: it clears the evicting flag of every entry whose
handle the object captured. The result is the queue object after it. -/
def destroy (self : EvictionCandidates) (cache_priority : LRUFileCachePriority) :
    LRUFileCachePriority :=
  { cache_priority with
    queue := self.queue_entries_to_invalidate.foldl
      (fun queue handle =>
        match handle.iterator with
        | none => queue
        | some iterator => queue.assign iterator (fun e => { e with evicting := false }))
      cache_priority.queue }

end EvictionCandidates

/-- What the closures of the eviction walk capture by reference: `res` and `stat`. -/
structure EvictionWalk where
  res : EvictionCandidates
  stat : FileCacheReserveStat
deriving DecidableEq, Repr

/-- The lambda `iterate_func` of `iterateForEviction`. The asserted
`file_segment->assertCorrectness()` reads no state of the queue. -/
def LRUFileCachePriority.iterate_func (captured : EvictionWalk) (node : Node)
    (segment_metadata : FileSegmentMetadata) : FuncReturn EvictionWalk :=
  if segment_metadata.releasable then
    let added := captured.res.add segment_metadata node.entry.key node
    { result := .CONTINUE
      captured := { res := added.1, stat := captured.stat.update segment_metadata.size true }
      entry := added.2 }
  else
    { result := .CONTINUE
      captured := { captured with stat := captured.stat.update segment_metadata.size false }
      entry := node.entry }

/-- The lambda that `iterateForEviction` passes to `iterate`: `BREAK` when the stop
condition holds, `iterate_func` otherwise. The stop condition is a closure over the queue
object, `res` and `stat`, evaluated on their values at the call. -/
def LRUFileCachePriority.iterateForEviction_func
    (stop_condition : LRUFileCachePriority → EvictionCandidates → FileCacheReserveStat → Bool) :
    IterateFunc EvictionWalk :=
  fun captured here node segment_metadata =>
    if stop_condition here captured.res captured.stat then
      { result := .BREAK, captured := captured, entry := node.entry }
    else LRUFileCachePriority.iterate_func captured node segment_metadata

/-- `iterateForEviction(res, stat, stop_condition, lock)`. -/
def LRUFileCachePriority.iterateForEviction (self : LRUFileCachePriority)
    (metadata : CacheMetadata) (res : EvictionCandidates) (stat : FileCacheReserveStat)
    (stop_condition : LRUFileCachePriority → EvictionCandidates → FileCacheReserveStat → Bool) :
    IterateCall EvictionWalk :=
  self.iterate metadata (LRUFileCachePriority.iterateForEviction_func stop_condition)
    { res := res, stat := stat }

/-- What the reservation overload of `collectCandidatesForEviction` leaves: its outcome,
the queue object and the four arguments it takes by reference. -/
structure CollectCall where
  result : Except Failure Bool
  self : LRUFileCachePriority
  stat : FileCacheReserveStat
  res : EvictionCandidates
  reached_size_limit : Bool
  reached_elements_limit : Bool
deriving DecidableEq

/-- The closure `can_fit` of the reservation overload. -/
def LRUFileCachePriority.can_fit (size : Nat) (here : LRUFileCachePriority)
    (_res : EvictionCandidates) (stat : FileCacheReserveStat) : Bool :=
  (here.canFit size 1 stat.stat.releasable_size stat.stat.releasable_count none none).fits

/-- `collectCandidatesForEviction(size, stat, res, IteratorPtr, user_id,
reached_size_limit, reached_elements_limit, lock)`, the reservation overload. -/
def LRUFileCachePriority.collectCandidatesForEviction (self : LRUFileCachePriority)
    (metadata : CacheMetadata) (size : Nat) (stat : FileCacheReserveStat)
    (res : EvictionCandidates) (reached_size_limit reached_elements_limit : Bool) :
    CollectCall :=
  let first := self.canFit size 1 0 0 (some reached_size_limit) (some reached_elements_limit)
  let size_flag := first.reached_size_limit.getD reached_size_limit
  let elements_flag := first.reached_elements_limit.getD reached_elements_limit
  if first.fits then
    { result := .ok true, self := self, stat := stat, res := res
      reached_size_limit := size_flag, reached_elements_limit := elements_flag }
  else
    let walk := self.iterateForEviction metadata res stat (LRUFileCachePriority.can_fit size)
    { result :=
        match walk.result with
        | .error failure => .error failure
        | .ok _ =>
          .ok (LRUFileCachePriority.can_fit size walk.self walk.captured.res walk.captured.stat)
      self := walk.self
      stat := walk.captured.stat
      res := walk.captured.res
      reached_size_limit := size_flag
      reached_elements_limit := elements_flag }

/-- What the trimming overload of `collectCandidatesForEviction` leaves: the returned
candidates, the queue object and `stat`. -/
structure TrimCall where
  result : Except Failure EvictionCandidates
  self : LRUFileCachePriority
  stat : FileCacheReserveStat
deriving DecidableEq

/-- The closure `stop_condition` of the trimming overload. -/
def LRUFileCachePriority.trim_stop_condition
    (desired_size desired_elements_count max_candidates_to_evict : Nat)
    (here : LRUFileCachePriority) (res : EvictionCandidates) (_stat : FileCacheReserveStat) :
    Bool :=
  (decide (here.getSize ≤ desired_size) && decide (here.getElementsCount ≤ desired_elements_count))
    || decide (res.size ≥ max_candidates_to_evict)

/-- `collectCandidatesForEviction(desired_size, desired_elements_count,
max_candidates_to_evict, stat, lock)`, the trimming overload. Its `res` is a local object:
when the walk throws, the object is destroyed on the way out. -/
def LRUFileCachePriority.collectCandidatesForEviction_trim (self : LRUFileCachePriority)
    (metadata : CacheMetadata)
    (desired_size desired_elements_count max_candidates_to_evict : Nat)
    (stat : FileCacheReserveStat) : TrimCall :=
  if max_candidates_to_evict = 0 then
    { result := .ok EvictionCandidates.empty, self := self, stat := stat }
  else
    let walk := self.iterateForEviction metadata EvictionCandidates.empty stat
      (LRUFileCachePriority.trim_stop_condition desired_size desired_elements_count
        max_candidates_to_evict)
    match walk.result with
    | .error failure =>
      { result := .error failure
        self := walk.captured.res.destroy walk.self
        stat := walk.captured.stat }
    | .ok _ => { result := .ok walk.captured.res, self := walk.self, stat := walk.captured.stat }


/-- The queue in which every node whose identity is among `ids` has the evicting flag
`flag`, the other nodes being as they are. -/
def LRUQueue.set_evicting (queue : LRUQueue) (ids : List Nat) (flag : Bool) : LRUQueue :=
  queue.map (fun n =>
    if n.id ∈ ids then { n with entry := { n.entry with evicting := flag } } else n)

/-- `holdImpl(size, elements, IteratorPtr, lock)`. -/
def LRUFileCachePriority.holdImpl (self : LRUFileCachePriority) (size elements : Nat) :
    Call Unit :=
  if !self.canFit_short size elements then
    { result := .error .LOGICAL_ERROR, self := self }
  else
    { result := .ok ()
      self :=
        { self with state :=
            { current_size := to_size_t ((self.state.current_size : Int) + size)
              current_elements_num :=
                to_size_t ((self.state.current_elements_num : Int) + elements) } } }

/-! The function `firstTruthy`. -/

/-- Modelled from the spec: a column (`IColumn`, declared in a header that is not among the
sources) as far as `firstTruthy` reads it: `getDataType()`, `isNullAt(row)`,
`isDefaultAt(row)`, and the value at a row, which is what `insertFrom(column, row)`
appends to the result column. -/
structure IColumn (Field : Type) where
  getDataType : Nat
  isNullAt : Nat → Bool
  isDefaultAt : Nat → Bool
  value : Nat → Field

/-- Modelled from the spec: a data type (`IDataType`, declared in a header that is not among
the sources) as far as `firstTruthy` reads it: the data type of the column that
`createColumn()` creates, and the value of the rows of
`createColumnConstWithDefaultValue`. -/
structure IDataType (Field : Type) where
  column_data_type : Nat
  default_value : Field

/-- Modelled from the spec: `convertToFullColumnIfConst()`, a column with the data type and
the values of the constant column. -/
def IColumn.convertToFullColumnIfConst {Field : Type} (column : IColumn Field) :
    IColumn Field := column

/-- Modelled from the spec: `convertToFullColumnIfSparse()`, a column with the data type and
the values of the sparse column. -/
def IColumn.convertToFullColumnIfSparse {Field : Type} (column : IColumn Field) :
    IColumn Field := column

namespace FunctionFirstTruthy

/-- The loop of `executeImpl` that casts all arguments to the result type, in argument
order; it throws at the first casted column whose data type is not that of the result
column. `castColumn` is declared in a header that is not among the sources and is a
parameter here. -/
def cast_arguments {Field : Type}
    (castColumn : IColumn Field → IDataType Field → IColumn Field)
    (result_type : IDataType Field) :
    List (IColumn Field) → Except Failure (List (IColumn Field))
  | [] => .ok []
  | arg :: rest =>
    let casted_column :=
      ((castColumn arg result_type).convertToFullColumnIfConst).convertToFullColumnIfSparse
    if casted_column.getDataType ≠ result_type.column_data_type then .error .LOGICAL_ERROR
    else
      match cast_arguments castColumn result_type rest with
      | .error failure => .error failure
      | .ok casted_columns => .ok (casted_column :: casted_columns)

/-- The loop over `arg_idx` of one row while `found` is false, on the arguments and the
casted columns from `arg_idx` on: the value it inserts into the result column, if it
finds a truthy argument. -/
def scan_row {Field : Type} :
    List (IColumn Field) → List (IColumn Field) → Nat → Option Field
  | arg :: arguments, casted_column :: casted_columns, row =>
    if !arg.isNullAt row && !arg.isDefaultAt row then some (casted_column.value row)
    else scan_row arguments casted_columns row
  | _, _, _ => none

/-- `executeImpl(arguments, result_type, input_rows_count)`: the result column as the list
of its values, row after row. `back()` is taken of at least two casted columns. -/
def executeImpl {Field : Type}
    (castColumn : IColumn Field → IDataType Field → IColumn Field)
    (arguments : List (IColumn Field)) (result_type : IDataType Field)
    (input_rows_count : Nat) : Except Failure (List Field) :=
  match arguments with
  | [] => .ok (List.replicate input_rows_count result_type.default_value)
  | [argument] =>
    .ok ((List.range input_rows_count).map (castColumn argument result_type).value)
  | _ :: _ :: _ =>
    match cast_arguments castColumn result_type arguments with
    | .error failure => .error failure
    | .ok casted_columns =>
      .ok ((List.range input_rows_count).map (fun row =>
        match scan_row arguments casted_columns row with
        | some found => found
        | none =>
          match casted_columns.getLast? with
          | some last_column => last_column.value row
          | none => result_type.default_value))

end FunctionFirstTruthy

/-- Whether a walk whose callback removes nothing leaves a node linked when it passes it:
the node has `size > 0` and is evicting, or is handed to the callback. -/
def CacheMetadata.stays (metadata : CacheMetadata) (n : Node) : Bool :=
  decide (n.entry.size ≠ 0) && (n.entry.evicting || metadata.eligible n)

/-- Total of the sizes that the segments held by eviction candidates report. -/
def EvictionCandidates.segments_size (self : EvictionCandidates) : Nat :=
  (self.segments.map FileSegmentMetadata.size).sum

/-- Whether the segment at the key and offset of a node is present and releasable. -/
def CacheMetadata.releasable (metadata : CacheMetadata) (n : Node) : Bool :=
  match metadata.tryGetByOffset n.entry.key n.entry.offset with
  | none => false
  | some segment => segment.releasable

/-- The queue object with the counters it has once a walk has passed the nodes `passed`:
the sizes and the number of those it unlinks with `size > 0` are taken off, in `size_t`
arithmetic. -/
def LRUFileCachePriority.after_passing (self : LRUFileCachePriority) (metadata : CacheMetadata)
    (passed : LRUQueue) : LRUFileCachePriority :=
  { self with state :=
      { current_size := to_size_t ((self.state.current_size : Int)
          - live_size (passed.filter (fun n => !metadata.stays n)))
        current_elements_num := to_size_t ((self.state.current_elements_num : Int)
          - live_count (passed.filter (fun n => !metadata.stays n))) } }

/-- Whether an eviction walk registers a node when it hands it over before its stop
condition holds: the node is handed to the callback and its segment is releasable. -/
def CacheMetadata.collectible (metadata : CacheMetadata) (n : Node) : Bool :=
  metadata.eligible n && metadata.releasable n

/-- Instrumentation of a callback, to speak of the values it returns one call after the
other: `func` with a log added to what it captures. Each call hands its arguments to
`func`, returns what `func` returns, and appends the visited node and the returned value
to the log. -/
def IterateFunc.logged {σ : Type} (func : IterateFunc σ) :
    IterateFunc (σ × List (Node × IterationResult)) :=
  fun captured here node segment_metadata =>
    { result := (func captured.1 here node segment_metadata).result
      captured := ((func captured.1 here node segment_metadata).captured,
        captured.2 ++ [(node, (func captured.1 here node segment_metadata).result)])
      entry := (func captured.1 here node segment_metadata).entry }

/-- A specification function: `stat` after the segments of the nodes `classified` have
been counted by `update`, one after the other, each on the side its releasability selects,
with the size of the entry (the walk hands a segment over only when it reports that
size). What a walk leaves in `stat` is stated with it. -/
def FileCacheReserveStat.classify (self : FileCacheReserveStat) (metadata : CacheMetadata)
    (classified : LRUQueue) : FileCacheReserveStat :=
  classified.foldl (fun stat n => stat.update n.entry.size (metadata.releasable n)) self

/-- Sample entries and states of the end-to-end scenarios. -/
def Scenario.entry (key : FileCacheKey) (size : Nat) : Entry :=
  { key := key, offset := 0, size := size, hits := 0, evicting := false }

/-- Scenario 1 before the third add: `max_size = 100`, `max_elements = 0`, A(40), B(40). -/
def Scenario.basic (ndebug : Bool) : LRUFileCachePriority :=
  run ndebug (LRUFileCachePriority.construct 100 0 none)
    [.add (Scenario.entry 1 40), .add (Scenario.entry 2 40)]

/-- Scenario 2 before the promotion: unbounded queue holding A(10), B(10), C(10). -/
def Scenario.three (ndebug : Bool) : LRUFileCachePriority :=
  run ndebug (LRUFileCachePriority.construct 0 0 none)
    [.add (Scenario.entry 1 10), .add (Scenario.entry 2 10), .add (Scenario.entry 3 10)]

/-- Scenario 5 before the invalidation: unbounded queue holding A(30), B(30). -/
def Scenario.pair30 (ndebug : Bool) : LRUFileCachePriority :=
  run ndebug (LRUFileCachePriority.construct 0 0 none)
    [.add (Scenario.entry 1 30), .add (Scenario.entry 2 30)]

/-- Scenario 3: `max_size = 100`, `max_elements = 0`, A(50) then B(50). -/
def Scenario.pair50 (ndebug : Bool) : LRUFileCachePriority :=
  run ndebug (LRUFileCachePriority.construct 100 0 none)
    [.add (Scenario.entry 1 50), .add (Scenario.entry 2 50)]

/-- Key metadata in which every key can be locked and every entry has its segment, which
reports `size` and is releasable unless its key is `pinned`. -/
def Scenario.metadata (size : Nat) (pinned : FileCacheKey) : CacheMetadata :=
  { tryLock := fun _ => true
    tryGetByOffset := fun key offset =>
      some { key := key, offset := offset, size := size, releasable := decide (key ≠ pinned) } }

/-- Key metadata like `Scenario.metadata` in which the key `stale` cannot be locked. -/
def Scenario.metadata_stale (size : Nat) (stale : FileCacheKey) : CacheMetadata :=
  { tryLock := fun key => decide (key ≠ stale)
    tryGetByOffset := fun key offset =>
      some { key := key, offset := offset, size := size, releasable := true } }

/-- A fresh `FileCacheReserveStat`. -/
def Scenario.fresh_stat : FileCacheReserveStat :=
  { stat := { releasable_size := 0, releasable_count := 0, non_releasable_size := 0
              non_releasable_count := 0 } }

/-- A callback that captures nothing, leaves the entry alone and returns `CONTINUE`. -/
def Scenario.keep_going : IterateFunc Unit :=
  fun captured _ node _ => { result := .CONTINUE, captured := captured, entry := node.entry }

/-- Scenario 6: the queue Q1 after A(20) is added to it. -/
def Scenario.shared_giver (ndebug : Bool) : LRUFileCachePriority :=
  run ndebug (LRUFileCachePriority.construct 0 0 none) [.add (Scenario.entry 1 20)]

/-- Scenario 6: the empty queue Q2, constructed on the state of Q1. -/
def Scenario.shared_receiver (ndebug : Bool) : LRUFileCachePriority :=
  LRUFileCachePriority.construct 0 0 (some (Scenario.shared_giver ndebug).state)

/-- A sample column of integers with data type 1: a row is NULL where `nulls` says so and
default where its value is 0. -/
def Scenario.column (values : List Int) (nulls : List Bool) : IColumn Int :=
  { getDataType := 1
    isNullAt := fun row => nulls.getD row false
    isDefaultAt := fun row => decide (values.getD row 0 = 0)
    value := fun row => values.getD row 0 }

/-- The sample result type: data type 1, default 0. -/
def Scenario.result_type : IDataType Int := { column_data_type := 1, default_value := 0 }

end DB

/-! ## Arithmetic of the counters -/

namespace DB

open LRUFileCachePriority

theorem to_size_t_add_to_int64 (a b : Nat) :
    to_size_t ((a : Int) + to_int64 b) = (a + b) % SIZE_T_RANGE := by
  unfold to_size_t to_int64 SIZE_T_RANGE
  split <;> omega

theorem to_size_t_sub_to_int64 (a b : Nat) :
    ((to_size_t ((a : Int) + to_int64 (to_size_t (-(b : Int)))) : Nat) : Int)
      = ((a : Int) - b) % 18446744073709551616 := by
  unfold to_size_t to_int64
  split <;> omega

theorem to_size_t_cast (i : Int) :
    ((to_size_t i : Nat) : Int) = i % 18446744073709551616 := by
  unfold to_size_t; omega

/-- The assertions of `updateSize` hold for an increment by a non-zero size below `2 ^ 63`. -/
theorem LRUFileCachePriority.updateSize_chassert_increment (self : LRUFileCachePriority)
    (size : Nat) (h_pos : 0 < size) (h_small : size < 9223372036854775808) :
    self.updateSize_chassert (to_int64 size) = true := by
  unfold updateSize_chassert to_int64
  have h1 : size % 18446744073709551616 < 9223372036854775808 := by omega
  rw [if_pos h1]
  simp only [Bool.and_eq_true, Bool.or_eq_true, decide_eq_true_eq]
  omega

/-- The assertions of `updateSize` hold for a decrement by a non-zero `size_t` value that
does not exceed `current_size`. -/
theorem LRUFileCachePriority.updateSize_chassert_decrement (self : LRUFileCachePriority)
    (size : Nat) (h_pos : 0 < size) (h_le : size ≤ self.state.current_size)
    (h_range : size < SIZE_T_RANGE) :
    self.updateSize_chassert (to_int64 (to_size_t (-(size : Int)))) = true := by
  unfold SIZE_T_RANGE at h_range
  unfold updateSize_chassert to_int64 to_size_t
  simp only [Bool.and_eq_true, Bool.or_eq_true, decide_eq_true_eq]
  split <;> omega

/-! ## Limits: modifySizeLimits and canFit -/

/-- C1 (evaluation of the code): `modifySizeLimits` throws exactly when the limits differ
from the present ones and the usage reaches a present limit
(`current_size >= max_size` or `current_elements_num >= max_elements`, the old limits,
without a reading of 0 as unbounded); the requested limits are never compared. Hence an
empty queue with limits 100 / 0 cannot be given the limits 200 / 0, and a queue with
limits 100 / 10 holding one entry of size 50 accepts the limits 10 / 10. -/
theorem LRUFileCachePriority.modifySizeLimits_compares_old_limits :
    (∀ (self : LRUFileCachePriority) (max_size_ max_elements_ : Nat),
      (self.modifySizeLimits max_size_ max_elements_).result = .error .LOGICAL_ERROR ↔
        (¬ (self.max_size = max_size_ ∧ self.max_elements = max_elements_) ∧
          (self.state.current_size ≥ self.max_size
            ∨ self.state.current_elements_num ≥ self.max_elements)))
    ∧ ((construct 100 0 none).modifySizeLimits 200 0).result = .error .LOGICAL_ERROR
    ∧ (((construct 100 10 none).add false (Scenario.entry 1 50)).self.modifySizeLimits 10 10)
        = { result := .ok ()
            self := { max_size := 10, max_elements := 10
                      state := { current_size := 50, current_elements_num := 1 }
                      queue := [{ id := 0, entry := Scenario.entry 1 50 }]
                      next_id := 1 } } := by
  refine ⟨?_, by decide, by decide⟩
  intro self a b
  unfold modifySizeLimits
  by_cases h1 : self.max_size = a ∧ self.max_elements = b
  · simp [h1]
  · by_cases h2 : self.state.current_size ≥ self.max_size
        ∨ self.state.current_elements_num ≥ self.max_elements
    · simp only [h1, h2, if_true, if_false]; simp
    · simp only [h1, h2, if_false]; simp

/-- C2 (counterexample): with `max_size = 100` and `current_size = 80`, `canFit(0, 0, 90, 0)`
returns false although `80 + 0 - 90 <= 100` over the integers: the subtraction wraps. -/
theorem LRUFileCachePriority.canFit_wraps_below_zero :
    ¬ (((Scenario.basic false).canFit 0 0 90 0 none none).fits = true ↔
        (((Scenario.basic false).max_size = 0 ∨
            ((Scenario.basic false).state.current_size : Int) + 0 - 90
              ≤ (Scenario.basic false).max_size) ∧
          ((Scenario.basic false).max_elements = 0 ∨
            ((Scenario.basic false).state.current_elements_num : Int) + 0 - 0
              ≤ (Scenario.basic false).max_elements))) := by
  decide

/-- C2 (amended): whenever neither `current_size + size - released_size` nor
`current_elements_num + elements - released_elements` leaves the range of `size_t`,
`canFit` returns true exactly when both limits, 0 meaning unbounded, admit these values
read over the integers; the out-parameters accumulate the violated limits; and the
object after the call is the object before it. -/
theorem LRUFileCachePriority.canFit_iff_of_in_range (self : LRUFileCachePriority)
    (size elements released_size released_elements : Nat)
    (reached_size_limit reached_elements_limit : Option Bool)
    (h_size_low : released_size ≤ self.state.current_size + size)
    (h_size_high : self.state.current_size + size - released_size < SIZE_T_RANGE)
    (h_elements_low : released_elements ≤ self.state.current_elements_num + elements)
    (h_elements_high :
      self.state.current_elements_num + elements - released_elements < SIZE_T_RANGE) :
    ((self.canFit size elements released_size released_elements
          reached_size_limit reached_elements_limit).fits = true ↔
        ((self.max_size = 0 ∨
            (self.state.current_size : Int) + size - released_size ≤ self.max_size) ∧
          (self.max_elements = 0 ∨
            (self.state.current_elements_num : Int) + elements - released_elements
              ≤ self.max_elements)))
    ∧ (self.canFit size elements released_size released_elements
          reached_size_limit reached_elements_limit).self = self := by
  unfold SIZE_T_RANGE at h_size_high h_elements_high
  have e1 : ((to_size_t ((self.state.current_size : Int) + size - released_size) : Nat) : Int)
      = (self.state.current_size : Int) + size - released_size := by
    unfold to_size_t; omega
  have e2 : ((to_size_t ((self.state.current_elements_num : Int) + elements
      - released_elements) : Nat) : Int)
      = (self.state.current_elements_num : Int) + elements - released_elements := by
    unfold to_size_t; omega
  refine ⟨?_, rfl⟩
  simp only [canFit, Bool.and_eq_true, Bool.or_eq_true, decide_eq_true_eq]
  generalize to_size_t ((self.state.current_size : Int) + size - released_size) = x at e1 ⊢
  generalize to_size_t ((self.state.current_elements_num : Int) + elements
      - released_elements) = y at e2 ⊢
  omega

/-- C2 (witness): scenario 1 with A(40), B(40) linked, asking for 30 bytes and one element
with 40 bytes and one element assumed released. -/
theorem LRUFileCachePriority.canFit_iff_of_in_range_witness :
    (((Scenario.basic false).canFit 30 1 40 1 none none).fits = true ↔
        (((Scenario.basic false).max_size = 0 ∨
            ((Scenario.basic false).state.current_size : Int) + (30 : Nat) - (40 : Nat)
              ≤ (Scenario.basic false).max_size) ∧
          ((Scenario.basic false).max_elements = 0 ∨
            ((Scenario.basic false).state.current_elements_num : Int) + (1 : Nat) - (1 : Nat)
              ≤ (Scenario.basic false).max_elements)))
    ∧ ((Scenario.basic false).canFit 30 1 40 1 none none).self = Scenario.basic false :=
  LRUFileCachePriority.canFit_iff_of_in_range (Scenario.basic false) 30 1 40 1 none none
    (by decide) (by decide) (by decide) (by decide)

/-! ## add -/

/-- The duplicate scan of `add` and `move` finds nothing when it is compiled out or when no
linked entry with `size > 0` has the identity of `entry`. -/
theorem duplicate_scan_eq_false (ndebug : Bool) (queue : LRUQueue) (entry : Entry)
    (h_dup : ndebug = true ∨ ∀ n ∈ queue, n.entry.size ≠ 0 →
      ¬ (n.entry.key = entry.key ∧ n.entry.offset = entry.offset)) :
    (!ndebug && queue.any (fun queue_entry =>
      decide (queue_entry.entry.size ≠ 0) && decide (queue_entry.entry.key = entry.key)
        && decide (queue_entry.entry.offset = entry.offset))) = false := by
  rcases h_dup with h | h
  · simp [h]
  · rw [Bool.and_eq_false_iff]
    right
    rw [List.any_eq_false]
    intro n hn
    have hn2 := h n hn
    simp only [Bool.and_eq_true, decide_eq_true_eq, not_and]
    intro h1 h2
    exact hn2 h1.1 ⟨h1.2, h2⟩

/-- The duplicate scan of a debug build finds a linked entry with `size > 0` and the
identity of `entry`. -/
theorem duplicate_scan_eq_true (queue : LRUQueue) (entry : Entry) (n : Node)
    (hn : n ∈ queue) (h_live : n.entry.size ≠ 0) (h_key : n.entry.key = entry.key)
    (h_offset : n.entry.offset = entry.offset) :
    (!false && queue.any (fun queue_entry =>
      decide (queue_entry.entry.size ≠ 0) && decide (queue_entry.entry.key = entry.key)
        && decide (queue_entry.entry.offset = entry.offset))) = true := by
  simp only [Bool.not_false, Bool.true_and, List.any_eq_true, Bool.and_eq_true,
    decide_eq_true_eq]
  exact ⟨n, hn, ⟨h_live, h_key⟩, h_offset⟩

/-- The object and handle that `add` leaves when it accepts the entry. -/
theorem LRUFileCachePriority.add_eq_of_accepted (ndebug : Bool) (self : LRUFileCachePriority)
    (entry : Entry) (h_size : entry.size ≠ 0)
    (h_dup : ndebug = true ∨ ∀ n ∈ self.queue, n.entry.size ≠ 0 →
      ¬ (n.entry.key = entry.key ∧ n.entry.offset = entry.offset))
    (h_fit : self.max_size = 0 ∨
      (self.state.current_size + entry.size) % SIZE_T_RANGE ≤ self.max_size) :
    self.add ndebug entry =
      { result := .ok { iterator := some self.next_id }
        self :=
          { max_size := self.max_size
            max_elements := self.max_elements
            state :=
              { current_size := (self.state.current_size + entry.size) % SIZE_T_RANGE
                current_elements_num := (self.state.current_elements_num + 1) % SIZE_T_RANGE }
            queue := self.queue ++ [{ id := self.next_id, entry := entry }]
            next_id := self.next_id + 1 } } := by
  have hany := duplicate_scan_eq_false ndebug self.queue entry h_dup
  have hlim : ¬ (self.getSizeLimit ≠ 0 ∧
      to_size_t ((self.state.current_size : Int) + entry.size) > self.getSizeLimit) := by
    unfold getSizeLimit to_size_t
    unfold SIZE_T_RANGE at h_fit
    omega
  have e1 := to_size_t_add_to_int64 self.state.current_size entry.size
  have e2 : to_size_t ((self.state.current_elements_num : Int) + 1)
      = (self.state.current_elements_num + 1) % SIZE_T_RANGE := by
    unfold to_size_t SIZE_T_RANGE; omega
  unfold add
  rw [if_neg h_size, hany]
  simp only [Bool.false_eq_true, if_false, hlim, updateSize, updateElementsCount, e1, e2]

/-- The two outcomes of `add`: a logic error with the object untouched, or acceptance,
which happens only for a non-zero size that passes the duplicate scan and the size limit. -/
theorem LRUFileCachePriority.add_cases (ndebug : Bool) (self : LRUFileCachePriority)
    (entry : Entry) :
    self.add ndebug entry = { result := .error .LOGICAL_ERROR, self := self } ∨
      (entry.size ≠ 0 ∧
        (!ndebug && self.queue.any (fun queue_entry =>
          decide (queue_entry.entry.size ≠ 0) && decide (queue_entry.entry.key = entry.key)
            && decide (queue_entry.entry.offset = entry.offset))) = false ∧
        (self.max_size = 0 ∨
          (self.state.current_size + entry.size) % SIZE_T_RANGE ≤ self.max_size) ∧
        self.add ndebug entry =
          { result := .ok { iterator := some self.next_id }
            self :=
              { max_size := self.max_size
                max_elements := self.max_elements
                state :=
                  { current_size := (self.state.current_size + entry.size) % SIZE_T_RANGE
                    current_elements_num :=
                      (self.state.current_elements_num + 1) % SIZE_T_RANGE }
                queue := self.queue ++ [{ id := self.next_id, entry := entry }]
                next_id := self.next_id + 1 } }) := by
  by_cases h0 : entry.size = 0
  · left; unfold add; rw [if_pos h0]
  · by_cases hscan : (!ndebug && self.queue.any (fun queue_entry =>
        decide (queue_entry.entry.size ≠ 0) && decide (queue_entry.entry.key = entry.key)
          && decide (queue_entry.entry.offset = entry.offset))) = true
    · left; unfold add; rw [if_neg h0, if_pos hscan]
    · by_cases hfit : self.max_size = 0 ∨
          (self.state.current_size + entry.size) % SIZE_T_RANGE ≤ self.max_size
      · right
        refine ⟨h0, Bool.eq_false_iff.mpr hscan, hfit, ?_⟩
        have hlim : ¬ (self.getSizeLimit ≠ 0 ∧
            to_size_t ((self.state.current_size : Int) + entry.size) > self.getSizeLimit) := by
          unfold getSizeLimit to_size_t
          unfold SIZE_T_RANGE at hfit
          omega
        have e1 := to_size_t_add_to_int64 self.state.current_size entry.size
        have e2 : to_size_t ((self.state.current_elements_num : Int) + 1)
            = (self.state.current_elements_num + 1) % SIZE_T_RANGE := by
          unfold to_size_t SIZE_T_RANGE; omega
        unfold add
        rw [if_neg h0, if_neg hscan]
        simp only [hlim, if_false, updateSize, updateElementsCount, e1, e2]
      · left
        have hlim : self.getSizeLimit ≠ 0 ∧
            to_size_t ((self.state.current_size : Int) + entry.size) > self.getSizeLimit := by
          unfold getSizeLimit to_size_t
          unfold SIZE_T_RANGE at hfit
          omega
        unfold add
        rw [if_neg h0, if_neg hscan]
        dsimp only
        rw [if_pos hlim]

/-- Every throw of `add` is a logic error that leaves the object as it was. -/
theorem LRUFileCachePriority.add_eq_of_error (ndebug : Bool) (self : LRUFileCachePriority)
    (entry : Entry) (failure : Failure) (h : (self.add ndebug entry).result = .error failure) :
    self.add ndebug entry = { result := .error .LOGICAL_ERROR, self := self } := by
  rcases LRUFileCachePriority.add_cases ndebug self entry with hc | ⟨_, _, _, hc⟩
  · exact hc
  · rw [hc] at h
    cases h

/-- C3: for every build, every queue state and every entry with `size > 0` that has no
linked duplicate with `size > 0` and fits the size limit (`max_size = 0`, or
`current_size + entry.size <= max_size` as the code computes it), `add` returns a handle
on a new node, keeps the existing nodes in their order with the new entry last, increases
`current_size` by `entry.size` and `current_elements_num` by 1 (in `size_t` arithmetic,
so exactly whenever the sums stay below `2 ^ 64`) and leaves the limits alone; the
assertions of `updateSize` hold on the way for every size below `2 ^ 63`. -/
theorem LRUFileCachePriority.add_appends_at_tail (ndebug : Bool) (self : LRUFileCachePriority)
    (entry : Entry) (h_size : 0 < entry.size)
    (h_dup : ∀ n ∈ self.queue, 0 < n.entry.size →
      ¬ (n.entry.key = entry.key ∧ n.entry.offset = entry.offset))
    (h_fit : self.max_size = 0 ∨
      (self.state.current_size + entry.size) % SIZE_T_RANGE ≤ self.max_size) :
    (self.add ndebug entry).result = .ok { iterator := some self.next_id }
    ∧ (self.add ndebug entry).self.queue = self.queue ++ [{ id := self.next_id, entry := entry }]
    ∧ (self.add ndebug entry).self.state.current_size
        = (self.state.current_size + entry.size) % SIZE_T_RANGE
    ∧ (self.add ndebug entry).self.state.current_elements_num
        = (self.state.current_elements_num + 1) % SIZE_T_RANGE
    ∧ (self.state.current_size + entry.size < SIZE_T_RANGE →
        (self.add ndebug entry).self.state.current_size = self.state.current_size + entry.size)
    ∧ (self.state.current_elements_num + 1 < SIZE_T_RANGE →
        (self.add ndebug entry).self.state.current_elements_num
          = self.state.current_elements_num + 1)
    ∧ (self.add ndebug entry).self.max_size = self.max_size
    ∧ (self.add ndebug entry).self.max_elements = self.max_elements
    ∧ (entry.size < 9223372036854775808 →
        self.updateSize_chassert (to_int64 entry.size) = true) := by
  have h := LRUFileCachePriority.add_eq_of_accepted ndebug self entry (by omega)
    (Or.inr (fun n hn hlive => h_dup n hn (by omega))) h_fit
  rw [h]
  refine ⟨rfl, rfl, rfl, rfl, ?_, ?_, rfl, rfl, ?_⟩
  · intro hlt; exact Nat.mod_eq_of_lt hlt
  · intro hlt; exact Nat.mod_eq_of_lt hlt
  · intro hlt
    exact LRUFileCachePriority.updateSize_chassert_increment self entry.size h_size hlt

/-- C3 (witness): adding B(40) to the queue of scenario 1 that holds A(40). -/
theorem LRUFileCachePriority.add_appends_at_tail_witness :
    ((run false (construct 100 0 none) [.add (Scenario.entry 1 40)]).add false
        (Scenario.entry 2 40)).result = .ok { iterator := some 1 }
    ∧ ((run false (construct 100 0 none) [.add (Scenario.entry 1 40)]).add false
        (Scenario.entry 2 40)).self.queue
        = [{ id := 0, entry := Scenario.entry 1 40 }, { id := 1, entry := Scenario.entry 2 40 }]
    ∧ ((run false (construct 100 0 none) [.add (Scenario.entry 1 40)]).add false
        (Scenario.entry 2 40)).self.state = { current_size := 80, current_elements_num := 2 } := by
  have h := LRUFileCachePriority.add_appends_at_tail false
    (run false (construct 100 0 none) [.add (Scenario.entry 1 40)]) (Scenario.entry 2 40)
    (by decide) (by decide) (by decide)
  exact ⟨h.1, h.2.1, by decide⟩

/-- C4: in every build `add` throws a logic error when `entry.size = 0`, and when
`max_size > 0` and `current_size + entry.size` (as the code computes it) exceeds
`max_size`; the object after the throw is the object before the call. -/
theorem LRUFileCachePriority.add_rejects_zero_size_and_overcommit (ndebug : Bool)
    (self : LRUFileCachePriority) (entry : Entry)
    (h : entry.size = 0 ∨
      (0 < self.max_size ∧
        (self.state.current_size + entry.size) % SIZE_T_RANGE > self.max_size)) :
    self.add ndebug entry = { result := .error .LOGICAL_ERROR, self := self } := by
  rcases LRUFileCachePriority.add_cases ndebug self entry with hc | ⟨h0, _, hfit, _⟩
  · exact hc
  · exfalso
    rcases h with h | ⟨h1, h2⟩
    · exact h0 h
    · omega

/-- C4 (witness): scenario 1, `max_size = 100` holding A(40) and B(40); adding C(30) is
rejected because 110 > 100, and the queue and counters stay as they were. -/
theorem LRUFileCachePriority.add_rejects_zero_size_and_overcommit_witness :
    (Scenario.basic false).state = { current_size := 80, current_elements_num := 2 }
    ∧ (Scenario.basic false).add false (Scenario.entry 3 30)
        = { result := .error .LOGICAL_ERROR, self := Scenario.basic false } :=
  ⟨by decide,
    LRUFileCachePriority.add_rejects_zero_size_and_overcommit false (Scenario.basic false)
      (Scenario.entry 3 30) (Or.inr (by decide))⟩

/-! ## The live size along sequences of calls -/

theorem live_size_nil : live_size [] = 0 := rfl

theorem live_size_cons (n : Node) (queue : LRUQueue) :
    live_size (n :: queue) = n.entry.size + live_size queue := by
  unfold live_size
  by_cases h : n.entry.size = 0
  · simp [List.filter_cons, h]
  · simp [List.filter_cons, h]

theorem live_size_append (q1 q2 : LRUQueue) :
    live_size (q1 ++ q2) = live_size q1 + live_size q2 := by
  induction q1 with
  | nil => simp [live_size_nil]
  | cons n rest ih => rw [List.cons_append, live_size_cons, live_size_cons, ih]; omega

theorem live_size_erase (queue : LRUQueue) (it : Nat) (entry : Entry)
    (h : queue.deref it = some entry) :
    live_size (queue.erase it) + entry.size = live_size queue := by
  induction queue with
  | nil => simp [LRUQueue.deref] at h
  | cons n rest ih =>
    unfold LRUQueue.deref at h
    unfold LRUQueue.erase
    by_cases hid : n.id = it
    · rw [if_pos hid] at h
      rw [if_pos hid, live_size_cons]
      cases h
      omega
    · rw [if_neg hid] at h
      rw [if_neg hid, live_size_cons, live_size_cons]
      have := ih h
      omega

theorem live_size_assign (queue : LRUQueue) (it : Nat) (f : Entry → Entry) (entry : Entry)
    (h : queue.deref it = some entry) :
    live_size (queue.assign it f) + entry.size = live_size queue + (f entry).size := by
  induction queue with
  | nil => simp [LRUQueue.deref] at h
  | cons n rest ih =>
    unfold LRUQueue.deref at h
    unfold LRUQueue.assign
    by_cases hid : n.id = it
    · rw [if_pos hid] at h
      rw [if_pos hid, live_size_cons, live_size_cons]
      cases h
      simp only
      omega
    · rw [if_neg hid] at h
      rw [if_neg hid, live_size_cons, live_size_cons]
      have := ih h
      omega

theorem live_size_splice_end (queue : LRUQueue) (it : Nat) :
    live_size (queue.splice_end it) = live_size queue := by
  unfold LRUQueue.splice_end
  split
  · rfl
  · rename_i entry h
    rw [live_size_append, live_size_cons, live_size_nil]
    have := live_size_erase queue it entry h
    simp only
    omega


theorem live_size_assign_of_size_eq (queue : LRUQueue) (it : Nat) (f : Entry → Entry)
    (hf : ∀ e, (f e).size = e.size) :
    live_size (queue.assign it f) = live_size queue := by
  induction queue with
  | nil => rfl
  | cons n rest ih =>
    unfold LRUQueue.assign
    by_cases hid : n.id = it
    · rw [if_pos hid, live_size_cons, live_size_cons]
      simp only [hf]
    · rw [if_neg hid, live_size_cons, live_size_cons, ih]

/-- The queue-level `remove` keeps `current_size` equal to the live size modulo `2 ^ 64`. -/
theorem LRUFileCachePriority.remove_current_size (self : LRUFileCachePriority) (it : Nat)
    (h : self.state.current_size = live_size self.queue % SIZE_T_RANGE) :
    (self.remove it).self.state.current_size
      = live_size (self.remove it).self.queue % SIZE_T_RANGE := by
  unfold LRUFileCachePriority.remove
  cases hd : self.queue.deref it with
  | none => exact h
  | some entry =>
    have hsum := live_size_erase self.queue it entry hd
    have hsub := to_size_t_sub_to_int64 self.state.current_size entry.size
    unfold SIZE_T_RANGE at h ⊢
    by_cases h0 : entry.size = 0
    · simp only [h0, ne_eq, not_true_eq_false, if_false]
      omega
    · simp only [h0, ne_eq, not_false_eq_true, if_true, updateSize, updateElementsCount]
      omega

/-- Every call keeps `current_size` equal to the live size modulo `2 ^ 64`. -/
theorem Op.apply_current_size (ndebug : Bool) (self : LRUFileCachePriority) (op : Op)
    (h : self.state.current_size = live_size self.queue % SIZE_T_RANGE) :
    (op.apply ndebug self).state.current_size
      = live_size (op.apply ndebug self).queue % SIZE_T_RANGE := by
  cases op with
  | add entry =>
    simp only [Op.apply]
    rcases LRUFileCachePriority.add_cases ndebug self entry with hc | ⟨_, _, _, hc⟩
    · rw [hc]; exact h
    · rw [hc]
      simp only [live_size_append, live_size_cons, live_size_nil]
      unfold SIZE_T_RANGE at h ⊢
      omega
  | remove it =>
    rcases it with ⟨_ | iterator⟩
    · exact h
    · have := LRUFileCachePriority.remove_current_size self iterator h
      simp only [Op.apply, LRUIterator.remove, LRUIterator.assertValid]
      split <;> exact this
  | invalidate it =>
    rcases it with ⟨_ | iterator⟩
    · exact h
    · simp only [Op.apply, LRUIterator.invalidate, LRUIterator.assertValid]
      cases hd : self.queue.deref iterator with
      | none => exact h
      | some entry =>
        have hsum := live_size_assign self.queue iterator (fun e => { e with size := 0 }) entry hd
        have hsub := to_size_t_sub_to_int64 self.state.current_size entry.size
        simp only [updateSize, updateElementsCount]
        simp only at hsum
        unfold SIZE_T_RANGE at h ⊢
        omega
  | incrementSize it size =>
    rcases it with ⟨_ | iterator⟩
    · exact h
    · simp only [Op.apply, LRUIterator.incrementSize, LRUIterator.assertValid]
      cases hd : self.queue.deref iterator with
      | none => exact h
      | some entry =>
        have hsum := live_size_assign self.queue iterator
          (fun e => { e with size := to_size_t ((e.size : Int) + size) }) entry hd
        have hadd := to_size_t_add_to_int64 self.state.current_size size
        have hts := to_size_t_cast ((entry.size : Int) + size)
        simp only [updateSize]
        simp only at hsum
        unfold SIZE_T_RANGE at h hadd ⊢
        omega
  | decrementSize it size =>
    rcases it with ⟨_ | iterator⟩
    · exact h
    · simp only [Op.apply, LRUIterator.decrementSize, LRUIterator.assertValid]
      cases hd : self.queue.deref iterator with
      | none => exact h
      | some entry =>
        have hsum := live_size_assign self.queue iterator
          (fun e => { e with size := to_size_t ((e.size : Int) - size) }) entry hd
        have hsub := to_size_t_sub_to_int64 self.state.current_size size
        have hts := to_size_t_cast ((entry.size : Int) - size)
        simp only [updateSize]
        simp only at hsum
        unfold SIZE_T_RANGE at h ⊢
        omega
  | increasePriority it =>
    rcases it with ⟨_ | iterator⟩
    · exact h
    · simp only [Op.apply, LRUIterator.increasePriority, LRUIterator.assertValid]
      cases hd : self.queue.deref iterator with
      | none => exact h
      | some entry =>
        simp only
        rw [live_size_assign_of_size_eq (self.queue.splice_end iterator) iterator
          (fun e => { e with hits := to_size_t ((e.hits : Int) + 1) }) (fun e => rfl),
          live_size_splice_end]
        exact h

theorem run_current_size (ndebug : Bool) (ops : List Op) :
    ∀ self : LRUFileCachePriority,
      self.state.current_size = live_size self.queue % SIZE_T_RANGE →
      (run ndebug self ops).state.current_size
        = live_size (run ndebug self ops).queue % SIZE_T_RANGE := by
  induction ops with
  | nil => intro self h; exact h
  | cons op rest ih =>
    intro self h
    unfold run
    exact ih _ (Op.apply_current_size ndebug self op h)

/-- No call changes the limits. -/
theorem Op.apply_limits (ndebug : Bool) (self : LRUFileCachePriority) (op : Op) :
    (op.apply ndebug self).max_size = self.max_size
      ∧ (op.apply ndebug self).max_elements = self.max_elements := by
  cases op with
  | add entry =>
    simp only [Op.apply]
    rcases LRUFileCachePriority.add_cases ndebug self entry with hc | ⟨_, _, _, hc⟩ <;>
      rw [hc] <;> exact ⟨rfl, rfl⟩
  | remove it =>
    rcases it with ⟨_ | iterator⟩
    · exact ⟨rfl, rfl⟩
    · have hr : (self.remove iterator).self.max_size = self.max_size
          ∧ (self.remove iterator).self.max_elements = self.max_elements := by
        unfold LRUFileCachePriority.remove
        split
        · exact ⟨rfl, rfl⟩
        · simp only [updateSize, updateElementsCount]
          split <;> exact ⟨rfl, rfl⟩
      simp only [Op.apply, LRUIterator.remove, LRUIterator.assertValid]
      split <;> exact hr
  | invalidate it =>
    rcases it with ⟨_ | iterator⟩
    · exact ⟨rfl, rfl⟩
    · simp only [Op.apply, LRUIterator.invalidate, LRUIterator.assertValid]
      split <;> exact ⟨rfl, rfl⟩
  | incrementSize it size =>
    rcases it with ⟨_ | iterator⟩
    · exact ⟨rfl, rfl⟩
    · simp only [Op.apply, LRUIterator.incrementSize, LRUIterator.assertValid]
      split <;> exact ⟨rfl, rfl⟩
  | decrementSize it size =>
    rcases it with ⟨_ | iterator⟩
    · exact ⟨rfl, rfl⟩
    · simp only [Op.apply, LRUIterator.decrementSize, LRUIterator.assertValid]
      split <;> exact ⟨rfl, rfl⟩
  | increasePriority it =>
    rcases it with ⟨_ | iterator⟩
    · exact ⟨rfl, rfl⟩
    · simp only [Op.apply, LRUIterator.increasePriority, LRUIterator.assertValid]
      split <;> exact ⟨rfl, rfl⟩

theorem run_limits (ndebug : Bool) (ops : List Op) :
    ∀ self : LRUFileCachePriority,
      (run ndebug self ops).max_size = self.max_size
        ∧ (run ndebug self ops).max_elements = self.max_elements := by
  induction ops with
  | nil => intro self; exact ⟨rfl, rfl⟩
  | cons op rest ih =>
    intro self
    unfold run
    have h1 := ih (op.apply ndebug self)
    have h2 := Op.apply_limits ndebug self op
    exact ⟨h1.1.trans h2.1, h1.2.trans h2.2⟩

/-- C5 (counterexample): with `max_elements = 1`, a debug build accepts a second entry;
afterwards `current_elements_num = 2` and `canFit(0, 0)` is false. -/
theorem LRUFileCachePriority.add_ignores_max_elements :
    ((run false (construct 0 1 none) [.add (Scenario.entry 1 10)]).add false
        (Scenario.entry 2 10)).result = .ok { iterator := some 1 }
    ∧ ((run false (construct 0 1 none) [.add (Scenario.entry 1 10)]).add false
        (Scenario.entry 2 10)).self.state = { current_size := 20, current_elements_num := 2 }
    ∧ ((run false (construct 0 1 none) [.add (Scenario.entry 1 10)]).add false
        (Scenario.entry 2 10)).self.max_elements = 1
    ∧ ((run false (construct 0 1 none) [.add (Scenario.entry 1 10)]).add false
        (Scenario.entry 2 10)).self.canFit_short 0 0 = false := by
  decide

/-- C5 (amended): for every build, every pair of limits and every sequence of calls made on
the queue constructed empty with them, an `add` that returns leaves the limits as
constructed and `current_size <= max_size` when `max_size > 0`; `add` never reads
`max_elements`, and after it `canFit(0, 0)` holds exactly when `max_elements = 0` or
`current_elements_num <= max_elements`. -/
theorem LRUFileCachePriority.add_success_within_size_limit (ndebug : Bool)
    (max_size_ max_elements_ : Nat) (ops : List Op) (entry : Entry) (it : LRUIterator)
    (h_ok : ((run ndebug (construct max_size_ max_elements_ none) ops).add ndebug entry).result
      = .ok it) :
    ((run ndebug (construct max_size_ max_elements_ none) ops).add ndebug entry).self.max_size
        = max_size_
    ∧ ((run ndebug (construct max_size_ max_elements_ none) ops).add ndebug
        entry).self.max_elements = max_elements_
    ∧ (max_size_ = 0 ∨
        ((run ndebug (construct max_size_ max_elements_ none) ops).add ndebug
          entry).self.state.current_size ≤ max_size_)
    ∧ (((run ndebug (construct max_size_ max_elements_ none) ops).add ndebug
          entry).self.canFit_short 0 0 = true ↔
        (max_elements_ = 0 ∨
          ((run ndebug (construct max_size_ max_elements_ none) ops).add ndebug
            entry).self.state.current_elements_num ≤ max_elements_)) := by
  have hl := run_limits ndebug ops (construct max_size_ max_elements_ none)
  generalize run ndebug (construct max_size_ max_elements_ none) ops = q at h_ok hl ⊢
  have hl1 : q.max_size = max_size_ := hl.1
  have hl2 : q.max_elements = max_elements_ := hl.2
  rcases LRUFileCachePriority.add_cases ndebug q entry with hc | ⟨_, _, hfit, hc⟩
  · rw [hc] at h_ok; cases h_ok
  · rw [hc]
    simp only [canFit_short, canFit, Bool.and_eq_true, Bool.or_eq_true, decide_eq_true_eq]
    have c1 := to_size_t_cast
      (((((q.state.current_size + entry.size) % SIZE_T_RANGE : Nat) : Int) + (0 : Nat)) - (0 : Nat))
    have c2 := to_size_t_cast
      (((((q.state.current_elements_num + 1) % SIZE_T_RANGE : Nat) : Int) + (0 : Nat)) - (0 : Nat))
    unfold SIZE_T_RANGE at hfit c1 c2 ⊢
    refine ⟨hl1, hl2, ?_, ?_⟩
    · omega
    · omega

/-- C5 (witness): scenario 1, the add of B(40) after A(40) under `max_size = 100`. -/
theorem LRUFileCachePriority.add_success_within_size_limit_witness :
    ((run false (construct 100 0 none) [.add (Scenario.entry 1 40)]).add false
        (Scenario.entry 2 40)).result = .ok { iterator := some 1 }
    ∧ ((run false (construct 100 0 none) [.add (Scenario.entry 1 40)]).add false
        (Scenario.entry 2 40)).self.state.current_size ≤ 100
    ∧ ((run false (construct 100 0 none) [.add (Scenario.entry 1 40)]).add false
        (Scenario.entry 2 40)).self.canFit_short 0 0 = true := by
  have h := LRUFileCachePriority.add_success_within_size_limit false 100 0
    [.add (Scenario.entry 1 40)] (Scenario.entry 2 40) { iterator := some 1 } (by decide)
  refine ⟨by decide, ?_, ?_⟩
  · rcases h.2.2.1 with h0 | hle
    · exact absurd h0 (by decide)
    · exact hle
  · exact h.2.2.2.mpr (Or.inl rfl)

/-- C6: for every build, every pair of limits and every sequence of calls (`add`, also
when it throws, `remove`, and the other handle methods) made on a queue constructed empty
with a state of its own, `current_size` equals the sum of the sizes of the linked entries
with `size > 0`, the sum being taken in `size_t` as the counter is; the two are the same
number whenever that sum is below `2 ^ 64`. -/
theorem current_size_eq_live_size (ndebug : Bool) (max_size_ max_elements_ : Nat)
    (ops : List Op) :
    (run ndebug (construct max_size_ max_elements_ none) ops).state.current_size
        = live_size (run ndebug (construct max_size_ max_elements_ none) ops).queue
            % SIZE_T_RANGE
    ∧ (live_size (run ndebug (construct max_size_ max_elements_ none) ops).queue < SIZE_T_RANGE →
        (run ndebug (construct max_size_ max_elements_ none) ops).state.current_size
          = live_size (run ndebug (construct max_size_ max_elements_ none) ops).queue) := by
  have h := run_current_size ndebug ops (construct max_size_ max_elements_ none) rfl
  refine ⟨h, fun hlt => ?_⟩
  rw [h]
  exact Nat.mod_eq_of_lt hlt

/-! ## Uniqueness of live identities -/

theorem live_keys_nil : live_keys [] = [] := rfl

theorem live_keys_cons (n : Node) (queue : LRUQueue) :
    live_keys (n :: queue)
      = if n.entry.size ≠ 0 then (n.entry.key, n.entry.offset) :: live_keys queue
        else live_keys queue := by
  unfold live_keys
  by_cases h : n.entry.size = 0
  · simp [List.filter_cons, h]
  · simp [List.filter_cons, h]

theorem live_keys_append (q1 q2 : LRUQueue) :
    live_keys (q1 ++ q2) = live_keys q1 ++ live_keys q2 := by
  unfold live_keys
  rw [List.filter_append, List.map_append]

theorem mem_live_keys (queue : LRUQueue) (key : FileCacheKey) (offset : Nat) :
    (key, offset) ∈ live_keys queue ↔
      ∃ n ∈ queue, n.entry.size ≠ 0 ∧ n.entry.key = key ∧ n.entry.offset = offset := by
  unfold live_keys
  simp only [List.mem_map, List.mem_filter, decide_eq_true_eq, Prod.mk.injEq]
  constructor
  · rintro ⟨n, ⟨hn, hs⟩, hk, ho⟩
    exact ⟨n, hn, hs, hk, ho⟩
  · rintro ⟨n, hn, hs, hk, ho⟩
    exact ⟨n, ⟨hn, hs⟩, hk, ho⟩

theorem live_keys_erase_sublist (queue : LRUQueue) (it : Nat) :
    (live_keys (queue.erase it)).Sublist (live_keys queue) := by
  induction queue with
  | nil => exact List.Sublist.refl _
  | cons n rest ih =>
    unfold LRUQueue.erase
    by_cases hid : n.id = it
    · rw [if_pos hid, live_keys_cons]
      split
      · exact List.sublist_cons_self _ _
      · exact List.Sublist.refl _
    · rw [if_neg hid, live_keys_cons, live_keys_cons]
      split
      · exact List.Sublist.cons₂ _ ih
      · exact ih

theorem live_keys_assign_zero_sublist (queue : LRUQueue) (it : Nat) :
    (live_keys (queue.assign it (fun e => { e with size := 0 }))).Sublist (live_keys queue) := by
  induction queue with
  | nil => exact List.Sublist.refl _
  | cons n rest ih =>
    unfold LRUQueue.assign
    by_cases hid : n.id = it
    · rw [if_pos hid, live_keys_cons, live_keys_cons]
      simp only [ne_eq, not_true_eq_false, if_false]
      split
      · exact List.sublist_cons_self _ _
      · exact List.Sublist.refl _
    · rw [if_neg hid, live_keys_cons, live_keys_cons]
      split
      · exact List.Sublist.cons₂ _ ih
      · exact ih

/-- In a debug build `add`, `remove` and `invalidate` keep the live identities distinct. -/
theorem Op.apply_live_keys_nodup (self : LRUFileCachePriority) (op : Op)
    (h_op : op.is_add_remove_invalidate = true) (h : (live_keys self.queue).Nodup) :
    (live_keys (op.apply false self).queue).Nodup := by
  cases op with
  | add entry =>
    simp only [Op.apply]
    rcases LRUFileCachePriority.add_cases false self entry with hc | ⟨h0, hscan, _, hc⟩
    · rw [hc]; exact h
    · rw [hc]
      simp only [live_keys_append, live_keys_cons, live_keys_nil, h0, ne_eq, not_false_eq_true,
        if_true]
      rw [List.nodup_append]
      refine ⟨h, List.nodup_singleton _, ?_⟩
      intro a ha hb
      rw [List.mem_singleton] at hb
      subst hb
      rcases (mem_live_keys self.queue entry.key entry.offset).mp ha with ⟨n, hn, hs, hk, ho⟩
      have := duplicate_scan_eq_true self.queue entry n hn hs hk ho
      rw [this] at hscan
      cases hscan
  | remove it =>
    rcases it with ⟨_ | iterator⟩
    · exact h
    · have hr : (live_keys (self.remove iterator).self.queue).Nodup := by
        unfold LRUFileCachePriority.remove
        split
        · exact h
        · simp only [updateSize, updateElementsCount]
          split <;> exact List.Nodup.sublist (live_keys_erase_sublist _ _) h
      simp only [Op.apply, LRUIterator.remove, LRUIterator.assertValid]
      split <;> exact hr
  | invalidate it =>
    rcases it with ⟨_ | iterator⟩
    · exact h
    · simp only [Op.apply, LRUIterator.invalidate, LRUIterator.assertValid]
      split
      · exact h
      · exact List.Nodup.sublist (live_keys_assign_zero_sublist _ _) h
  | incrementSize it size => simp [Op.is_add_remove_invalidate] at h_op
  | decrementSize it size => simp [Op.is_add_remove_invalidate] at h_op
  | increasePriority it => simp [Op.is_add_remove_invalidate] at h_op

theorem run_live_keys_nodup (ops : List Op) :
    ∀ self : LRUFileCachePriority,
      (∀ op ∈ ops, op.is_add_remove_invalidate = true) →
      (live_keys self.queue).Nodup → (live_keys (run false self ops).queue).Nodup := by
  induction ops with
  | nil => intro self _ h; exact h
  | cons op rest ih =>
    intro self h_ops h
    unfold run
    exact ih _ (fun o ho => h_ops o (List.mem_cons_of_mem _ ho))
      (Op.apply_live_keys_nodup self op (h_ops op (List.mem_cons_self _ _)) h)

/-- In a debug build `move` throws a logic error and moves nothing when the receiving
queue links an entry with `size > 0` and the identity of the entry to move. -/
theorem LRUFileCachePriority.move_eq_of_duplicate (shared_state : Bool)
    (self other : LRUFileCachePriority) (iterator : Nat) (entry : Entry)
    (h_entry : other.queue.deref iterator = some entry)
    (h_dup : (entry.key, entry.offset) ∈ live_keys self.queue) :
    LRUFileCachePriority.move false shared_state self other { iterator := some iterator }
      = { result := .error .LOGICAL_ERROR, self := self, other := other } := by
  rcases (mem_live_keys self.queue entry.key entry.offset).mp h_dup with ⟨n, hn, hs, hk, ho⟩
  have hscan := duplicate_scan_eq_true self.queue entry n hn hs hk ho
  simp only [LRUFileCachePriority.move, h_entry]
  by_cases h0 : entry.size = 0
  · rw [if_pos h0]
  · rw [if_neg h0, if_pos hscan]

/-- C7 (counterexample): a release build (`NDEBUG` defined) accepts a second entry with the
key and offset of a linked entry of size 10; afterwards two linked entries with `size > 0`
share one `(key, offset)`. -/
theorem LRUFileCachePriority.release_build_accepts_duplicate :
    ((run true (construct 0 0 none) [.add (Scenario.entry 1 10)]).add true
        (Scenario.entry 1 10)).result = .ok { iterator := some 1 }
    ∧ live_keys ((run true (construct 0 0 none) [.add (Scenario.entry 1 10)]).add true
        (Scenario.entry 1 10)).self.queue = [(1, 0), (1, 0)] := by
  decide

/-- C7 (amended): in a debug build (`NDEBUG` not defined), in every state reached from the
empty queue by `add`, `remove` and `invalidate`, the linked entries with `size > 0` have
pairwise distinct `(key, offset)`; an `add`, and a `move` from any other queue, of an
entry whose `(key, offset)` is that of a linked entry with `size > 0` throws a logic error
and changes nothing; and an entry with `size > 0` within the size limit whose matches in
the queue all have `size = 0` is accepted at the tail. -/
theorem LRUFileCachePriority.debug_build_keeps_identities_unique
    (max_size_ max_elements_ : Nat) (ops : List Op)
    (h_ops : ∀ op ∈ ops, op.is_add_remove_invalidate = true) :
    (live_keys (run false (construct max_size_ max_elements_ none) ops).queue).Nodup
    ∧ (∀ entry : Entry,
        (entry.key, entry.offset)
            ∈ live_keys (run false (construct max_size_ max_elements_ none) ops).queue →
        (run false (construct max_size_ max_elements_ none) ops).add false entry
          = { result := .error .LOGICAL_ERROR
              self := run false (construct max_size_ max_elements_ none) ops })
    ∧ (∀ (shared_state : Bool) (other : LRUFileCachePriority) (iterator : Nat) (entry : Entry),
        other.queue.deref iterator = some entry →
        (entry.key, entry.offset)
            ∈ live_keys (run false (construct max_size_ max_elements_ none) ops).queue →
        LRUFileCachePriority.move false shared_state
            (run false (construct max_size_ max_elements_ none) ops) other
            { iterator := some iterator }
          = { result := .error .LOGICAL_ERROR
              self := run false (construct max_size_ max_elements_ none) ops
              other := other })
    ∧ (∀ entry : Entry, 0 < entry.size →
        (∀ n ∈ (run false (construct max_size_ max_elements_ none) ops).queue,
          n.entry.key = entry.key → n.entry.offset = entry.offset → n.entry.size = 0) →
        (max_size_ = 0 ∨
          ((run false (construct max_size_ max_elements_ none) ops).state.current_size
            + entry.size) % SIZE_T_RANGE ≤ max_size_) →
        ((run false (construct max_size_ max_elements_ none) ops).add false entry).result
            = .ok { iterator :=
                some (run false (construct max_size_ max_elements_ none) ops).next_id }
          ∧ ((run false (construct max_size_ max_elements_ none) ops).add false
              entry).self.queue
            = (run false (construct max_size_ max_elements_ none) ops).queue
                ++ [{ id := (run false (construct max_size_ max_elements_ none) ops).next_id
                      entry := entry }]) := by
  have hnodup := run_live_keys_nodup ops (construct max_size_ max_elements_ none) h_ops
    List.nodup_nil
  have hl := run_limits false ops (construct max_size_ max_elements_ none)
  generalize run false (construct max_size_ max_elements_ none) ops = q at hnodup hl ⊢
  have hl1 : q.max_size = max_size_ := hl.1
  refine ⟨hnodup, ?_, ?_, ?_⟩
  · intro entry hmem
    rcases (mem_live_keys q.queue entry.key entry.offset).mp hmem with ⟨n, hn, hs, hk, ho⟩
    have hscan := duplicate_scan_eq_true q.queue entry n hn hs hk ho
    rcases LRUFileCachePriority.add_cases false q entry with hc | ⟨_, hfalse, _, _⟩
    · exact hc
    · rw [hscan] at hfalse; cases hfalse
  · intro shared_state other iterator entry h_entry hmem
    exact LRUFileCachePriority.move_eq_of_duplicate shared_state q other iterator entry
      h_entry hmem
  · intro entry h_size h_zero h_fit
    have h := LRUFileCachePriority.add_eq_of_accepted false q entry (by omega)
      (Or.inr (fun n hn hlive hko => hlive (h_zero n hn hko.1 hko.2)))
      (by rw [hl1]; exact h_fit)
    rw [h]
    exact ⟨rfl, rfl⟩

/-- C7 (witness): a debug build after `add A(10)`, `invalidate A`, `add A(10)`: the second
add of the same identity was accepted behind the invalidated node, and a third one is
rejected with the queue unchanged. -/
theorem LRUFileCachePriority.debug_build_keeps_identities_unique_witness :
    (run false (construct 0 0 none)
        [.add (Scenario.entry 1 10), .invalidate { iterator := some 0 },
          .add (Scenario.entry 1 10)]).queue
      = [{ id := 0, entry := { Scenario.entry 1 10 with size := 0 } },
          { id := 1, entry := Scenario.entry 1 10 }]
    ∧ (run false (construct 0 0 none)
        [.add (Scenario.entry 1 10), .invalidate { iterator := some 0 },
          .add (Scenario.entry 1 10)]).add false (Scenario.entry 1 20)
      = { result := .error .LOGICAL_ERROR
          self := run false (construct 0 0 none)
            [.add (Scenario.entry 1 10), .invalidate { iterator := some 0 },
              .add (Scenario.entry 1 10)] } :=
  ⟨by decide,
    (LRUFileCachePriority.debug_build_keeps_identities_unique 0 0
      [.add (Scenario.entry 1 10), .invalidate { iterator := some 0 },
        .add (Scenario.entry 1 10)] (by decide)).2.1 (Scenario.entry 1 20) (by decide)⟩

/-! ## The element count -/

/-- C8 (evaluation of the code): in a debug build, `add A(10)` followed by
`decrementSize(10)` on its handle satisfies every assertion (`0 < 10 <= entry.size`), and
leaves the entry linked with size 0 while `current_elements_num` is still 1: no linked
entry has `size > 0`. A `remove` of that node then skips the counters, so the queue is
empty with `current_elements_num = 1`. -/
theorem LRUIterator.decrementSize_to_zero_keeps_element_count :
    run_chassert false (construct 0 0 none)
        [.add (Scenario.entry 1 10), .decrementSize { iterator := some 0 } 10,
          .remove { iterator := some 0 }] = true
    ∧ run false (construct 0 0 none)
        [.add (Scenario.entry 1 10), .decrementSize { iterator := some 0 } 10]
      = { max_size := 0, max_elements := 0
          state := { current_size := 0, current_elements_num := 1 }
          queue := [{ id := 0, entry := { Scenario.entry 1 10 with size := 0 } }]
          next_id := 1 }
    ∧ live_count (run false (construct 0 0 none)
        [.add (Scenario.entry 1 10), .decrementSize { iterator := some 0 } 10]).queue = 0
    ∧ run false (construct 0 0 none)
        [.add (Scenario.entry 1 10), .decrementSize { iterator := some 0 } 10,
          .remove { iterator := some 0 }]
      = { max_size := 0, max_elements := 0
          state := { current_size := 0, current_elements_num := 1 }
          queue := []
          next_id := 1 } := by
  decide

/-! ## remove and increasePriority at a position -/

theorem LRUQueue.deref_append_cons (l1 l2 : LRUQueue) (n : Node) (it : Nat)
    (hid : n.id = it) (hl1 : ∀ m ∈ l1, m.id ≠ it) :
    LRUQueue.deref (l1 ++ n :: l2) it = some n.entry := by
  induction l1 with
  | nil => simp [LRUQueue.deref, hid]
  | cons m rest ih =>
    have hm : m.id ≠ it := hl1 m (List.mem_cons_self _ _)
    simp only [List.cons_append, LRUQueue.deref, hm, if_false]
    exact ih (fun x hx => hl1 x (List.mem_cons_of_mem _ hx))

theorem LRUQueue.erase_append_cons (l1 l2 : LRUQueue) (n : Node) (it : Nat)
    (hid : n.id = it) (hl1 : ∀ m ∈ l1, m.id ≠ it) :
    LRUQueue.erase (l1 ++ n :: l2) it = l1 ++ l2 := by
  induction l1 with
  | nil => simp [LRUQueue.erase, hid]
  | cons m rest ih =>
    have hm : m.id ≠ it := hl1 m (List.mem_cons_self _ _)
    simp only [List.cons_append, LRUQueue.erase, hm, if_false]
    exact congrArg (List.cons m) (ih (fun x hx => hl1 x (List.mem_cons_of_mem _ hx)))

theorem LRUQueue.next_append_cons (l1 l2 : LRUQueue) (n : Node) (it : Nat)
    (hid : n.id = it) (hl1 : ∀ m ∈ l1, m.id ≠ it) :
    LRUQueue.next (l1 ++ n :: l2) it = l2.head?.map Node.id := by
  induction l1 with
  | nil => simp [LRUQueue.next, hid]
  | cons m rest ih =>
    have hm : m.id ≠ it := hl1 m (List.mem_cons_self _ _)
    simp only [List.cons_append, LRUQueue.next, hm, if_false]
    exact ih (fun x hx => hl1 x (List.mem_cons_of_mem _ hx))

theorem LRUQueue.assign_append_cons (l1 l2 : LRUQueue) (n : Node) (it : Nat)
    (f : Entry → Entry) (hid : n.id = it) (hl1 : ∀ m ∈ l1, m.id ≠ it) :
    LRUQueue.assign (l1 ++ n :: l2) it f = l1 ++ { n with entry := f n.entry } :: l2 := by
  induction l1 with
  | nil => simp [LRUQueue.assign, hid]
  | cons m rest ih =>
    have hm : m.id ≠ it := hl1 m (List.mem_cons_self _ _)
    simp only [List.cons_append, LRUQueue.assign, hm, if_false]
    exact congrArg (List.cons m) (ih (fun x hx => hl1 x (List.mem_cons_of_mem _ hx)))

/-- C9: `remove` at the position of a linked node unlinks exactly that node, keeps the
other nodes in their order and returns the position after it. If the size of the entry was
`> 0`, `current_size` decreases by it and `current_elements_num` by 1 (in `size_t`
arithmetic, so exactly whenever the counters are at least as large as what is taken off,
and then the assertions of `updateSize` hold); if it was 0 both counters stay. The limits
stay in both cases. -/
theorem LRUFileCachePriority.remove_unlinks_position (self : LRUFileCachePriority)
    (it : Nat) (l1 l2 : LRUQueue) (n : Node)
    (h_queue : self.queue = l1 ++ n :: l2) (h_id : n.id = it)
    (h_first : ∀ m ∈ l1, m.id ≠ it) :
    (self.remove it).result = .ok (l2.head?.map Node.id)
    ∧ (self.remove it).self.queue = l1 ++ l2
    ∧ (self.remove it).self.max_size = self.max_size
    ∧ (self.remove it).self.max_elements = self.max_elements
    ∧ (0 < n.entry.size →
        (((self.remove it).self.state.current_size : Nat) : Int)
            = ((self.state.current_size : Int) - n.entry.size) % (SIZE_T_RANGE : Nat)
          ∧ (((self.remove it).self.state.current_elements_num : Nat) : Int)
            = ((self.state.current_elements_num : Int) - 1) % (SIZE_T_RANGE : Nat)
          ∧ (n.entry.size ≤ self.state.current_size → self.state.current_size < SIZE_T_RANGE →
              (self.remove it).self.state.current_size + n.entry.size
                  = self.state.current_size
                ∧ self.updateSize_chassert (to_int64 (to_size_t (-(n.entry.size : Int))))
                  = true)
          ∧ (1 ≤ self.state.current_elements_num →
              self.state.current_elements_num < SIZE_T_RANGE →
              (self.remove it).self.state.current_elements_num + 1
                = self.state.current_elements_num))
    ∧ (n.entry.size = 0 → (self.remove it).self.state = self.state) := by
  have hd := LRUQueue.deref_append_cons l1 l2 n it h_id h_first
  have he := LRUQueue.erase_append_cons l1 l2 n it h_id h_first
  have hn := LRUQueue.next_append_cons l1 l2 n it h_id h_first
  rw [← h_queue] at hd he hn
  have hsub := to_size_t_sub_to_int64 self.state.current_size n.entry.size
  have hcnt := to_size_t_cast ((self.state.current_elements_num : Int) + -1)
  unfold LRUFileCachePriority.remove
  rw [hd]
  by_cases h0 : n.entry.size = 0
  · simp only [h0, ne_eq, not_true_eq_false, if_false, hn, he, lt_irrefl, false_implies,
      true_and, and_self, implies_true]
  · simp only [h0, ne_eq, not_false_eq_true, if_true, updateSize, updateElementsCount, hn, he,
      false_implies, and_true, true_and]
    intro hpos
    refine ⟨?_, ?_, ?_, ?_⟩
    · unfold SIZE_T_RANGE; omega
    · unfold SIZE_T_RANGE; omega
    · intro hle hlt
      refine ⟨?_, LRUFileCachePriority.updateSize_chassert_decrement self n.entry.size hpos hle
        (by omega)⟩
      unfold SIZE_T_RANGE at hlt
      omega
    · unfold SIZE_T_RANGE; omega

/-- C9 (witness): scenario 2, removing B from A(10), B(10), C(10). -/
theorem LRUFileCachePriority.remove_unlinks_position_witness :
    ((Scenario.three false).remove 1).result = .ok (some 2)
    ∧ ((Scenario.three false).remove 1).self.queue
        = [{ id := 0, entry := Scenario.entry 1 10 }, { id := 2, entry := Scenario.entry 3 10 }]
    ∧ ((Scenario.three false).remove 1).self.state
        = { current_size := 20, current_elements_num := 2 } := by
  have h := LRUFileCachePriority.remove_unlinks_position (Scenario.three false) 1
    [{ id := 0, entry := Scenario.entry 1 10 }] [{ id := 2, entry := Scenario.entry 3 10 }]
    { id := 1, entry := Scenario.entry 2 10 } (by decide) rfl (by decide)
  exact ⟨h.1, h.2.1, by decide⟩

/-- C10: `increasePriority` on a handle whose node is linked relinks that node last and
keeps the other nodes in their order, increments `hits` of its entry by 1 (in `size_t`
arithmetic) and returns the new value, and leaves the handle, both counters, the limits
and every size as they were. -/
theorem LRUIterator.increasePriority_moves_to_tail (self : LRUFileCachePriority)
    (it : Nat) (l1 l2 : LRUQueue) (n : Node)
    (h_queue : self.queue = l1 ++ n :: l2) (h_id : n.id = it)
    (h_other : ∀ m ∈ l1 ++ l2, m.id ≠ it) :
    (LRUIterator.increasePriority { iterator := some it } self).result
        = .ok ((n.entry.hits + 1) % SIZE_T_RANGE)
    ∧ (LRUIterator.increasePriority { iterator := some it } self).cache_priority.queue
        = l1 ++ l2 ++
            [{ n with entry := { n.entry with hits := (n.entry.hits + 1) % SIZE_T_RANGE } }]
    ∧ (LRUIterator.increasePriority { iterator := some it } self).cache_priority.queue.map
          (fun m => m.entry.size)
        = (l1 ++ l2 ++ [n]).map (fun m => m.entry.size)
    ∧ (LRUIterator.increasePriority { iterator := some it } self).cache_priority.state
        = self.state
    ∧ (LRUIterator.increasePriority { iterator := some it } self).cache_priority.max_size
        = self.max_size
    ∧ (LRUIterator.increasePriority { iterator := some it } self).cache_priority.max_elements
        = self.max_elements
    ∧ (LRUIterator.increasePriority { iterator := some it } self).handle
        = { iterator := some it } := by
  subst h_id
  have h_id : n.id = n.id := rfl
  have h_first : ∀ m ∈ l1, m.id ≠ n.id := fun m hm => h_other m (List.mem_append_left _ hm)
  have hd := LRUQueue.deref_append_cons l1 l2 n n.id h_id h_first
  have he := LRUQueue.erase_append_cons l1 l2 n n.id h_id h_first
  rw [← h_queue] at hd he
  have hhits : to_size_t ((n.entry.hits : Int) + 1) = (n.entry.hits + 1) % SIZE_T_RANGE := by
    unfold to_size_t SIZE_T_RANGE; omega
  have hs : self.queue.splice_end n.id
      = (l1 ++ l2) ++ { id := n.id, entry := n.entry } :: [] := by
    unfold LRUQueue.splice_end
    rw [hd, he]
  have ha := LRUQueue.assign_append_cons (l1 ++ l2) [] { id := n.id, entry := n.entry } n.id
    (fun e => { e with hits := to_size_t ((e.hits : Int) + 1) }) rfl h_other
  simp only [hhits] at ha
  simp only [LRUIterator.increasePriority, LRUIterator.assertValid, hd, hs, ha, hhits, List.map_append,
    List.map_cons, List.map_nil, and_self]

/-- C10 (witness): scenario 2: after adding A(10), B(10), C(10) and promoting A the queue
order is B, C, A and `hits` of A is 1. -/
theorem LRUIterator.increasePriority_moves_to_tail_witness :
    (LRUIterator.increasePriority { iterator := some 0 } (Scenario.three false)).result = .ok 1
    ∧ (LRUIterator.increasePriority { iterator := some 0 }
          (Scenario.three false)).cache_priority.queue
        = [{ id := 1, entry := Scenario.entry 2 10 }, { id := 2, entry := Scenario.entry 3 10 },
            { id := 0, entry := { Scenario.entry 1 10 with hits := 1 } }]
    ∧ (LRUIterator.increasePriority { iterator := some 0 }
          (Scenario.three false)).cache_priority.state
        = { current_size := 30, current_elements_num := 3 } := by
  have h := LRUIterator.increasePriority_moves_to_tail (Scenario.three false) 0 []
    [{ id := 1, entry := Scenario.entry 2 10 }, { id := 2, entry := Scenario.entry 3 10 }]
    { id := 0, entry := Scenario.entry 1 10 } (by decide) rfl (by decide)
  exact ⟨h.1, h.2.1, by decide⟩

/-! ## The element count along sequences that keep liveness -/

/-- Contribution of an entry to the live count. -/
theorem live_count_cons (n : Node) (queue : LRUQueue) :
    live_count (n :: queue) = (if n.entry.size ≠ 0 then 1 else 0) + live_count queue := by
  unfold live_count
  by_cases h : n.entry.size = 0
  · simp [List.filter_cons, h]
  · simp [List.filter_cons, h]; omega

theorem live_count_append (q1 q2 : LRUQueue) :
    live_count (q1 ++ q2) = live_count q1 + live_count q2 := by
  unfold live_count
  rw [List.filter_append, List.length_append]

theorem live_count_erase (queue : LRUQueue) (it : Nat) (entry : Entry)
    (h : queue.deref it = some entry) :
    live_count (queue.erase it) + (if entry.size ≠ 0 then 1 else 0) = live_count queue := by
  induction queue with
  | nil => simp [LRUQueue.deref] at h
  | cons n rest ih =>
    unfold LRUQueue.deref at h
    unfold LRUQueue.erase
    by_cases hid : n.id = it
    · rw [if_pos hid] at h
      rw [if_pos hid, live_count_cons]
      cases h
      omega
    · rw [if_neg hid] at h
      rw [if_neg hid, live_count_cons, live_count_cons]
      have := ih h
      omega

theorem live_count_assign (queue : LRUQueue) (it : Nat) (f : Entry → Entry) (entry : Entry)
    (h : queue.deref it = some entry) :
    live_count (queue.assign it f) + (if entry.size ≠ 0 then 1 else 0)
      = live_count queue + (if (f entry).size ≠ 0 then 1 else 0) := by
  induction queue with
  | nil => simp [LRUQueue.deref] at h
  | cons n rest ih =>
    unfold LRUQueue.deref at h
    unfold LRUQueue.assign
    by_cases hid : n.id = it
    · rw [if_pos hid] at h
      rw [if_pos hid, live_count_cons, live_count_cons]
      cases h
      simp only
      omega
    · rw [if_neg hid] at h
      rw [if_neg hid, live_count_cons, live_count_cons]
      have := ih h
      omega

theorem live_count_assign_of_size_eq (queue : LRUQueue) (it : Nat) (f : Entry → Entry)
    (hf : ∀ e, (f e).size = e.size) :
    live_count (queue.assign it f) = live_count queue := by
  induction queue with
  | nil => rfl
  | cons n rest ih =>
    unfold LRUQueue.assign
    by_cases hid : n.id = it
    · rw [if_pos hid, live_count_cons, live_count_cons]
      simp only [hf]
    · rw [if_neg hid, live_count_cons, live_count_cons, ih]

theorem live_count_splice_end (queue : LRUQueue) (it : Nat) :
    live_count (queue.splice_end it) = live_count queue := by
  unfold LRUQueue.splice_end
  split
  · rfl
  · rename_i entry h
    rw [live_count_append, live_count_cons]
    have := live_count_erase queue it entry h
    simp only [live_count, List.filter_nil, List.length_nil] at this ⊢
    omega

/-- The queue-level `remove` keeps `current_elements_num` equal to the live count. -/
theorem LRUFileCachePriority.remove_current_elements_num (self : LRUFileCachePriority)
    (it : Nat)
    (h : self.state.current_elements_num = live_count self.queue % SIZE_T_RANGE) :
    (self.remove it).self.state.current_elements_num
      = live_count (self.remove it).self.queue % SIZE_T_RANGE := by
  unfold LRUFileCachePriority.remove
  cases hd : self.queue.deref it with
  | none => exact h
  | some entry =>
    have hsum := live_count_erase self.queue it entry hd
    have hcnt := to_size_t_cast ((self.state.current_elements_num : Int) + -1)
    unfold SIZE_T_RANGE at h ⊢
    by_cases h0 : entry.size = 0
    · simp only [h0, ne_eq, not_true_eq_false, if_false] at hsum ⊢
      omega
    · simp only [h0, ne_eq, not_false_eq_true, if_true, updateSize, updateElementsCount]
        at hsum ⊢
      omega

/-- A call that keeps liveness keeps `current_elements_num` equal to the live count. -/
theorem Op.apply_current_elements_num (ndebug : Bool) (self : LRUFileCachePriority) (op : Op)
    (h_op : op.keeps_liveness self = true)
    (h : self.state.current_elements_num = live_count self.queue % SIZE_T_RANGE) :
    (op.apply ndebug self).state.current_elements_num
      = live_count (op.apply ndebug self).queue % SIZE_T_RANGE := by
  cases op with
  | add entry =>
    simp only [Op.apply]
    rcases LRUFileCachePriority.add_cases ndebug self entry with hc | ⟨h0, _, _, hc⟩
    · rw [hc]; exact h
    · rw [hc]
      simp only [live_count_append, live_count_cons, h0, ne_eq, not_false_eq_true, if_true]
      simp only [live_count, List.filter_nil, List.length_nil] at h ⊢
      unfold SIZE_T_RANGE at h ⊢
      omega
  | remove it =>
    rcases it with ⟨_ | iterator⟩
    · exact h
    · have := LRUFileCachePriority.remove_current_elements_num self iterator h
      simp only [Op.apply, LRUIterator.remove, LRUIterator.assertValid]
      split <;> exact this
  | invalidate it =>
    rcases it with ⟨_ | iterator⟩
    · exact h
    · simp only [Op.apply, LRUIterator.invalidate, LRUIterator.assertValid]
      cases hd : self.queue.deref iterator with
      | none => exact h
      | some entry =>
        have hlive : entry.size ≠ 0 := by
          simpa [Op.keeps_liveness, hd] using h_op
        have hsum := live_count_assign self.queue iterator (fun e => { e with size := 0 })
          entry hd
        have hcnt := to_size_t_cast ((self.state.current_elements_num : Int) + -1)
        simp only [updateSize, updateElementsCount]
        simp only [hlive, ne_eq, not_false_eq_true, if_true, not_true_eq_false, if_false]
          at hsum
        unfold SIZE_T_RANGE at h ⊢
        omega
  | incrementSize it size =>
    rcases it with ⟨_ | iterator⟩
    · exact h
    · simp only [Op.apply, LRUIterator.incrementSize, LRUIterator.assertValid]
      cases hd : self.queue.deref iterator with
      | none => exact h
      | some entry =>
        have hlive : entry.size ≠ 0 ∧ to_size_t ((entry.size : Int) + size) ≠ 0 := by
          simpa [Op.keeps_liveness, hd] using h_op
        have hsum := live_count_assign self.queue iterator
          (fun e => { e with size := to_size_t ((e.size : Int) + size) }) entry hd
        simp only [updateSize]
        simp only [hlive.1, hlive.2, ne_eq, not_false_eq_true, if_true] at hsum
        unfold SIZE_T_RANGE at h ⊢
        omega
  | decrementSize it size =>
    rcases it with ⟨_ | iterator⟩
    · exact h
    · simp only [Op.apply, LRUIterator.decrementSize, LRUIterator.assertValid]
      cases hd : self.queue.deref iterator with
      | none => exact h
      | some entry =>
        have hlive : entry.size ≠ 0 ∧ to_size_t ((entry.size : Int) - size) ≠ 0 := by
          simpa [Op.keeps_liveness, hd] using h_op
        have hsum := live_count_assign self.queue iterator
          (fun e => { e with size := to_size_t ((e.size : Int) - size) }) entry hd
        simp only [updateSize]
        simp only [hlive.1, hlive.2, ne_eq, not_false_eq_true, if_true] at hsum
        unfold SIZE_T_RANGE at h ⊢
        omega
  | increasePriority it =>
    rcases it with ⟨_ | iterator⟩
    · exact h
    · simp only [Op.apply, LRUIterator.increasePriority, LRUIterator.assertValid]
      cases hd : self.queue.deref iterator with
      | none => exact h
      | some entry =>
        simp only
        rw [live_count_assign_of_size_eq (self.queue.splice_end iterator) iterator
          (fun e => { e with hits := to_size_t ((e.hits : Int) + 1) }) (fun e => rfl),
          live_count_splice_end]
        exact h

theorem run_current_elements_num (ndebug : Bool) (ops : List Op) :
    ∀ self : LRUFileCachePriority,
      run_keeps_liveness ndebug self ops = true →
      self.state.current_elements_num = live_count self.queue % SIZE_T_RANGE →
      (run ndebug self ops).state.current_elements_num
        = live_count (run ndebug self ops).queue % SIZE_T_RANGE := by
  induction ops with
  | nil => intro self _ h; exact h
  | cons op rest ih =>
    intro self h_ops h
    unfold run_keeps_liveness at h_ops
    rw [Bool.and_eq_true] at h_ops
    unfold run
    exact ih _ h_ops.2 (Op.apply_current_elements_num ndebug self op h_ops.1 h)

/-- X1: the element count on sequences that keep liveness. For every build, every pair of
limits and every sequence of calls on the queue constructed empty in which each
`invalidate` meets an entry with `size > 0` and each `incrementSize` or `decrementSize`
meets an entry with `size > 0` and leaves it one, `current_elements_num` equals the number
of linked entries with `size > 0` (modulo `2 ^ 64`). -/
theorem current_elements_num_eq_live_count (ndebug : Bool) (max_size_ max_elements_ : Nat)
    (ops : List Op)
    (h_ops : run_keeps_liveness ndebug (construct max_size_ max_elements_ none) ops = true) :
    (run ndebug (construct max_size_ max_elements_ none) ops).state.current_elements_num
      = live_count (run ndebug (construct max_size_ max_elements_ none) ops).queue
          % SIZE_T_RANGE :=
  run_current_elements_num ndebug ops (construct max_size_ max_elements_ none) h_ops rfl

/-- X1 (witness): a sequence that keeps liveness: add A(10), add B(10), shrink A by 4, invalidate B,
promote A, remove B. One live entry remains and the count is 1. -/
theorem current_elements_num_eq_live_count_witness :
    (run false (construct 0 0 none)
        [.add (Scenario.entry 1 10), .add (Scenario.entry 2 10),
          .decrementSize { iterator := some 0 } 4, .invalidate { iterator := some 1 },
          .increasePriority { iterator := some 0 }, .remove { iterator := some 1 }]
      ).state.current_elements_num
      = live_count (run false (construct 0 0 none)
        [.add (Scenario.entry 1 10), .add (Scenario.entry 2 10),
          .decrementSize { iterator := some 0 } 4, .invalidate { iterator := some 1 },
          .increasePriority { iterator := some 0 }, .remove { iterator := some 1 }]).queue
          % SIZE_T_RANGE :=
  current_elements_num_eq_live_count false 0 0
    [.add (Scenario.entry 1 10), .add (Scenario.entry 2 10),
      .decrementSize { iterator := some 0 } 4, .invalidate { iterator := some 1 },
      .increasePriority { iterator := some 0 }, .remove { iterator := some 1 }] (by decide)

/-! ## invalidate -/

/-- C11: `invalidate` on a handle whose node is linked and whose entry has size `s > 0`
returns normally, sets the size of the entry to 0 and leaves the node where it is (same
nodes, same order, same length), decreases `current_size` by `s` and
`current_elements_num` by 1 at once (in `size_t` arithmetic, so exactly whenever the
counters are at least what is taken off, and then the assertions hold), and keeps the
handle and the limits. -/
theorem LRUIterator.invalidate_zeroes_in_place (self : LRUFileCachePriority) (it : Nat)
    (l1 l2 : LRUQueue) (n : Node)
    (h_queue : self.queue = l1 ++ n :: l2) (h_id : n.id = it)
    (h_first : ∀ m ∈ l1, m.id ≠ it) (h_size : 0 < n.entry.size) :
    (LRUIterator.invalidate { iterator := some it } self).result = .ok ()
    ∧ (LRUIterator.invalidate { iterator := some it } self).handle = { iterator := some it }
    ∧ (LRUIterator.invalidate { iterator := some it } self).cache_priority.queue
        = l1 ++ { n with entry := { n.entry with size := 0 } } :: l2
    ∧ (LRUIterator.invalidate { iterator := some it } self).cache_priority.queue.length
        = self.queue.length
    ∧ (((LRUIterator.invalidate { iterator := some it } self).cache_priority.state.current_size
          : Nat) : Int)
        = ((self.state.current_size : Int) - n.entry.size) % (SIZE_T_RANGE : Nat)
    ∧ (((LRUIterator.invalidate { iterator := some it }
          self).cache_priority.state.current_elements_num : Nat) : Int)
        = ((self.state.current_elements_num : Int) - 1) % (SIZE_T_RANGE : Nat)
    ∧ (n.entry.size ≤ self.state.current_size → self.state.current_size < SIZE_T_RANGE →
        (LRUIterator.invalidate { iterator := some it } self).cache_priority.state.current_size
            + n.entry.size = self.state.current_size
          ∧ LRUIterator.invalidate_chassert { iterator := some it } self = true)
    ∧ (1 ≤ self.state.current_elements_num → self.state.current_elements_num < SIZE_T_RANGE →
        (LRUIterator.invalidate { iterator := some it }
          self).cache_priority.state.current_elements_num + 1
            = self.state.current_elements_num)
    ∧ (LRUIterator.invalidate { iterator := some it } self).cache_priority.max_size
        = self.max_size
    ∧ (LRUIterator.invalidate { iterator := some it } self).cache_priority.max_elements
        = self.max_elements := by
  have hd := LRUQueue.deref_append_cons l1 l2 n it h_id h_first
  have ha := LRUQueue.assign_append_cons l1 l2 n it (fun e => { e with size := 0 }) h_id h_first
  rw [← h_queue] at hd ha
  have hsub := to_size_t_sub_to_int64 self.state.current_size n.entry.size
  have hcnt := to_size_t_cast ((self.state.current_elements_num : Int) + -1)
  have hinv : LRUIterator.invalidate { iterator := some it } self
      = { result := .ok ()
          handle := { iterator := some it }
          cache_priority :=
            { self with
              state :=
                { current_size := to_size_t ((self.state.current_size : Int)
                    + to_int64 (to_size_t (-(n.entry.size : Int))))
                  current_elements_num :=
                    to_size_t ((self.state.current_elements_num : Int) + -1) }
              queue := l1 ++ { n with entry := { n.entry with size := 0 } } :: l2 } } := by
    simp only [LRUIterator.invalidate, LRUIterator.assertValid, hd, updateSize,
      updateElementsCount, ha]
  rw [hinv]
  refine ⟨rfl, rfl, rfl, ?_, ?_, ?_, ?_, ?_, rfl, rfl⟩
  · rw [h_queue]; simp
  · unfold SIZE_T_RANGE; simp only; omega
  · unfold SIZE_T_RANGE; simp only; omega
  · intro hle hlt
    have hch := LRUFileCachePriority.updateSize_chassert_decrement self n.entry.size h_size hle
      (lt_of_le_of_lt hle hlt)
    unfold SIZE_T_RANGE at hlt
    refine ⟨by simp only; omega, ?_⟩
    simp only [LRUIterator.invalidate_chassert, hd, hch, Bool.and_true, decide_eq_true_eq]
    omega
  · intro h1 h2
    unfold SIZE_T_RANGE at h2
    simp only
    omega

/-- C11 (witness): scenario 5: with A(30), B(30) linked, invalidating A makes `current_size`
30 while the queue still has 2 nodes, A first with size 0. -/
theorem LRUIterator.invalidate_zeroes_in_place_witness :
    (LRUIterator.invalidate { iterator := some 0 } (Scenario.pair30 false)).cache_priority.queue
        = [{ id := 0, entry := { Scenario.entry 1 30 with size := 0 } },
            { id := 1, entry := Scenario.entry 2 30 }]
    ∧ (LRUIterator.invalidate { iterator := some 0 }
        (Scenario.pair30 false)).cache_priority.queue.length = 2
    ∧ (LRUIterator.invalidate { iterator := some 0 } (Scenario.pair30 false)).cache_priority.state
        = { current_size := 30, current_elements_num := 1 } := by
  have h := LRUIterator.invalidate_zeroes_in_place (Scenario.pair30 false) 0 []
    [{ id := 1, entry := Scenario.entry 2 30 }] { id := 0, entry := Scenario.entry 1 30 }
    (by decide) rfl (by decide) (by decide)
  exact ⟨h.2.2.1, by decide, by decide⟩

/-! ## The reservation overload of collectCandidatesForEviction -/

/-- C15: when `canFit(size, 1)` holds at the call, the reservation overload returns true at
once: `res` (so an empty candidate set stays empty), the queue with every flag and node,
both counters, `stat` and the two limit flags are as they were. -/
theorem LRUFileCachePriority.collectCandidatesForEviction_of_canFit
    (self : LRUFileCachePriority) (metadata : CacheMetadata) (size : Nat)
    (stat : FileCacheReserveStat) (res : EvictionCandidates)
    (reached_size_limit reached_elements_limit : Bool)
    (h_fit : self.canFit_short size 1 = true) :
    self.collectCandidatesForEviction metadata size stat res reached_size_limit
        reached_elements_limit
      = { result := .ok true, self := self, stat := stat, res := res
          reached_size_limit := reached_size_limit
          reached_elements_limit := reached_elements_limit } := by
  unfold canFit_short at h_fit
  have hfits : (self.canFit size 1 0 0 (some reached_size_limit)
      (some reached_elements_limit)).fits = true := h_fit
  have h2 := hfits
  simp only [canFit, Bool.and_eq_true] at h2
  unfold LRUFileCachePriority.collectCandidatesForEviction
  simp only [hfits, if_true]
  simp only [canFit, h2.1, h2.2, Bool.not_true, Bool.or_false, Option.map_some',
    Option.getD_some]

/-- C15 (witness): scenario 1 with A(40), B(40) under `max_size = 100`: a request for 20
bytes fits, so the call returns true with the empty candidate set and nothing changed. -/
theorem LRUFileCachePriority.collectCandidatesForEviction_of_canFit_witness :
    (Scenario.basic false).collectCandidatesForEviction (Scenario.metadata 40 0) 20
        Scenario.fresh_stat EvictionCandidates.empty false false
      = { result := .ok true, self := Scenario.basic false, stat := Scenario.fresh_stat
          res := EvictionCandidates.empty, reached_size_limit := false
          reached_elements_limit := false } :=
  LRUFileCachePriority.collectCandidatesForEviction_of_canFit (Scenario.basic false)
    (Scenario.metadata 40 0) 20 Scenario.fresh_stat EvictionCandidates.empty false false
    (by decide)

/-- C16 (counterexample): on the empty queue with `max_size = 100`, a request for 10 bytes
with a `stat` that already counts 50 releasable bytes returns true at once, although
`canFit(10, 1, 50, 0)` is false in the state at return (10 - 50 wraps). -/
theorem LRUFileCachePriority.collectCandidatesForEviction_returns_before_stat :
    ((construct 100 0 none).collectCandidatesForEviction (Scenario.metadata 0 0) 10
        { stat := { Scenario.fresh_stat.stat with releasable_size := 50 } }
        EvictionCandidates.empty false false).result = .ok true
    ∧ (((construct 100 0 none).collectCandidatesForEviction (Scenario.metadata 0 0) 10
        { stat := { Scenario.fresh_stat.stat with releasable_size := 50 } }
        EvictionCandidates.empty false false).self.canFit 10 1
          ((construct 100 0 none).collectCandidatesForEviction (Scenario.metadata 0 0) 10
            { stat := { Scenario.fresh_stat.stat with releasable_size := 50 } }
            EvictionCandidates.empty false false).stat.stat.releasable_size
          ((construct 100 0 none).collectCandidatesForEviction (Scenario.metadata 0 0) 10
            { stat := { Scenario.fresh_stat.stat with releasable_size := 50 } }
            EvictionCandidates.empty false false).stat.stat.releasable_count
          none none).fits = false := by
  decide

/-- C16 (amended): for every queue state, key metadata, size, `res` and every initial `stat`
whose releasable size and count do not exceed `current_size + size` and
`current_elements_num + 1` (as the code computes them; a fresh `stat` always qualifies),
a call of the reservation overload that returns, returns true exactly when
`canFit(size, 1, stat.releasable_size, stat.releasable_count)` holds in the state at
return. -/
theorem LRUFileCachePriority.collectCandidatesForEviction_iff_canFit
    (self : LRUFileCachePriority) (metadata : CacheMetadata) (size : Nat)
    (stat : FileCacheReserveStat) (res : EvictionCandidates)
    (reached_size_limit reached_elements_limit : Bool) (returned : Bool)
    (h_size : self.max_size = 0 ∨
      stat.stat.releasable_size ≤ (self.state.current_size + size) % SIZE_T_RANGE)
    (h_elements : self.max_elements = 0 ∨
      stat.stat.releasable_count ≤ (self.state.current_elements_num + 1) % SIZE_T_RANGE)
    (h_return : (self.collectCandidatesForEviction metadata size stat res reached_size_limit
      reached_elements_limit).result = .ok returned) :
    (returned = true ↔
      ((self.collectCandidatesForEviction metadata size stat res reached_size_limit
          reached_elements_limit).self.canFit size 1
        (self.collectCandidatesForEviction metadata size stat res reached_size_limit
          reached_elements_limit).stat.stat.releasable_size
        (self.collectCandidatesForEviction metadata size stat res reached_size_limit
          reached_elements_limit).stat.stat.releasable_count none none).fits = true) := by
  unfold LRUFileCachePriority.collectCandidatesForEviction at h_return ⊢
  by_cases hfits : (self.canFit size 1 0 0 (some reached_size_limit)
      (some reached_elements_limit)).fits = true
  · simp only [hfits, if_true] at h_return ⊢
    have hr : returned = true := by
      injection h_return with h; exact h.symm
    subst hr
    simp only [true_iff]
    simp only [canFit, Bool.and_eq_true, Bool.or_eq_true, decide_eq_true_eq] at hfits ⊢
    have c1 := to_size_t_cast ((self.state.current_size : Int) + (size : Nat) - (0 : Nat))
    have c2 := to_size_t_cast ((self.state.current_elements_num : Int) + (1 : Nat) - (0 : Nat))
    have c3 := to_size_t_cast
      ((self.state.current_size : Int) + (size : Nat) - (stat.stat.releasable_size : Nat))
    have c4 := to_size_t_cast ((self.state.current_elements_num : Int) + (1 : Nat)
      - (stat.stat.releasable_count : Nat))
    unfold SIZE_T_RANGE at h_size h_elements
    constructor
    · rcases hfits.1 with h | h
      · exact Or.inl h
      · rcases h_size with h0 | h0
        · exact Or.inl h0
        · right; omega
    · rcases hfits.2 with h | h
      · exact Or.inl h
      · rcases h_elements with h0 | h0
        · exact Or.inl h0
        · right; omega
  · simp only [hfits, Bool.false_eq_true, if_false] at h_return ⊢
    split at h_return
    · cases h_return
    · injection h_return with h
      rw [← h]
      rfl

/-- C16 (witness): scenario 3 with a fresh `stat`: the walk registers B and the call returns
true, and `canFit(30, 1, 50, 1)` holds at return. -/
theorem LRUFileCachePriority.collectCandidatesForEviction_iff_canFit_witness :
    ((Scenario.pair50 false).collectCandidatesForEviction (Scenario.metadata 50 1) 30
        Scenario.fresh_stat EvictionCandidates.empty false false).result = .ok true
    ∧ (((Scenario.pair50 false).collectCandidatesForEviction (Scenario.metadata 50 1) 30
          Scenario.fresh_stat EvictionCandidates.empty false false).self.canFit 30 1
        ((Scenario.pair50 false).collectCandidatesForEviction (Scenario.metadata 50 1) 30
          Scenario.fresh_stat EvictionCandidates.empty false false).stat.stat.releasable_size
        ((Scenario.pair50 false).collectCandidatesForEviction (Scenario.metadata 50 1) 30
          Scenario.fresh_stat EvictionCandidates.empty false false).stat.stat.releasable_count
        none none).fits = true :=
  ⟨by decide,
    (LRUFileCachePriority.collectCandidatesForEviction_iff_canFit (Scenario.pair50 false)
      (Scenario.metadata 50 1) 30 Scenario.fresh_stat EvictionCandidates.empty false false true
      (by decide) (by decide) (by decide)).mp rfl⟩

/-- C17 (counterexample): in scenario 3, with A non-releasable and B releasable, the call
for 30 bytes does not return false with an empty candidate set. -/
theorem LRUFileCachePriority.collectCandidatesForEviction_passes_pinned :
    ¬ (((Scenario.pair50 false).collectCandidatesForEviction (Scenario.metadata 50 1) 30
          Scenario.fresh_stat EvictionCandidates.empty false false).result = .ok false
        ∧ ((Scenario.pair50 false).collectCandidatesForEviction (Scenario.metadata 50 1) 30
          Scenario.fresh_stat EvictionCandidates.empty false false).res
            = EvictionCandidates.empty) := by
  decide

/-- C17 (amended): in scenario 3 (`max_size = 100`, `max_elements = 0`, A(50) then B(50), A
non-releasable, B releasable, fresh `stat`, empty candidates) the call for 30 bytes walks
past A, registers B alone and returns true: 100 + 30 - 50 fits. `stat` ends with 50
non-releasable bytes in one segment and 50 releasable bytes in one segment; B is marked
evicting, no node is removed and the counters stay; the size limit was reached. -/
theorem LRUFileCachePriority.collectCandidatesForEviction_scenario_pinned :
    (Scenario.pair50 false).collectCandidatesForEviction (Scenario.metadata 50 1) 30
        Scenario.fresh_stat EvictionCandidates.empty false false
      = { result := .ok true
          self :=
            { max_size := 100, max_elements := 0
              state := { current_size := 100, current_elements_num := 2 }
              queue := [{ id := 0, entry := Scenario.entry 1 50 },
                        { id := 1, entry := { Scenario.entry 2 50 with evicting := true } }]
              next_id := 2 }
          stat := { stat := { releasable_size := 50, releasable_count := 1
                              non_releasable_size := 50, non_releasable_count := 1 } }
          res :=
            { candidates :=
                [(2, { candidates := [{ key := 2, offset := 0, size := 50, releasable := true }] })]
              candidates_size := 1
              queue_entries_to_invalidate := [{ iterator := some 1 }] }
          reached_size_limit := true
          reached_elements_limit := false } := by
  decide


/-! ## Merging eviction candidates -/

/-- C19 (evaluation of the code): the merge `add(other, lock)` only calls
`candidates.insert(first, last)`. For every pair of objects it leaves `candidates_size`
and `queue_entries_to_invalidate` of the receiver as they were; merging one candidate
under key 2 into one candidate under key 1 gives two held segments with `size()` still 1;
and merging a candidate under a key the receiver already holds drops it. -/
theorem EvictionCandidates.add_other_keeps_size :
    (∀ a b : EvictionCandidates,
      (a.add_other b).size = a.size
        ∧ (a.add_other b).queue_entries_to_invalidate = a.queue_entries_to_invalidate)
    ∧ (((EvictionCandidates.empty.add
            { key := 1, offset := 0, size := 10, releasable := true } 1
            { id := 0, entry := Scenario.entry 1 10 }).1.add_other
          (EvictionCandidates.empty.add
            { key := 2, offset := 0, size := 10, releasable := true } 2
            { id := 1, entry := Scenario.entry 2 10 }).1).segments
        = [{ key := 1, offset := 0, size := 10, releasable := true },
            { key := 2, offset := 0, size := 10, releasable := true }]
      ∧ ((EvictionCandidates.empty.add
            { key := 1, offset := 0, size := 10, releasable := true } 1
            { id := 0, entry := Scenario.entry 1 10 }).1.add_other
          (EvictionCandidates.empty.add
            { key := 2, offset := 0, size := 10, releasable := true } 2
            { id := 1, entry := Scenario.entry 2 10 }).1).size = 1)
    ∧ ((EvictionCandidates.empty.add
            { key := 1, offset := 0, size := 10, releasable := true } 1
            { id := 0, entry := Scenario.entry 1 10 }).1.add_other
          (EvictionCandidates.empty.add
            { key := 1, offset := 7, size := 10, releasable := true } 1
            { id := 1, entry := { Scenario.entry 1 10 with offset := 7 } }).1).segments
        = [{ key := 1, offset := 0, size := 10, releasable := true }] := by
  refine ⟨fun a b => ⟨rfl, rfl⟩, by decide, by decide⟩

/-! ## The walk: one step at the cursor -/

/-- Whether the walk unlinks a node without handing it to the callback: the size is 0, or the
node is not evicting and its key lock fails or its segment is absent. -/
theorem CacheMetadata.visit_cases (metadata : CacheMetadata) (n : Node) :
    (n.entry.size = 0 ∨ (n.entry.evicting = false ∧
        (metadata.tryLock n.entry.key = false
          ∨ metadata.tryGetByOffset n.entry.key n.entry.offset = none)))
    ∨ (n.entry.size ≠ 0 ∧ n.entry.evicting = true)
    ∨ (metadata.eligible n = true
        ∧ ∃ segment, metadata.tryGetByOffset n.entry.key n.entry.offset = some segment) := by
  unfold CacheMetadata.eligible
  by_cases h0 : n.entry.size = 0
  · exact Or.inl (Or.inl h0)
  · cases he : n.entry.evicting with
    | true => exact Or.inr (Or.inl ⟨h0, rfl⟩)
    | false =>
      cases hl : metadata.tryLock n.entry.key with
      | false => exact Or.inl (Or.inr ⟨rfl, Or.inl rfl⟩)
      | true =>
        cases hs : metadata.tryGetByOffset n.entry.key n.entry.offset with
        | none => exact Or.inl (Or.inr ⟨rfl, Or.inr rfl⟩)
        | some segment =>
          refine Or.inr (Or.inr ⟨?_, segment, rfl⟩)
          simp [h0]

theorem CacheMetadata.eligible_iff (metadata : CacheMetadata) (n : Node) :
    metadata.eligible n = true ↔
      n.entry.size ≠ 0 ∧ n.entry.evicting = false ∧ metadata.tryLock n.entry.key = true
        ∧ ∃ segment, metadata.tryGetByOffset n.entry.key n.entry.offset = some segment := by
  unfold CacheMetadata.eligible
  simp only [Bool.and_eq_true, decide_eq_true_eq, Bool.not_eq_true', Option.isSome_iff_exists]
  tauto

/-- The object after `remove` at the cursor: the head of the remaining nodes is unlinked and
the counters are those `remove` leaves. -/
theorem LRUFileCachePriority.remove_at_cursor (self : LRUFileCachePriority) (n : Node)
    (rest : LRUQueue) :
    ({ self with queue := n :: rest }.remove n.id).self
      = { (if n.entry.size ≠ 0 then
            (self.updateSize (to_int64 (to_size_t (-(n.entry.size : Int))))).updateElementsCount
              (-1)
          else self) with queue := rest } := by
  simp only [LRUFileCachePriority.remove, LRUQueue.deref, if_true]
  split <;> simp only [updateSize, updateElementsCount, LRUQueue.erase, if_true]

/-- The walk does not read the queue field of the object it carries. -/
theorem LRUFileCachePriority.iterate_loop_queue {σ : Type} (metadata : CacheMetadata)
    (func : IterateFunc σ) (rest : LRUQueue) :
    ∀ (visited queue : LRUQueue) (self : LRUFileCachePriority) (captured : σ)
      (delivered : List Node),
      LRUFileCachePriority.iterate_loop metadata func rest visited
          { self with queue := queue } captured delivered
        = LRUFileCachePriority.iterate_loop metadata func rest visited self captured
            delivered := by
  induction rest with
  | nil => intro visited queue self captured delivered; rfl
  | cons n rest ih =>
    intro visited queue self captured delivered
    simp only [LRUFileCachePriority.iterate_loop]
    split
    · rfl
    · split
      · exact ih _ _ _ _ _
      · split
        · rfl
        · split
          · rfl
          · split
            · rfl
            · split
              · rfl
              · exact ih _ _ _ _ _
              · rfl

/-- A node that the walk unlinks unseen: the walk goes on behind it with the counters
`remove` leaves. -/
theorem LRUFileCachePriority.iterate_loop_of_removed {σ : Type} (metadata : CacheMetadata)
    (func : IterateFunc σ) (n : Node) (rest visited : LRUQueue) (self : LRUFileCachePriority)
    (captured : σ) (delivered : List Node)
    (h : n.entry.size = 0 ∨ (n.entry.evicting = false ∧
        (metadata.tryLock n.entry.key = false
          ∨ metadata.tryGetByOffset n.entry.key n.entry.offset = none))) :
    LRUFileCachePriority.iterate_loop metadata func (n :: rest) visited self captured delivered
      = LRUFileCachePriority.iterate_loop metadata func rest visited
          (if n.entry.size ≠ 0 then
            (self.updateSize (to_int64 (to_size_t (-(n.entry.size : Int))))).updateElementsCount
              (-1)
          else self) captured delivered := by
  have hr := LRUFileCachePriority.remove_at_cursor self n rest
  have hq := LRUFileCachePriority.iterate_loop_queue metadata func rest visited rest
    (if n.entry.size ≠ 0 then
      (self.updateSize (to_int64 (to_size_t (-(n.entry.size : Int))))).updateElementsCount (-1)
    else self) captured delivered
  rw [← hq, ← hr]
  simp only [LRUFileCachePriority.iterate_loop]
  by_cases h0 : n.entry.size = 0
  · rw [if_pos h0]
  · rcases h with h | ⟨he, hl | hs⟩
    · exact absurd h h0
    · rw [if_neg h0, he, hl]
      simp
    · rw [if_neg h0, he]
      cases hl : metadata.tryLock n.entry.key with
      | false => simp
      | true => simp [h0, hs]

/-- An evicting node with `size > 0` is passed and left linked as it is. -/
theorem LRUFileCachePriority.iterate_loop_of_evicting {σ : Type} (metadata : CacheMetadata)
    (func : IterateFunc σ) (n : Node) (rest visited : LRUQueue) (self : LRUFileCachePriority)
    (captured : σ) (delivered : List Node)
    (h_size : n.entry.size ≠ 0) (h_evicting : n.entry.evicting = true) :
    LRUFileCachePriority.iterate_loop metadata func (n :: rest) visited self captured delivered
      = LRUFileCachePriority.iterate_loop metadata func rest (visited ++ [n]) self captured
          delivered := by
  simp only [LRUFileCachePriority.iterate_loop, h_size, h_evicting, if_false, if_true]

/-- At an eligible node whose segment reports another size the walk throws and leaves the
queue, the counters and what the callback captured as they are. -/
theorem LRUFileCachePriority.iterate_loop_of_mismatch {σ : Type} (metadata : CacheMetadata)
    (func : IterateFunc σ) (n : Node) (rest visited : LRUQueue) (self : LRUFileCachePriority)
    (captured : σ) (delivered : List Node)
    (h_eligible : metadata.eligible n = true) (h_mismatch : metadata.mismatch n = true) :
    LRUFileCachePriority.iterate_loop metadata func (n :: rest) visited self captured delivered
      = { result := .error .LOGICAL_ERROR
          self := { self with queue := visited ++ n :: rest }
          captured := captured
          delivered := delivered } := by
  rcases (CacheMetadata.eligible_iff metadata n).mp h_eligible with ⟨h0, he, hl, segment, hs⟩
  have hm : segment.size ≠ n.entry.size := by
    simpa [CacheMetadata.mismatch, hs] using h_mismatch
  simp only [LRUFileCachePriority.iterate_loop, h0, he, hl, hs, hm, if_false, if_true,
    Bool.not_true, Bool.false_or, decide_False, Bool.false_eq_true, ne_eq, not_false_eq_true]

/-- At an eligible node whose segment reports the size of the entry the walk calls the
callback and follows the value it returns. -/
theorem LRUFileCachePriority.iterate_loop_of_match {σ : Type} (metadata : CacheMetadata)
    (func : IterateFunc σ) (n : Node) (rest visited : LRUQueue) (self : LRUFileCachePriority)
    (captured : σ) (delivered : List Node) (segment : FileSegmentMetadata)
    (h_eligible : metadata.eligible n = true)
    (h_segment : metadata.tryGetByOffset n.entry.key n.entry.offset = some segment)
    (h_match : segment.size = n.entry.size) :
    LRUFileCachePriority.iterate_loop metadata func (n :: rest) visited self captured delivered
      = match (func captured { self with queue := visited ++ n :: rest } n segment).result with
        | .BREAK =>
          { result := .ok ()
            self := { self with queue := visited
              ++ { n with entry :=
                    (func captured { self with queue := visited ++ n :: rest } n
                      segment).entry } :: rest }
            captured := (func captured { self with queue := visited ++ n :: rest } n
              segment).captured
            delivered := delivered ++ [n] }
        | .CONTINUE =>
          LRUFileCachePriority.iterate_loop metadata func rest
            (visited ++ [{ n with entry :=
              (func captured { self with queue := visited ++ n :: rest } n segment).entry }])
            self
            (func captured { self with queue := visited ++ n :: rest } n segment).captured
            (delivered ++ [n])
        | .REMOVE_AND_CONTINUE =>
          LRUFileCachePriority.iterate_loop metadata func rest visited
            (if (func captured { self with queue := visited ++ n :: rest } n
                segment).entry.size ≠ 0 then
              (self.updateSize (to_int64 (to_size_t
                (-((func captured { self with queue := visited ++ n :: rest } n
                  segment).entry.size : Int))))).updateElementsCount (-1)
            else self)
            (func captured { self with queue := visited ++ n :: rest } n segment).captured
            (delivered ++ [n]) := by
  rcases (CacheMetadata.eligible_iff metadata n).mp h_eligible with ⟨h0, he, hl, _, _⟩
  simp only [LRUFileCachePriority.iterate_loop, h0, he, hl, h_segment, h_match, if_false,
    Bool.not_true, Bool.false_or, decide_False, Bool.false_eq_true, ne_eq, not_true_eq_false]
  cases hres : (func captured { self with queue := visited ++ n :: rest } n segment).result with
  | BREAK => rfl
  | CONTINUE => rfl
  | REMOVE_AND_CONTINUE =>
    simp only
    have hr := LRUFileCachePriority.remove_at_cursor self
      { n with entry := (func captured { self with queue := visited ++ n :: rest } n
        segment).entry } rest
    simp only at hr
    rw [hr]
    exact LRUFileCachePriority.iterate_loop_queue metadata func rest visited rest _ _ _

/-! ## The walk: what it delivers and where it stops -/

theorem CacheMetadata.mismatch_of_segment (metadata : CacheMetadata) (n : Node)
    (segment : FileSegmentMetadata)
    (h_segment : metadata.tryGetByOffset n.entry.key n.entry.offset = some segment) :
    metadata.mismatch n = decide (segment.size ≠ n.entry.size) := by
  simp only [CacheMetadata.mismatch, h_segment]

theorem CacheMetadata.not_eligible_of_removed (metadata : CacheMetadata) (n : Node)
    (h : n.entry.size = 0 ∨ (n.entry.evicting = false ∧
        (metadata.tryLock n.entry.key = false
          ∨ metadata.tryGetByOffset n.entry.key n.entry.offset = none))) :
    metadata.eligible n = false := by
  rw [Bool.eq_false_iff]
  intro he
  rcases (CacheMetadata.eligible_iff metadata n).mp he with ⟨h0, _, hl, segment, hs⟩
  rcases h with h | ⟨_, h | h⟩
  · exact h0 h
  · rw [hl] at h; cases h
  · rw [hs] at h; cases h

theorem CacheMetadata.not_eligible_of_evicting (metadata : CacheMetadata) (n : Node)
    (h : n.entry.evicting = true) : metadata.eligible n = false := by
  rw [Bool.eq_false_iff]
  intro he
  rcases (CacheMetadata.eligible_iff metadata n).mp he with ⟨_, hev, _⟩
  rw [h] at hev; cases hev

/-- The shape of every walk from a cursor: the remaining nodes split into the part the
walk went through and the part it never reached; the callback got the eligible nodes of
the first part, in order; the second part is still linked behind what the walk kept; and
the walk ended at the end of the queue, on a `BREAK` from the callback at the last node it
went through, or with a logic error at an eligible node whose segment reports another
size, which is then the first node it never went through. -/
theorem LRUFileCachePriority.iterate_loop_shape {σ : Type} (metadata : CacheMetadata)
    (func : IterateFunc σ) (rest : LRUQueue) :
    ∀ (visited : LRUQueue) (self : LRUFileCachePriority) (captured : σ)
      (delivered : List Node),
      ∃ pre post kept : LRUQueue,
        rest = pre ++ post
        ∧ (LRUFileCachePriority.iterate_loop metadata func rest visited self captured
            delivered).delivered = delivered ++ pre.filter metadata.eligible
        ∧ (LRUFileCachePriority.iterate_loop metadata func rest visited self captured
            delivered).self.queue = visited ++ kept ++ post
        ∧ (kept.map Node.id).Sublist (pre.map Node.id)
        ∧ (∀ m ∈ pre, metadata.eligible m = true → metadata.mismatch m = false)
        ∧ ((post = []
              ∧ (LRUFileCachePriority.iterate_loop metadata func rest visited self captured
                  delivered).result = .ok ())
            ∨ ((LRUFileCachePriority.iterate_loop metadata func rest visited self captured
                  delivered).result = .ok ()
              ∧ ∃ (pre' kept' : LRUQueue) (n : Node) (captured' : σ)
                  (here : LRUFileCachePriority) (segment : FileSegmentMetadata),
                  pre = pre' ++ [n] ∧ metadata.eligible n = true
                  ∧ metadata.tryGetByOffset n.entry.key n.entry.offset = some segment
                  ∧ (func captured' here n segment).result = .BREAK
                  ∧ kept = kept' ++ [{ n with entry := (func captured' here n segment).entry }])
            ∨ ((LRUFileCachePriority.iterate_loop metadata func rest visited self captured
                  delivered).result = .error .LOGICAL_ERROR
              ∧ ∃ (n : Node) (post' : LRUQueue), post = n :: post'
                  ∧ metadata.eligible n = true ∧ metadata.mismatch n = true)) := by
  induction rest with
  | nil =>
    intro visited self captured delivered
    refine ⟨[], [], [], rfl, ?_, ?_, List.Sublist.refl _, ?_, Or.inl ⟨rfl, rfl⟩⟩
    · simp [LRUFileCachePriority.iterate_loop]
    · simp [LRUFileCachePriority.iterate_loop]
    · intro m hm; cases hm
  | cons n rest ih =>
    intro visited self captured delivered
    rcases CacheMetadata.visit_cases metadata n with hrem | ⟨h0, hev⟩ | ⟨hel, segment, hseg⟩
    · -- unlinked unseen
      rw [LRUFileCachePriority.iterate_loop_of_removed metadata func n rest visited self captured
        delivered hrem]
      have hne := CacheMetadata.not_eligible_of_removed metadata n hrem
      obtain ⟨pre, post, kept, h1, h2, h3, h4, h5, h6⟩ := ih visited
        (if n.entry.size ≠ 0 then
          (self.updateSize (to_int64 (to_size_t (-(n.entry.size : Int))))).updateElementsCount
            (-1)
        else self) captured delivered
      refine ⟨n :: pre, post, kept, by rw [h1]; rfl, ?_, h3, ?_, ?_, ?_⟩
      · rw [h2, List.filter_cons, hne]; rfl
      · rw [List.map_cons]; exact List.Sublist.cons _ h4
      · intro m hm hme
        rcases List.mem_cons.mp hm with hm | hm
        · subst hm; rw [hne] at hme; cases hme
        · exact h5 m hm hme
      · rcases h6 with ⟨hp, hr⟩ | ⟨hr, pre', kept', m, c', here, seg, hp, he, hs, hb, hk⟩
            | ⟨hr, m, post', hp, he, hm⟩
        · exact Or.inl ⟨hp, hr⟩
        · exact Or.inr (Or.inl ⟨hr, n :: pre', kept', m, c', here, seg, by rw [hp]; rfl, he, hs,
            hb, hk⟩)
        · exact Or.inr (Or.inr ⟨hr, m, post', hp, he, hm⟩)
    · -- evicting: passed and kept
      rw [LRUFileCachePriority.iterate_loop_of_evicting metadata func n rest visited self
        captured delivered h0 hev]
      have hne := CacheMetadata.not_eligible_of_evicting metadata n hev
      obtain ⟨pre, post, kept, h1, h2, h3, h4, h5, h6⟩ := ih (visited ++ [n]) self captured
        delivered
      refine ⟨n :: pre, post, n :: kept, by rw [h1]; rfl, ?_, ?_, ?_, ?_, ?_⟩
      · rw [h2, List.filter_cons, hne]; rfl
      · rw [h3]; simp
      · rw [List.map_cons, List.map_cons]; exact List.Sublist.cons₂ _ h4
      · intro m hm hme
        rcases List.mem_cons.mp hm with hm | hm
        · subst hm; rw [hne] at hme; cases hme
        · exact h5 m hm hme
      · rcases h6 with ⟨hp, hr⟩ | ⟨hr, pre', kept', m, c', here, seg, hp, he, hs, hb, hk⟩
            | ⟨hr, m, post', hp, he, hm⟩
        · exact Or.inl ⟨hp, hr⟩
        · exact Or.inr (Or.inl ⟨hr, n :: pre', n :: kept', m, c', here, seg, by rw [hp]; rfl,
            he, hs, hb, by rw [hk]; rfl⟩)
        · exact Or.inr (Or.inr ⟨hr, m, post', hp, he, hm⟩)
    · by_cases hmatch : segment.size = n.entry.size
      · -- handed to the callback
        have hmm : metadata.mismatch n = false := by
          rw [CacheMetadata.mismatch_of_segment metadata n segment hseg]
          simp [hmatch]
        rw [LRUFileCachePriority.iterate_loop_of_match metadata func n rest visited self
          captured delivered segment hel hseg hmatch]
        cases hres : (func captured { self with queue := visited ++ n :: rest } n
            segment).result with
        | BREAK =>
          refine ⟨[n], rest, [{ n with entry :=
              (func captured { self with queue := visited ++ n :: rest } n segment).entry }],
            rfl, ?_, ?_, ?_, ?_, ?_⟩
          · simp [List.filter_cons, hel]
          · simp
          · simp
          · intro m hm hme
            rw [List.mem_singleton] at hm
            subst hm; exact hmm
          · exact Or.inr (Or.inl ⟨rfl, [], [], n, captured,
              { self with queue := visited ++ n :: rest }, segment, rfl, hel, hseg, hres, rfl⟩)
        | CONTINUE =>
          obtain ⟨pre, post, kept, h1, h2, h3, h4, h5, h6⟩ := ih
            (visited ++ [{ n with entry :=
              (func captured { self with queue := visited ++ n :: rest } n segment).entry }])
            self (func captured { self with queue := visited ++ n :: rest } n segment).captured
            (delivered ++ [n])
          refine ⟨n :: pre, post, { n with entry :=
              (func captured { self with queue := visited ++ n :: rest } n segment).entry }
              :: kept, by rw [h1]; rfl, ?_, ?_, ?_, ?_, ?_⟩
          · simp only
            rw [h2, List.filter_cons, hel]; simp
          · simp only
            rw [h3]; simp
          · rw [List.map_cons, List.map_cons]; exact List.Sublist.cons₂ _ h4
          · intro m hm hme
            rcases List.mem_cons.mp hm with hm | hm
            · subst hm; exact hmm
            · exact h5 m hm hme
          · rcases h6 with ⟨hp, hr⟩ | ⟨hr, pre', kept', m, c', here, seg, hp, he, hs, hb, hk⟩
                | ⟨hr, m, post', hp, he, hm⟩
            · exact Or.inl ⟨hp, hr⟩
            · exact Or.inr (Or.inl ⟨hr, n :: pre', _ :: kept', m, c', here, seg,
                by rw [hp]; rfl, he, hs, hb, by rw [hk]; rfl⟩)
            · exact Or.inr (Or.inr ⟨hr, m, post', hp, he, hm⟩)
        | REMOVE_AND_CONTINUE =>
          obtain ⟨pre, post, kept, h1, h2, h3, h4, h5, h6⟩ := ih visited
            (if (func captured { self with queue := visited ++ n :: rest } n
                segment).entry.size ≠ 0 then
              (self.updateSize (to_int64 (to_size_t
                (-((func captured { self with queue := visited ++ n :: rest } n
                  segment).entry.size : Int))))).updateElementsCount (-1)
            else self)
            (func captured { self with queue := visited ++ n :: rest } n segment).captured
            (delivered ++ [n])
          refine ⟨n :: pre, post, kept, by rw [h1]; rfl, ?_, ?_, ?_, ?_, ?_⟩
          · simp only
            rw [h2, List.filter_cons, hel]; simp
          · simp only
            rw [h3]
          · rw [List.map_cons]; exact List.Sublist.cons _ h4
          · intro m hm hme
            rcases List.mem_cons.mp hm with hm | hm
            · subst hm; exact hmm
            · exact h5 m hm hme
          · rcases h6 with ⟨hp, hr⟩ | ⟨hr, pre', kept', m, c', here, seg, hp, he, hs, hb, hk⟩
                | ⟨hr, m, post', hp, he, hm⟩
            · exact Or.inl ⟨hp, hr⟩
            · exact Or.inr (Or.inl ⟨hr, n :: pre', kept', m, c', here, seg,
                by rw [hp]; rfl, he, hs, hb, hk⟩)
            · exact Or.inr (Or.inr ⟨hr, m, post', hp, he, hm⟩)
      · -- the segment reports another size
        have hmm : metadata.mismatch n = true := by
          rw [CacheMetadata.mismatch_of_segment metadata n segment hseg]
          simp [hmatch]
        rw [LRUFileCachePriority.iterate_loop_of_mismatch metadata func n rest visited self
          captured delivered hel hmm]
        refine ⟨[], n :: rest, [], rfl, ?_, ?_, List.Sublist.refl _, ?_, ?_⟩
        · simp
        · simp
        · intro m hm; cases hm
        · exact Or.inr (Or.inr ⟨rfl, n, rest, rfl, hel, hmm⟩)

/-! ## The walk: the values the callback returns -/

theorem mem_dropLast_cons {α : Type} (a p : α) (l : List α)
    (h : p ∈ (a :: l).dropLast) : p = a ∨ p ∈ l.dropLast := by
  cases l with
  | nil => simp at h
  | cons b l =>
    rw [List.dropLast_cons₂] at h
    rcases List.mem_cons.mp h with h | h
    · exact Or.inl h
    · exact Or.inr h

/-- The instrumented callback takes the walk exactly where the callback takes it. -/
theorem LRUFileCachePriority.iterate_loop_logged_eq {σ : Type} (metadata : CacheMetadata)
    (func : IterateFunc σ) (rest : LRUQueue) :
    ∀ (visited : LRUQueue) (self : LRUFileCachePriority) (captured : σ)
      (log : List (Node × IterationResult)) (delivered : List Node),
      (LRUFileCachePriority.iterate_loop metadata (IterateFunc.logged func) rest visited self
          (captured, log) delivered).result
        = (LRUFileCachePriority.iterate_loop metadata func rest visited self captured
            delivered).result
      ∧ (LRUFileCachePriority.iterate_loop metadata (IterateFunc.logged func) rest visited self
          (captured, log) delivered).self
        = (LRUFileCachePriority.iterate_loop metadata func rest visited self captured
            delivered).self
      ∧ (LRUFileCachePriority.iterate_loop metadata (IterateFunc.logged func) rest visited self
          (captured, log) delivered).delivered
        = (LRUFileCachePriority.iterate_loop metadata func rest visited self captured
            delivered).delivered
      ∧ (LRUFileCachePriority.iterate_loop metadata (IterateFunc.logged func) rest visited self
          (captured, log) delivered).captured.1
        = (LRUFileCachePriority.iterate_loop metadata func rest visited self captured
            delivered).captured := by
  induction rest with
  | nil => intro visited self captured log delivered; exact ⟨rfl, rfl, rfl, rfl⟩
  | cons n rest ih =>
    intro visited self captured log delivered
    rcases CacheMetadata.visit_cases metadata n with hrem | ⟨h0, hev⟩ | ⟨hel, segment, hseg⟩
    · rw [LRUFileCachePriority.iterate_loop_of_removed metadata _ n rest visited self
          (captured, log) delivered hrem,
        LRUFileCachePriority.iterate_loop_of_removed metadata func n rest visited self captured
          delivered hrem]
      exact ih _ _ _ _ _
    · rw [LRUFileCachePriority.iterate_loop_of_evicting metadata _ n rest visited self
          (captured, log) delivered h0 hev,
        LRUFileCachePriority.iterate_loop_of_evicting metadata func n rest visited self captured
          delivered h0 hev]
      exact ih _ _ _ _ _
    · by_cases hmatch : segment.size = n.entry.size
      · rw [LRUFileCachePriority.iterate_loop_of_match metadata _ n rest visited self
            (captured, log) delivered segment hel hseg hmatch,
          LRUFileCachePriority.iterate_loop_of_match metadata func n rest visited self captured
            delivered segment hel hseg hmatch]
        have hr : (IterateFunc.logged func (captured, log)
            { self with queue := visited ++ n :: rest } n segment).result
            = (func captured { self with queue := visited ++ n :: rest } n segment).result := rfl
        rw [hr]
        cases hres : (func captured { self with queue := visited ++ n :: rest } n
            segment).result with
        | BREAK => exact ⟨rfl, rfl, rfl, rfl⟩
        | CONTINUE => exact ih _ _ _ _ _
        | REMOVE_AND_CONTINUE => exact ih _ _ _ _ _
      · have hmm : metadata.mismatch n = true := by
          rw [CacheMetadata.mismatch_of_segment metadata n segment hseg]
          simp [hmatch]
        rw [LRUFileCachePriority.iterate_loop_of_mismatch metadata _ n rest visited self
            (captured, log) delivered hel hmm,
          LRUFileCachePriority.iterate_loop_of_mismatch metadata func n rest visited self
            captured delivered hel hmm]
        exact ⟨rfl, rfl, rfl, rfl⟩


/-- The shape of every walk from a cursor, with the values the callback returns: as
`iterate_loop_shape`, and the log gains one pair per node handed over, in order; only
the last value it gains can be `BREAK`, and it is `BREAK` exactly when the walk ends on
it. -/
theorem LRUFileCachePriority.iterate_loop_logged_shape {σ : Type} (metadata : CacheMetadata)
    (func : IterateFunc σ) (rest : LRUQueue) :
    ∀ (visited : LRUQueue) (self : LRUFileCachePriority) (captured : σ)
      (log : List (Node × IterationResult)) (delivered : List Node),
      ∃ (pre post kept : LRUQueue) (new : List (Node × IterationResult)),
        rest = pre ++ post
        ∧ (LRUFileCachePriority.iterate_loop metadata (IterateFunc.logged func) rest visited
            self (captured, log) delivered).delivered = delivered ++ pre.filter metadata.eligible
        ∧ (LRUFileCachePriority.iterate_loop metadata (IterateFunc.logged func) rest visited
            self (captured, log) delivered).self.queue = visited ++ kept ++ post
        ∧ (kept.map Node.id).Sublist (pre.map Node.id)
        ∧ (∀ m ∈ pre, metadata.eligible m = true → metadata.mismatch m = false)
        ∧ (LRUFileCachePriority.iterate_loop metadata (IterateFunc.logged func) rest visited
            self (captured, log) delivered).captured.2 = log ++ new
        ∧ new.map Prod.fst = pre.filter metadata.eligible
        ∧ (∀ p ∈ new.dropLast, p.2 ≠ .BREAK)
        ∧ ((post = []
              ∧ (LRUFileCachePriority.iterate_loop metadata (IterateFunc.logged func) rest
                  visited self (captured, log) delivered).result = .ok ()
              ∧ ∀ p ∈ new, p.2 ≠ .BREAK)
            ∨ ((LRUFileCachePriority.iterate_loop metadata (IterateFunc.logged func) rest
                  visited self (captured, log) delivered).result = .ok ()
              ∧ ∃ (pre' kept' : LRUQueue) (n : Node) (captured' : σ)
                  (here : LRUFileCachePriority) (segment : FileSegmentMetadata)
                  (new' : List (Node × IterationResult)),
                  pre = pre' ++ [n] ∧ metadata.eligible n = true
                  ∧ metadata.tryGetByOffset n.entry.key n.entry.offset = some segment
                  ∧ (func captured' here n segment).result = .BREAK
                  ∧ kept = kept' ++ [{ n with entry := (func captured' here n segment).entry }]
                  ∧ new = new' ++ [(n, .BREAK)]
                  ∧ (LRUFileCachePriority.iterate_loop metadata (IterateFunc.logged func) rest
                      visited self (captured, log) delivered).captured.1
                    = (func captured' here n segment).captured)
            ∨ ((LRUFileCachePriority.iterate_loop metadata (IterateFunc.logged func) rest
                  visited self (captured, log) delivered).result = .error .LOGICAL_ERROR
              ∧ (∃ (n : Node) (post' : LRUQueue), post = n :: post'
                  ∧ metadata.eligible n = true ∧ metadata.mismatch n = true)
              ∧ ∀ p ∈ new, p.2 ≠ .BREAK)) := by
  induction rest with
  | nil =>
    intro visited self captured log delivered
    refine ⟨[], [], [], [], rfl, ?_, ?_, List.Sublist.refl _, ?_, ?_, rfl, ?_,
      Or.inl ⟨rfl, rfl, ?_⟩⟩
    · simp [LRUFileCachePriority.iterate_loop]
    · simp [LRUFileCachePriority.iterate_loop]
    · intro m hm; cases hm
    · simp [LRUFileCachePriority.iterate_loop]
    · intro p hp; simp at hp
    · intro p hp; cases hp
  | cons n rest ih =>
    intro visited self captured log delivered
    rcases CacheMetadata.visit_cases metadata n with hrem | ⟨h0, hev⟩ | ⟨hel, segment, hseg⟩
    · rw [LRUFileCachePriority.iterate_loop_of_removed metadata _ n rest visited self
        (captured, log) delivered hrem]
      have hne := CacheMetadata.not_eligible_of_removed metadata n hrem
      obtain ⟨pre, post, kept, new, h1, h2, h3, h4, h5, h6, h7, h8, h9⟩ := ih visited
        (if n.entry.size ≠ 0 then
          (self.updateSize (to_int64 (to_size_t (-(n.entry.size : Int))))).updateElementsCount
            (-1)
        else self) captured log delivered
      refine ⟨n :: pre, post, kept, new, by rw [h1]; rfl, ?_, h3, ?_, ?_, h6, ?_, h8, ?_⟩
      · rw [h2, List.filter_cons, hne]; rfl
      · rw [List.map_cons]; exact List.Sublist.cons _ h4
      · intro m hm hme
        rcases List.mem_cons.mp hm with hm | hm
        · subst hm; rw [hne] at hme; cases hme
        · exact h5 m hm hme
      · rw [h7, List.filter_cons, hne]; rfl
      · rcases h9 with ⟨hp, hr, hb⟩
            | ⟨hr, pre', kept', m, c', here, seg, new', hp, he, hs, hb, hk, hn, hc⟩
            | ⟨hr, hm, hb⟩
        · exact Or.inl ⟨hp, hr, hb⟩
        · exact Or.inr (Or.inl ⟨hr, n :: pre', kept', m, c', here, seg, new', by rw [hp]; rfl,
            he, hs, hb, hk, hn, hc⟩)
        · exact Or.inr (Or.inr ⟨hr, hm, hb⟩)
    · rw [LRUFileCachePriority.iterate_loop_of_evicting metadata _ n rest visited self
        (captured, log) delivered h0 hev]
      have hne := CacheMetadata.not_eligible_of_evicting metadata n hev
      obtain ⟨pre, post, kept, new, h1, h2, h3, h4, h5, h6, h7, h8, h9⟩ := ih (visited ++ [n])
        self captured log delivered
      refine ⟨n :: pre, post, n :: kept, new, by rw [h1]; rfl, ?_, ?_, ?_, ?_, h6, ?_, h8, ?_⟩
      · rw [h2, List.filter_cons, hne]; rfl
      · rw [h3]; simp
      · rw [List.map_cons, List.map_cons]; exact List.Sublist.cons₂ _ h4
      · intro m hm hme
        rcases List.mem_cons.mp hm with hm | hm
        · subst hm; rw [hne] at hme; cases hme
        · exact h5 m hm hme
      · rw [h7, List.filter_cons, hne]; rfl
      · rcases h9 with ⟨hp, hr, hb⟩
            | ⟨hr, pre', kept', m, c', here, seg, new', hp, he, hs, hb, hk, hn, hc⟩
            | ⟨hr, hm, hb⟩
        · exact Or.inl ⟨hp, hr, hb⟩
        · exact Or.inr (Or.inl ⟨hr, n :: pre', n :: kept', m, c', here, seg, new',
            by rw [hp]; rfl, he, hs, hb, by rw [hk]; rfl, hn, hc⟩)
        · exact Or.inr (Or.inr ⟨hr, hm, hb⟩)
    · by_cases hmatch : segment.size = n.entry.size
      · have hmm : metadata.mismatch n = false := by
          rw [CacheMetadata.mismatch_of_segment metadata n segment hseg]
          simp [hmatch]
        rw [LRUFileCachePriority.iterate_loop_of_match metadata _ n rest visited self
          (captured, log) delivered segment hel hseg hmatch]
        have hr : (IterateFunc.logged func (captured, log)
            { self with queue := visited ++ n :: rest } n segment).result
            = (func captured { self with queue := visited ++ n :: rest } n segment).result := rfl
        have hc : (IterateFunc.logged func (captured, log)
            { self with queue := visited ++ n :: rest } n segment).captured
            = ((func captured { self with queue := visited ++ n :: rest } n segment).captured,
                log ++ [(n, (func captured { self with queue := visited ++ n :: rest } n
                  segment).result)]) := rfl
        have he : (IterateFunc.logged func (captured, log)
            { self with queue := visited ++ n :: rest } n segment).entry
            = (func captured { self with queue := visited ++ n :: rest } n segment).entry := rfl
        rw [hr, hc, he]
        cases hres : (func captured { self with queue := visited ++ n :: rest } n
            segment).result with
        | BREAK =>
          refine ⟨[n], rest, [{ n with entry :=
              (func captured { self with queue := visited ++ n :: rest } n segment).entry }],
            [(n, .BREAK)], rfl, ?_, ?_, ?_, ?_, rfl, ?_, ?_, ?_⟩
          · simp [List.filter_cons, hel]
          · simp
          · simp
          · intro m hm hme
            rw [List.mem_singleton] at hm
            subst hm; exact hmm
          · simp [List.filter_cons, hel]
          · intro p hp; simp at hp
          · exact Or.inr (Or.inl ⟨rfl, [], [], n, captured,
              { self with queue := visited ++ n :: rest }, segment, [], rfl, hel, hseg, hres,
              rfl, rfl, rfl⟩)
        | CONTINUE =>
          obtain ⟨pre, post, kept, new, h1, h2, h3, h4, h5, h6, h7, h8, h9⟩ := ih
            (visited ++ [{ n with entry :=
              (func captured { self with queue := visited ++ n :: rest } n segment).entry }])
            self (func captured { self with queue := visited ++ n :: rest } n segment).captured
            (log ++ [(n, .CONTINUE)]) (delivered ++ [n])
          refine ⟨n :: pre, post, { n with entry :=
              (func captured { self with queue := visited ++ n :: rest } n segment).entry }
              :: kept, (n, .CONTINUE) :: new, by rw [h1]; rfl, ?_, ?_, ?_, ?_, ?_, ?_, ?_, ?_⟩
          · simp only
            rw [h2, List.filter_cons, hel]; simp
          · simp only
            rw [h3]; simp
          · rw [List.map_cons, List.map_cons]; exact List.Sublist.cons₂ _ h4
          · intro m hm hme
            rcases List.mem_cons.mp hm with hm | hm
            · subst hm; exact hmm
            · exact h5 m hm hme
          · simp only
            rw [h6]; simp
          · rw [List.map_cons, h7, List.filter_cons, hel]; rfl
          · intro p hp
            rcases mem_dropLast_cons _ _ _ hp with hp | hp
            · subst hp; intro hb; cases hb
            · exact h8 p hp
          · have hcons : ∀ p ∈ (n, IterationResult.CONTINUE) :: new,
                (∀ q ∈ new, q.2 ≠ IterationResult.BREAK) → p.2 ≠ IterationResult.BREAK := by
              intro p hp hq
              rcases List.mem_cons.mp hp with hp | hp
              · subst hp; intro hb; cases hb
              · exact hq p hp
            rcases h9 with ⟨hp, hr, hb⟩
                | ⟨hr, pre', kept', m, c', here, seg, new', hp, he, hs, hb, hk, hn, hc⟩
                | ⟨hr, hm, hb⟩
            · exact Or.inl ⟨hp, hr, fun p hp => hcons p hp hb⟩
            · exact Or.inr (Or.inl ⟨hr, n :: pre', _ :: kept', m, c', here, seg,
                (n, .CONTINUE) :: new', by rw [hp]; rfl, he, hs, hb, by rw [hk]; rfl,
                by rw [hn]; rfl, hc⟩)
            · exact Or.inr (Or.inr ⟨hr, hm, fun p hp => hcons p hp hb⟩)
        | REMOVE_AND_CONTINUE =>
          obtain ⟨pre, post, kept, new, h1, h2, h3, h4, h5, h6, h7, h8, h9⟩ := ih visited
            (if (func captured { self with queue := visited ++ n :: rest } n
                segment).entry.size ≠ 0 then
              (self.updateSize (to_int64 (to_size_t
                (-((func captured { self with queue := visited ++ n :: rest } n
                  segment).entry.size : Int))))).updateElementsCount (-1)
            else self)
            (func captured { self with queue := visited ++ n :: rest } n segment).captured
            (log ++ [(n, .REMOVE_AND_CONTINUE)]) (delivered ++ [n])
          refine ⟨n :: pre, post, kept, (n, .REMOVE_AND_CONTINUE) :: new, by rw [h1]; rfl,
            ?_, ?_, ?_, ?_, ?_, ?_, ?_, ?_⟩
          · simp only
            rw [h2, List.filter_cons, hel]; simp
          · simp only
            rw [h3]
          · rw [List.map_cons]; exact List.Sublist.cons _ h4
          · intro m hm hme
            rcases List.mem_cons.mp hm with hm | hm
            · subst hm; exact hmm
            · exact h5 m hm hme
          · simp only
            rw [h6]; simp
          · rw [List.map_cons, h7, List.filter_cons, hel]; rfl
          · intro p hp
            rcases mem_dropLast_cons _ _ _ hp with hp | hp
            · subst hp; intro hb; cases hb
            · exact h8 p hp
          · have hcons : ∀ p ∈ (n, IterationResult.REMOVE_AND_CONTINUE) :: new,
                (∀ q ∈ new, q.2 ≠ IterationResult.BREAK) → p.2 ≠ IterationResult.BREAK := by
              intro p hp hq
              rcases List.mem_cons.mp hp with hp | hp
              · subst hp; intro hb; cases hb
              · exact hq p hp
            rcases h9 with ⟨hp, hr, hb⟩
                | ⟨hr, pre', kept', m, c', here, seg, new', hp, he, hs, hb, hk, hn, hc⟩
                | ⟨hr, hm, hb⟩
            · exact Or.inl ⟨hp, hr, fun p hp => hcons p hp hb⟩
            · exact Or.inr (Or.inl ⟨hr, n :: pre', kept', m, c', here, seg,
                (n, .REMOVE_AND_CONTINUE) :: new', by rw [hp]; rfl, he, hs, hb, hk,
                by rw [hn]; rfl, hc⟩)
            · exact Or.inr (Or.inr ⟨hr, hm, fun p hp => hcons p hp hb⟩)
      · have hmm : metadata.mismatch n = true := by
          rw [CacheMetadata.mismatch_of_segment metadata n segment hseg]
          simp [hmatch]
        rw [LRUFileCachePriority.iterate_loop_of_mismatch metadata _ n rest visited self
          (captured, log) delivered hel hmm]
        refine ⟨[], n :: rest, [], [], rfl, ?_, ?_, List.Sublist.refl _, ?_, ?_, rfl, ?_, ?_⟩
        · simp
        · simp
        · intro m hm; cases hm
        · simp
        · intro p hp; simp at hp
        · exact Or.inr (Or.inr ⟨rfl, ⟨n, rest, rfl, hel, hmm⟩, fun p hp => by cases hp⟩)

/-- C13 (counterexample): a queue holding A(10) alone, not evicting, whose key lock is
acquired and whose segment is present but reports size 20: A meets every condition the
statement lists, yet the walk hands nothing to the callback and throws. -/
theorem LRUFileCachePriority.iterate_stops_at_mismatch :
    (Scenario.metadata 20 0).eligible { id := 0, entry := Scenario.entry 1 10 } = true
    ∧ ((run false (construct 0 0 none) [.add (Scenario.entry 1 10)]).iterate
        (Scenario.metadata 20 0) Scenario.keep_going ()).delivered = []
    ∧ ((run false (construct 0 0 none) [.add (Scenario.entry 1 10)]).iterate
        (Scenario.metadata 20 0) Scenario.keep_going ()).result = .error .LOGICAL_ERROR := by
  decide

/-- C13 (amended): for every queue, key metadata and callback, `iterate` returns (the walk
is a structural recursion over the queue) and the queue splits into the nodes the walk
went through and the nodes it never reached. The callback got exactly the nodes of the
first part with `size > 0`, not evicting, key lock acquired and segment present, in queue
order and each once, and all of them had a segment of the size of the entry. The second
part is never handed over, unlinked or written: it is the tail of the queue after the
call. The values the callback returned, read off the instrumented callback, which takes
the walk where the callback takes it, are one per node handed over, in order, and only
the last of them can be `BREAK`: the walk ends on the first `BREAK`, returned for the
last node it went through; or, no value being `BREAK`, at the end of the queue, or with
a logic error at the first eligible node whose segment reports another size, which stays
first of the part never reached. -/
theorem LRUFileCachePriority.iterate_delivers_eligible_prefix {σ : Type}
    (self : LRUFileCachePriority) (metadata : CacheMetadata) (func : IterateFunc σ)
    (captured : σ) :
    ((self.iterate metadata (IterateFunc.logged func) (captured, [])).result
        = (self.iterate metadata func captured).result
      ∧ (self.iterate metadata (IterateFunc.logged func) (captured, [])).self
        = (self.iterate metadata func captured).self
      ∧ (self.iterate metadata (IterateFunc.logged func) (captured, [])).delivered
        = (self.iterate metadata func captured).delivered
      ∧ (self.iterate metadata (IterateFunc.logged func) (captured, [])).captured.1
        = (self.iterate metadata func captured).captured)
    ∧ (self.iterate metadata (IterateFunc.logged func) (captured, [])).captured.2.map Prod.fst
        = (self.iterate metadata func captured).delivered
    ∧ (∀ p ∈ (self.iterate metadata (IterateFunc.logged func)
          (captured, [])).captured.2.dropLast, p.2 ≠ .BREAK)
    ∧ ∃ pre post kept : LRUQueue,
      self.queue = pre ++ post
      ∧ (self.iterate metadata func captured).delivered = pre.filter metadata.eligible
      ∧ (self.iterate metadata func captured).delivered.Sublist self.queue
      ∧ (self.iterate metadata func captured).self.queue = kept ++ post
      ∧ (kept.map Node.id).Sublist (pre.map Node.id)
      ∧ (∀ m ∈ pre, metadata.eligible m = true → metadata.mismatch m = false)
      ∧ ((post = [] ∧ (self.iterate metadata func captured).result = .ok ()
            ∧ ∀ p ∈ (self.iterate metadata (IterateFunc.logged func)
                (captured, [])).captured.2, p.2 ≠ .BREAK)
          ∨ ((self.iterate metadata func captured).result = .ok ()
            ∧ ∃ (pre' kept' : LRUQueue) (n : Node) (captured' : σ)
                (here : LRUFileCachePriority) (segment : FileSegmentMetadata)
                (log' : List (Node × IterationResult)),
                pre = pre' ++ [n] ∧ metadata.eligible n = true
                ∧ metadata.tryGetByOffset n.entry.key n.entry.offset = some segment
                ∧ (func captured' here n segment).result = .BREAK
                ∧ kept = kept' ++ [{ n with entry := (func captured' here n segment).entry }]
                ∧ (self.iterate metadata (IterateFunc.logged func) (captured, [])).captured.2
                    = log' ++ [(n, .BREAK)]
                ∧ (self.iterate metadata func captured).captured
                    = (func captured' here n segment).captured)
          ∨ ((self.iterate metadata func captured).result = .error .LOGICAL_ERROR
            ∧ (∃ (n : Node) (post' : LRUQueue), post = n :: post'
                ∧ metadata.eligible n = true ∧ metadata.mismatch n = true)
            ∧ ∀ p ∈ (self.iterate metadata (IterateFunc.logged func)
                (captured, [])).captured.2, p.2 ≠ .BREAK)) := by
  unfold LRUFileCachePriority.iterate
  obtain ⟨s1, s2, s3, s4⟩ :=
    LRUFileCachePriority.iterate_loop_logged_eq metadata func self.queue [] self captured [] []
  obtain ⟨pre, post, kept, new, h1, h2, h3, h4, h5, h6, h7, h8, h9⟩ :=
    LRUFileCachePriority.iterate_loop_logged_shape metadata func self.queue [] self captured []
      []
  rw [List.nil_append] at h2 h6
  rw [s3] at h2
  rw [s2] at h3
  rw [s1, s4] at h9
  refine ⟨⟨s1, s2, s3, s4⟩, ?_, ?_, pre, post, kept, h1, h2, ?_, ?_, h4, h5, ?_⟩
  · rw [h6, h7, h2]
  · rw [h6]; exact h8
  · rw [h2, h1]
    exact (List.filter_sublist pre).trans (List.sublist_append_left pre post)
  · rw [h3]; simp
  · rw [h6]
    exact h9

/-- C13 (instance): A(10), B(10), C(10) all live, and a callback that returns `BREAK` at
every call. The walk hands A over and ends: one value is returned, B and C are not
handed over and stay linked. -/
theorem LRUFileCachePriority.iterate_delivers_eligible_prefix_witness :
    ((Scenario.three false).iterate (Scenario.metadata 10 0)
        (fun captured _ node _ => { result := .BREAK, captured := captured, entry := node.entry })
        ()).delivered = [{ id := 0, entry := Scenario.entry 1 10 }]
    ∧ ((Scenario.three false).iterate (Scenario.metadata 10 0)
        (IterateFunc.logged
          (fun captured _ node _ =>
            { result := .BREAK, captured := captured, entry := node.entry }))
        ((), [])).captured.2 = [({ id := 0, entry := Scenario.entry 1 10 }, .BREAK)]
    ∧ ((Scenario.three false).iterate (Scenario.metadata 10 0)
        (fun captured _ node _ => { result := .BREAK, captured := captured, entry := node.entry })
        ()).self.queue = (Scenario.three false).queue
    ∧ ((Scenario.three false).iterate (Scenario.metadata 10 0)
        (IterateFunc.logged
          (fun captured _ node _ =>
            { result := .BREAK, captured := captured, entry := node.entry }))
        ((), [])).captured.2.map Prod.fst
      = ((Scenario.three false).iterate (Scenario.metadata 10 0)
        (fun captured _ node _ => { result := .BREAK, captured := captured, entry := node.entry })
        ()).delivered :=
  ⟨by decide, by decide, by decide,
    (LRUFileCachePriority.iterate_delivers_eligible_prefix (Scenario.three false)
      (Scenario.metadata 10 0)
      (fun captured _ node _ => { result := .BREAK, captured := captured, entry := node.entry })
      ()).2.1⟩

/-! ## The walk: the size check -/

/-- The walk goes through nodes that are not eligible without a call and without a throw. -/
theorem LRUFileCachePriority.iterate_loop_skip {σ : Type} (metadata : CacheMetadata)
    (func : IterateFunc σ) (skipped : LRUQueue) :
    ∀ (rest visited : LRUQueue) (self : LRUFileCachePriority) (captured : σ)
      (delivered : List Node),
      (∀ m ∈ skipped, metadata.eligible m = false) →
      ∃ (kept : LRUQueue) (self' : LRUFileCachePriority),
        LRUFileCachePriority.iterate_loop metadata func (skipped ++ rest) visited self captured
            delivered
          = LRUFileCachePriority.iterate_loop metadata func rest (visited ++ kept) self'
              captured delivered
        ∧ kept.Sublist skipped := by
  induction skipped with
  | nil =>
    intro rest visited self captured delivered _
    exact ⟨[], self, by simp, List.Sublist.refl _⟩
  | cons n skipped ih =>
    intro rest visited self captured delivered h
    have hn : metadata.eligible n = false := h n (List.mem_cons_self _ _)
    have hrest : ∀ m ∈ skipped, metadata.eligible m = false :=
      fun m hm => h m (List.mem_cons_of_mem _ hm)
    rcases CacheMetadata.visit_cases metadata n with hrem | ⟨h0, hev⟩ | ⟨hel, _⟩
    · obtain ⟨kept, self', he, hs⟩ := ih rest visited
        (if n.entry.size ≠ 0 then
          (self.updateSize (to_int64 (to_size_t (-(n.entry.size : Int))))).updateElementsCount
            (-1)
        else self) captured delivered hrest
      refine ⟨kept, self', ?_, List.Sublist.cons _ hs⟩
      rw [List.cons_append, LRUFileCachePriority.iterate_loop_of_removed metadata func n
        (skipped ++ rest) visited self captured delivered hrem, he]
    · obtain ⟨kept, self', he, hs⟩ := ih rest (visited ++ [n]) self captured delivered hrest
      refine ⟨n :: kept, self', ?_, List.Sublist.cons₂ _ hs⟩
      rw [List.cons_append, LRUFileCachePriority.iterate_loop_of_evicting metadata func n
        (skipped ++ rest) visited self captured delivered h0 hev, he]
      simp
    · rw [hn] at hel; cases hel

/-- C14: for every key metadata and callback, (1) whenever the walk stands at a node with
`size > 0`, not evicting, key lock acquired and segment present whose segment reports
another size than the entry, it throws a logic error and leaves the queue, the counters
and the captured state as they are; (2) so `iterate` throws when the first such eligible
node of the queue is one of these, having called the callback for nothing and unlinked
nothing from that node on; (3) at a node with size 0 the walk unlinks the node and goes
on with the next with unchanged counters, whatever its evicting flag and whatever the key
metadata reports; (4) and `iterate` returns normally whenever no node with `size > 0`
that is eligible has a segment of another size. -/
theorem LRUFileCachePriority.iterate_size_check {σ : Type} (metadata : CacheMetadata)
    (func : IterateFunc σ) :
    (∀ (n : Node) (rest visited : LRUQueue) (self : LRUFileCachePriority) (captured : σ)
        (delivered : List Node),
        metadata.eligible n = true → metadata.mismatch n = true →
        LRUFileCachePriority.iterate_loop metadata func (n :: rest) visited self captured
            delivered
          = { result := .error .LOGICAL_ERROR
              self := { self with queue := visited ++ n :: rest }
              captured := captured
              delivered := delivered })
    ∧ (∀ (self : LRUFileCachePriority) (captured : σ) (l1 l2 : LRUQueue) (n : Node),
        self.queue = l1 ++ n :: l2 → (∀ m ∈ l1, metadata.eligible m = false) →
        metadata.eligible n = true → metadata.mismatch n = true →
        (self.iterate metadata func captured).result = .error .LOGICAL_ERROR
          ∧ (self.iterate metadata func captured).delivered = []
          ∧ ∃ kept : LRUQueue, kept.Sublist l1
              ∧ (self.iterate metadata func captured).self.queue = kept ++ n :: l2)
    ∧ (∀ (n : Node) (rest visited : LRUQueue) (self : LRUFileCachePriority) (captured : σ)
        (delivered : List Node),
        n.entry.size = 0 →
        LRUFileCachePriority.iterate_loop metadata func (n :: rest) visited self captured
            delivered
          = LRUFileCachePriority.iterate_loop metadata func rest visited self captured
              delivered)
    ∧ (∀ (self : LRUFileCachePriority) (captured : σ),
        (∀ n ∈ self.queue, n.entry.size ≠ 0 → metadata.eligible n = true →
          metadata.mismatch n = false) →
        (self.iterate metadata func captured).result = .ok ()) := by
  refine ⟨?_, ?_, ?_, ?_⟩
  · intro n rest visited self captured delivered he hm
    exact LRUFileCachePriority.iterate_loop_of_mismatch metadata func n rest visited self
      captured delivered he hm
  · intro self captured l1 l2 n hq hl1 he hm
    obtain ⟨kept, self', hloop, hsub⟩ := LRUFileCachePriority.iterate_loop_skip metadata func
      l1 (n :: l2) [] self captured [] hl1
    unfold LRUFileCachePriority.iterate
    rw [hq, hloop, LRUFileCachePriority.iterate_loop_of_mismatch metadata func n l2 ([] ++ kept)
      self' captured [] he hm]
    exact ⟨rfl, rfl, kept, hsub, by simp⟩
  · intro n rest visited self captured delivered h0
    rw [LRUFileCachePriority.iterate_loop_of_removed metadata func n rest visited self captured
      delivered (Or.inl h0)]
    simp [h0]
  · intro self captured h
    obtain ⟨pre, post, kept, h1, _, _, _, _, h6⟩ :=
      LRUFileCachePriority.iterate_loop_shape metadata func self.queue [] self captured []
    rcases h6 with ⟨_, hr⟩ | ⟨hr, _⟩ | ⟨_, m, post', hp, he, hm⟩
    · exact hr
    · exact hr
    · exfalso
      have hmem : m ∈ self.queue := by
        rw [h1, hp]; simp
      have h0 : m.entry.size ≠ 0 := ((CacheMetadata.eligible_iff metadata m).mp he).1
      rw [h m hmem h0 he] at hm
      cases hm

/-! ## The walk after an invalidation -/

/-- A callback that always returns `CONTINUE` takes the walk through a run of live nodes
(`size > 0`, key lock acquired, segment present with the size of the entry): all stay
linked in their order, the counters stay, and the callback gets those not evicting. -/
theorem LRUFileCachePriority.iterate_loop_live {σ : Type} (metadata : CacheMetadata)
    (func : IterateFunc σ)
    (h_continue : ∀ captured here node segment,
      (func captured here node segment).result = .CONTINUE)
    (live : LRUQueue) :
    ∀ (rest visited : LRUQueue) (self : LRUFileCachePriority) (captured : σ)
      (delivered : List Node),
      (∀ m ∈ live, m.entry.size ≠ 0 ∧ metadata.tryLock m.entry.key = true
        ∧ ∃ segment, metadata.tryGetByOffset m.entry.key m.entry.offset = some segment
            ∧ segment.size = m.entry.size) →
      ∃ (kept : LRUQueue) (captured' : σ),
        LRUFileCachePriority.iterate_loop metadata func (live ++ rest) visited self captured
            delivered
          = LRUFileCachePriority.iterate_loop metadata func rest (visited ++ kept) self
              captured' (delivered ++ live.filter (fun m => !m.entry.evicting))
        ∧ kept.map Node.id = live.map Node.id := by
  induction live with
  | nil =>
    intro rest visited self captured delivered _
    exact ⟨[], captured, by simp, rfl⟩
  | cons n live ih =>
    intro rest visited self captured delivered h
    obtain ⟨h0, hl, segment, hseg, hmatch⟩ := h n (List.mem_cons_self _ _)
    have hrest : ∀ m ∈ live, m.entry.size ≠ 0 ∧ metadata.tryLock m.entry.key = true
        ∧ ∃ segment, metadata.tryGetByOffset m.entry.key m.entry.offset = some segment
            ∧ segment.size = m.entry.size :=
      fun m hm => h m (List.mem_cons_of_mem _ hm)
    cases hev : n.entry.evicting with
    | true =>
      obtain ⟨kept, captured', he, hk⟩ := ih rest (visited ++ [n]) self captured delivered hrest
      refine ⟨n :: kept, captured', ?_, by rw [List.map_cons, List.map_cons, hk]⟩
      rw [List.cons_append, LRUFileCachePriority.iterate_loop_of_evicting metadata func n
        (live ++ rest) visited self captured delivered h0 hev, he]
      simp [List.filter_cons, hev]
    | false =>
      have hel : metadata.eligible n = true :=
        (CacheMetadata.eligible_iff metadata n).mpr ⟨h0, hev, hl, segment, hseg⟩
      obtain ⟨kept, captured', he, hk⟩ := ih rest
        (visited ++ [{ n with entry :=
          (func captured { self with queue := visited ++ n :: (live ++ rest) } n
            segment).entry }])
        self
        (func captured { self with queue := visited ++ n :: (live ++ rest) } n segment).captured
        (delivered ++ [n]) hrest
      refine ⟨{ n with entry :=
          (func captured { self with queue := visited ++ n :: (live ++ rest) } n
            segment).entry } :: kept, captured', ?_, by rw [List.map_cons, List.map_cons, hk]⟩
      rw [List.cons_append, LRUFileCachePriority.iterate_loop_of_match metadata func n
        (live ++ rest) visited self captured delivered segment hel hseg hmatch,
        h_continue]
      simp only
      rw [he]
      simp [List.filter_cons, hev]

/-- C12: for every queue, every handle on a linked node and every key metadata under which
all other nodes are live (`size > 0`, key lock acquired, segment present with the size of
the entry), `invalidate` on the handle followed by a full `iterate` whose callback always
returns `CONTINUE` returns normally and leaves the queue with exactly one node fewer: the
other nodes in their order, the invalidated node gone without having been handed to the
callback, which got the other nodes that are not evicting; `current_size`,
`current_elements_num` and the limits are those left by the `invalidate`. -/
theorem LRUFileCachePriority.iterate_after_invalidate_reaps_one {σ : Type}
    (self : LRUFileCachePriority) (metadata : CacheMetadata) (func : IterateFunc σ)
    (captured : σ) (it : Nat) (l1 l2 : LRUQueue) (n : Node)
    (h_queue : self.queue = l1 ++ n :: l2) (h_id : n.id = it)
    (h_first : ∀ m ∈ l1, m.id ≠ it)
    (h_live : ∀ m ∈ l1 ++ l2, m.entry.size ≠ 0 ∧ metadata.tryLock m.entry.key = true
      ∧ ∃ segment, metadata.tryGetByOffset m.entry.key m.entry.offset = some segment
          ∧ segment.size = m.entry.size)
    (h_continue : ∀ captured here node segment,
      (func captured here node segment).result = .CONTINUE) :
    ((LRUIterator.invalidate { iterator := some it } self).cache_priority.iterate metadata func
        captured).result = .ok ()
    ∧ ((LRUIterator.invalidate { iterator := some it } self).cache_priority.iterate metadata
        func captured).self.queue.length + 1 = self.queue.length
    ∧ ((LRUIterator.invalidate { iterator := some it } self).cache_priority.iterate metadata
        func captured).self.queue.map Node.id = (l1 ++ l2).map Node.id
    ∧ ((LRUIterator.invalidate { iterator := some it } self).cache_priority.iterate metadata
        func captured).delivered = (l1 ++ l2).filter (fun m => !m.entry.evicting)
    ∧ ((LRUIterator.invalidate { iterator := some it } self).cache_priority.iterate metadata
        func captured).self.state
        = (LRUIterator.invalidate { iterator := some it } self).cache_priority.state
    ∧ ((LRUIterator.invalidate { iterator := some it } self).cache_priority.iterate metadata
        func captured).self.max_size = self.max_size
    ∧ ((LRUIterator.invalidate { iterator := some it } self).cache_priority.iterate metadata
        func captured).self.max_elements = self.max_elements := by
  have hd := LRUQueue.deref_append_cons l1 l2 n it h_id h_first
  have ha := LRUQueue.assign_append_cons l1 l2 n it (fun e => { e with size := 0 }) h_id h_first
  rw [← h_queue] at hd ha
  have hinv : (LRUIterator.invalidate { iterator := some it } self).cache_priority
      = { self with
          state :=
            { current_size := to_size_t ((self.state.current_size : Int)
                + to_int64 (to_size_t (-(n.entry.size : Int))))
              current_elements_num :=
                to_size_t ((self.state.current_elements_num : Int) + -1) }
          queue := l1 ++ { n with entry := { n.entry with size := 0 } } :: l2 } := by
    simp only [LRUIterator.invalidate, LRUIterator.assertValid, hd, updateSize,
      updateElementsCount, ha]
  rw [hinv]
  generalize hinv' : ({ self with
      state :=
        { current_size := to_size_t ((self.state.current_size : Int)
            + to_int64 (to_size_t (-(n.entry.size : Int))))
          current_elements_num := to_size_t ((self.state.current_elements_num : Int) + -1) }
      queue := l1 ++ { n with entry := { n.entry with size := 0 } } :: l2 }
        : LRUFileCachePriority) = inv
  have hq : inv.queue = l1 ++ { n with entry := { n.entry with size := 0 } } :: l2 := by
    rw [← hinv']
  have hms : inv.max_size = self.max_size := by rw [← hinv']
  have hme : inv.max_elements = self.max_elements := by rw [← hinv']
  have hl1 : ∀ m ∈ l1, m.entry.size ≠ 0 ∧ metadata.tryLock m.entry.key = true
      ∧ ∃ segment, metadata.tryGetByOffset m.entry.key m.entry.offset = some segment
          ∧ segment.size = m.entry.size :=
    fun m hm => h_live m (List.mem_append_left _ hm)
  have hl2 : ∀ m ∈ l2, m.entry.size ≠ 0 ∧ metadata.tryLock m.entry.key = true
      ∧ ∃ segment, metadata.tryGetByOffset m.entry.key m.entry.offset = some segment
          ∧ segment.size = m.entry.size :=
    fun m hm => h_live m (List.mem_append_right _ hm)
  obtain ⟨kept1, c1, e1, k1⟩ := LRUFileCachePriority.iterate_loop_live metadata func h_continue
    l1 ({ n with entry := { n.entry with size := 0 } } :: l2) [] inv captured [] hl1
  obtain ⟨kept2, c2, e2, k2⟩ := LRUFileCachePriority.iterate_loop_live metadata func h_continue
    l2 [] ([] ++ kept1) inv c1 ([] ++ l1.filter (fun m => !m.entry.evicting)) hl2
  have hzero := LRUFileCachePriority.iterate_loop_of_removed metadata func
    { n with entry := { n.entry with size := 0 } } l2 ([] ++ kept1) inv c1
    ([] ++ l1.filter (fun m => !m.entry.evicting)) (Or.inl rfl)
  simp only [ne_eq, not_true_eq_false, if_false] at hzero
  rw [List.append_nil] at e2
  have hrun : inv.iterate metadata func captured
      = { result := .ok ()
          self := { inv with queue := [] ++ kept1 ++ kept2 }
          captured := c2
          delivered := [] ++ l1.filter (fun m => !m.entry.evicting)
            ++ l2.filter (fun m => !m.entry.evicting) } := by
    unfold LRUFileCachePriority.iterate
    rw [hq, e1, hzero, e2]
    rfl
  rw [hrun]
  refine ⟨rfl, ?_, ?_, ?_, rfl, hms, hme⟩
  · have hlen1 : kept1.length = l1.length := by
      have := congrArg List.length k1
      simpa using this
    have hlen2 : kept2.length = l2.length := by
      have := congrArg List.length k2
      simpa using this
    rw [h_queue]
    simp only [List.nil_append, List.length_append, List.length_cons]
    omega
  · simp only [List.nil_append, List.map_append, k1, k2]
  · simp only [List.nil_append, List.filter_append]

/-- C12 (witness): scenario 5: A(30), B(30), invalidate A, then a full walk with a callback
that returns `CONTINUE`: the walk hands over B alone, and leaves B alone linked with the
counters at 30 and 1. -/
theorem LRUFileCachePriority.iterate_after_invalidate_reaps_one_witness :
    ((LRUIterator.invalidate { iterator := some 0 } (Scenario.pair30 false)).cache_priority.iterate
        (Scenario.metadata 30 0) Scenario.keep_going ()).delivered
        = [{ id := 1, entry := Scenario.entry 2 30 }]
    ∧ ((LRUIterator.invalidate { iterator := some 0 }
        (Scenario.pair30 false)).cache_priority.iterate
        (Scenario.metadata 30 0) Scenario.keep_going ()).self.queue.length = 1
    ∧ ((LRUIterator.invalidate { iterator := some 0 }
        (Scenario.pair30 false)).cache_priority.iterate
        (Scenario.metadata 30 0) Scenario.keep_going ()).self.state
        = { current_size := 30, current_elements_num := 1 } := by
  have h := LRUFileCachePriority.iterate_after_invalidate_reaps_one (Scenario.pair30 false)
    (Scenario.metadata 30 0) Scenario.keep_going () 0 []
    [{ id := 1, entry := Scenario.entry 2 30 }] { id := 0, entry := Scenario.entry 1 30 }
    (by decide) rfl (by decide) (by decide) (fun _ _ _ _ => rfl)
  exact ⟨h.2.2.2.1, by decide, by decide⟩

/-! ## The trimming overload of collectCandidatesForEviction -/

/-- What holds of the captured state before a walk and is kept by every call of the
callback holds after the walk. -/
theorem LRUFileCachePriority.iterate_loop_captured {σ : Type} (metadata : CacheMetadata)
    (func : IterateFunc σ) (P : σ → Prop)
    (h_func : ∀ captured here node segment, P captured →
      P (func captured here node segment).captured)
    (rest : LRUQueue) :
    ∀ (visited : LRUQueue) (self : LRUFileCachePriority) (captured : σ)
      (delivered : List Node),
      P captured →
      P (LRUFileCachePriority.iterate_loop metadata func rest visited self captured
        delivered).captured := by
  induction rest with
  | nil => intro visited self captured delivered h; exact h
  | cons n rest ih =>
    intro visited self captured delivered h
    rcases CacheMetadata.visit_cases metadata n with hrem | ⟨h0, hev⟩ | ⟨hel, segment, hseg⟩
    · rw [LRUFileCachePriority.iterate_loop_of_removed metadata func n rest visited self captured
        delivered hrem]
      exact ih _ _ _ _ h
    · rw [LRUFileCachePriority.iterate_loop_of_evicting metadata func n rest visited self
        captured delivered h0 hev]
      exact ih _ _ _ _ h
    · by_cases hmatch : segment.size = n.entry.size
      · rw [LRUFileCachePriority.iterate_loop_of_match metadata func n rest visited self
          captured delivered segment hel hseg hmatch]
        have hc := h_func captured { self with queue := visited ++ n :: rest } n segment h
        cases hres : (func captured { self with queue := visited ++ n :: rest } n
            segment).result with
        | BREAK => exact hc
        | CONTINUE => exact ih _ _ _ _ hc
        | REMOVE_AND_CONTINUE => exact ih _ _ _ _ hc
      · have hmm : metadata.mismatch n = true := by
          rw [CacheMetadata.mismatch_of_segment metadata n segment hseg]
          simp [hmatch]
        rw [LRUFileCachePriority.iterate_loop_of_mismatch metadata func n rest visited self
          captured delivered hel hmm]
        exact h

theorem EvictionCandidates.flatten_push (buckets : List (FileCacheKey × KeyCandidates))
    (key : FileCacheKey) (candidate : FileSegmentMetadata) :
    ((EvictionCandidates.push buckets key candidate).map
        (fun bucket => bucket.2.candidates)).flatten.length
      = (buckets.map (fun bucket => bucket.2.candidates)).flatten.length + 1 := by
  induction buckets with
  | nil => simp [EvictionCandidates.push]
  | cons bucket rest ih =>
    unfold EvictionCandidates.push
    by_cases h : bucket.1 = key
    · rw [if_pos h]
      simp only [List.map_cons, List.flatten_cons, List.length_append, List.length_singleton]
      omega
    · rw [if_neg h]
      simp only [List.map_cons, List.flatten_cons, List.length_append] at ih ⊢
      omega

/-- One more segment is held after `add`. -/
theorem EvictionCandidates.segments_add (res : EvictionCandidates)
    (candidate : FileSegmentMetadata) (key : FileCacheKey) (node : Node) :
    (res.add candidate key node).1.segments.length = res.segments.length + 1 := by
  unfold EvictionCandidates.add EvictionCandidates.segments
  exact EvictionCandidates.flatten_push res.candidates key candidate

theorem LRUQueue.ids_erase (queue : LRUQueue) (it : Nat) :
    ((LRUQueue.erase queue it).map Node.id).Sublist (queue.map Node.id) := by
  induction queue with
  | nil => exact List.Sublist.refl _
  | cons n rest ih =>
    unfold LRUQueue.erase
    by_cases h : n.id = it
    · rw [if_pos h]; exact List.sublist_cons_self _ _
    · rw [if_neg h]; exact List.Sublist.cons₂ _ ih

theorem LRUQueue.ids_assign (queue : LRUQueue) (it : Nat) (f : Entry → Entry) :
    (LRUQueue.assign queue it f).map Node.id = queue.map Node.id := by
  induction queue with
  | nil => rfl
  | cons n rest ih =>
    unfold LRUQueue.assign
    by_cases h : n.id = it
    · rw [if_pos h]; rfl
    · rw [if_neg h, List.map_cons, List.map_cons, ih]

theorem LRUQueue.ids_splice_end (queue : LRUQueue) (it : Nat) :
    ((LRUQueue.splice_end queue it).map Node.id).Perm (queue.map Node.id) := by
  induction queue with
  | nil => exact List.Perm.refl _
  | cons n rest ih =>
    by_cases h : n.id = it
    · have hs : LRUQueue.splice_end (n :: rest) it = rest ++ [{ id := it, entry := n.entry }] := by
        simp only [LRUQueue.splice_end, LRUQueue.deref, LRUQueue.erase, h, if_true]
      rw [hs, List.map_append, List.map_cons, List.map_cons, List.map_nil, h]
      exact List.perm_append_singleton _ _
    · have hs : LRUQueue.splice_end (n :: rest) it = n :: LRUQueue.splice_end rest it := by
        simp only [LRUQueue.splice_end, LRUQueue.deref, LRUQueue.erase, h, if_false]
        cases LRUQueue.deref rest it <;> rfl
      rw [hs, List.map_cons, List.map_cons]
      exact List.Perm.cons _ ih

/-- A call other than an accepted `add` links no new node: the identities after it are
identities before it, up to the order, and the next identity stays. -/
theorem Op.apply_ids (ndebug : Bool) (self : LRUFileCachePriority) (op : Op) :
    (((op.apply ndebug self).queue.map Node.id).Subperm (self.queue.map Node.id)
        ∧ (op.apply ndebug self).next_id = self.next_id)
    ∨ ((op.apply ndebug self).queue.map Node.id = self.queue.map Node.id ++ [self.next_id]
        ∧ (op.apply ndebug self).next_id = self.next_id + 1) := by
  cases op with
  | add entry =>
    rcases LRUFileCachePriority.add_cases ndebug self entry with h | ⟨_, _, _, h⟩
    · left
      simp only [Op.apply, h]
      exact ⟨List.Subperm.refl _, by trivial⟩
    · right
      simp only [Op.apply, h, List.map_append, List.map_cons, List.map_nil]
      exact ⟨by trivial, by trivial⟩
  | remove it =>
    left
    rcases it with ⟨_ | iterator⟩
    · simp only [Op.apply, LRUIterator.remove, LRUIterator.assertValid]
      exact ⟨List.Subperm.refl _, by trivial⟩
    · simp only [Op.apply, LRUIterator.remove, LRUIterator.assertValid,
        LRUFileCachePriority.remove]
      cases hd : LRUQueue.deref self.queue iterator with
      | none => exact ⟨List.Subperm.refl _, by trivial⟩
      | some entry =>
        simp only []
        constructor
        · split <;> exact (LRUQueue.ids_erase _ _).subperm
        · split <;> rfl
  | invalidate it =>
    left
    rcases it with ⟨_ | iterator⟩
    · simp only [Op.apply, LRUIterator.invalidate, LRUIterator.assertValid]
      exact ⟨List.Subperm.refl _, by trivial⟩
    · simp only [Op.apply, LRUIterator.invalidate, LRUIterator.assertValid]
      cases hd : LRUQueue.deref self.queue iterator with
      | none => exact ⟨List.Subperm.refl _, by trivial⟩
      | some entry =>
        simp only [LRUQueue.ids_assign]
        exact ⟨List.Subperm.refl _, by trivial⟩
  | incrementSize it size =>
    left
    rcases it with ⟨_ | iterator⟩
    · simp only [Op.apply, LRUIterator.incrementSize, LRUIterator.assertValid]
      exact ⟨List.Subperm.refl _, by trivial⟩
    · simp only [Op.apply, LRUIterator.incrementSize, LRUIterator.assertValid]
      cases hd : LRUQueue.deref self.queue iterator with
      | none => exact ⟨List.Subperm.refl _, by trivial⟩
      | some entry =>
        simp only [LRUQueue.ids_assign]
        exact ⟨List.Subperm.refl _, by trivial⟩
  | decrementSize it size =>
    left
    rcases it with ⟨_ | iterator⟩
    · simp only [Op.apply, LRUIterator.decrementSize, LRUIterator.assertValid]
      exact ⟨List.Subperm.refl _, by trivial⟩
    · simp only [Op.apply, LRUIterator.decrementSize, LRUIterator.assertValid]
      cases hd : LRUQueue.deref self.queue iterator with
      | none => exact ⟨List.Subperm.refl _, by trivial⟩
      | some entry =>
        simp only [LRUQueue.ids_assign]
        exact ⟨List.Subperm.refl _, by trivial⟩
  | increasePriority it =>
    left
    rcases it with ⟨_ | iterator⟩
    · simp only [Op.apply, LRUIterator.increasePriority, LRUIterator.assertValid]
      exact ⟨List.Subperm.refl _, by trivial⟩
    · simp only [Op.apply, LRUIterator.increasePriority, LRUIterator.assertValid]
      cases hd : LRUQueue.deref self.queue iterator with
      | none => exact ⟨List.Subperm.refl _, by trivial⟩
      | some entry =>
        simp only [LRUQueue.ids_assign]
        exact ⟨(LRUQueue.ids_splice_end _ _).subperm, by trivial⟩

/-- Every sequence of calls keeps the node identities distinct and below the next
identity. -/
theorem run_ids (ndebug : Bool) (ops : List Op) :
    ∀ self : LRUFileCachePriority,
      (self.queue.map Node.id).Nodup → (∀ id ∈ self.queue.map Node.id, id < self.next_id) →
      ((run ndebug self ops).queue.map Node.id).Nodup
        ∧ ∀ id ∈ (run ndebug self ops).queue.map Node.id, id < (run ndebug self ops).next_id := by
  induction ops with
  | nil => intro self h1 h2; exact ⟨h1, h2⟩
  | cons op rest ih =>
    intro self h1 h2
    unfold run
    apply ih
    · rcases Op.apply_ids ndebug self op with ⟨hsub, _⟩ | ⟨hq, _⟩
      · obtain ⟨l, hperm, hsl⟩ := hsub
        exact hperm.nodup_iff.mp (List.Nodup.sublist hsl h1)
      · rw [hq]
        refine List.Nodup.append h1 (List.nodup_singleton _) ?_
        intro id hid hid'
        rw [List.mem_singleton] at hid'
        exact absurd (h2 id hid) (by omega)
    · intro id hid
      rcases Op.apply_ids ndebug self op with ⟨hsub, hn⟩ | ⟨hq, hn⟩
      · rw [hn]; exact h2 id (hsub.subset hid)
      · rw [hn]
        rw [hq, List.mem_append, List.mem_singleton] at hid
        rcases hid with hid | hid
        · exact Nat.lt_succ_of_lt (h2 id hid)
        · omega

/-- The node identities are distinct in every state reached from a constructed queue. -/
theorem run_ids_nodup (ndebug : Bool) (max_size_ max_elements_ : Nat) (state_ : Option State)
    (ops : List Op) :
    ((run ndebug (construct max_size_ max_elements_ state_) ops).queue.map Node.id).Nodup :=
  (run_ids ndebug ops (construct max_size_ max_elements_ state_) List.nodup_nil
    (fun _ h => by cases h)).1

/-! ## Dropping eviction candidates without finalize -/

theorem LRUQueue.set_evicting_ids (queue : LRUQueue) (ids : List Nat) (flag : Bool) :
    (queue.set_evicting ids flag).map Node.id = queue.map Node.id := by
  unfold LRUQueue.set_evicting
  rw [List.map_map]
  apply List.map_congr_left
  intro n _
  simp only [Function.comp]
  split <;> rfl

/-- Setting a flag the nodes already have changes nothing. -/
theorem LRUQueue.set_evicting_of_flag (queue : LRUQueue) (ids : List Nat) (flag : Bool)
    (h : ∀ n ∈ queue, n.id ∈ ids → n.entry.evicting = flag) :
    queue.set_evicting ids flag = queue := by
  unfold LRUQueue.set_evicting
  conv_rhs => rw [← List.map_id queue]
  apply List.map_congr_left
  intro n hn
  by_cases hmem : n.id ∈ ids
  · rw [if_pos hmem]
    have hflag := h n hn hmem
    rcases n with ⟨id, entry⟩
    cases entry
    simp only at hflag
    subst hflag
    rfl
  · rw [if_neg hmem]; rfl

theorem LRUQueue.set_evicting_twice (queue : LRUQueue) (ids : List Nat) (a b : Bool) :
    (queue.set_evicting ids a).set_evicting ids b = queue.set_evicting ids b := by
  unfold LRUQueue.set_evicting
  rw [List.map_map]
  apply List.map_congr_left
  intro n _
  simp only [Function.comp]
  by_cases hmem : n.id ∈ ids
  · simp only [hmem, if_true]
  · simp only [hmem, if_false]

theorem LRUQueue.set_evicting_cons (queue : LRUQueue) (it : Nat) (ids : List Nat)
    (flag : Bool) :
    (queue.set_evicting [it] flag).set_evicting ids flag
      = queue.set_evicting (it :: ids) flag := by
  unfold LRUQueue.set_evicting
  rw [List.map_map]
  apply List.map_congr_left
  intro n _
  simp only [Function.comp]
  by_cases hit : n.id = it
  · subst hit
    by_cases hmem : n.id ∈ ids <;> simp [hmem]
  · by_cases hmem : n.id ∈ ids <;> simp [hit, hmem]

theorem LRUQueue.set_evicting_cons_of_not_mem (queue : LRUQueue) (it : Nat) (ids : List Nat)
    (flag : Bool) (h : it ∉ queue.map Node.id) :
    queue.set_evicting (it :: ids) flag = queue.set_evicting ids flag := by
  unfold LRUQueue.set_evicting
  apply List.map_congr_left
  intro n hn
  have hne : n.id ≠ it := by
    intro he
    exact h (he ▸ List.mem_map_of_mem Node.id hn)
  simp only [List.mem_cons, hne, false_or]

/-- With distinct node identities, the write through the handle of one node clears the flag
of that node alone. -/
theorem LRUQueue.assign_clear (queue : LRUQueue) (it : Nat)
    (h : (queue.map Node.id).Nodup) :
    queue.assign it (fun e => { e with evicting := false }) = queue.set_evicting [it] false := by
  induction queue with
  | nil => rfl
  | cons n rest ih =>
    rw [List.map_cons, List.nodup_cons] at h
    unfold LRUQueue.assign
    by_cases hit : n.id = it
    · rw [if_pos hit]
      have hrest : LRUQueue.set_evicting rest [it] false = rest := by
        apply LRUQueue.set_evicting_of_flag
        intro m hm hmem
        rw [List.mem_singleton] at hmem
        exact absurd (hit ▸ hmem ▸ List.mem_map_of_mem Node.id hm) h.1
      conv_rhs => rw [← List.singleton_append, LRUQueue.set_evicting, List.map_append]
      simp only [List.map_cons, List.map_nil, List.mem_singleton, hit, if_true,
        List.singleton_append]
      congr 1
      rw [LRUQueue.set_evicting] at hrest
      simp only [List.mem_singleton] at hrest
      exact hrest.symm
    · rw [if_neg hit, ih h.2]
      simp only [LRUQueue.set_evicting, List.map_cons, List.mem_singleton, hit, if_false]

/-- The queue after the destructor of never finalized candidates, the node identities being
distinct: the flags of the nodes behind the captured handles are cleared. -/
theorem EvictionCandidates.destroy_queue (new : List Nat) :
    ∀ (queue : LRUQueue), (queue.map Node.id).Nodup →
      (new.map (fun id => ({ iterator := some id } : LRUIterator))).foldl
          (fun queue handle =>
            match handle.iterator with
            | none => queue
            | some iterator => LRUQueue.assign queue iterator
                (fun e => { e with evicting := false }))
          queue
        = queue.set_evicting new false := by
  induction new with
  | nil =>
    intro queue _
    rw [LRUQueue.set_evicting_of_flag queue [] false (fun _ _ h => by cases h)]
    rfl
  | cons it new ih =>
    intro queue h
    rw [List.map_cons, List.foldl_cons]
    simp only []
    rw [LRUQueue.assign_clear queue it h, ih _ (by rw [LRUQueue.set_evicting_ids]; exact h),
      LRUQueue.set_evicting_cons]

/-- The shape of every eviction walk from a cursor, the node identities being distinct: of
the remaining nodes the walk keeps `kept`, which it went through, and `suffix`, which it
left as it is; it sets the evicting flag of the nodes of `kept` whose identities `new` it
registers, and captures the handles of these alone. Every node of `kept` has `size > 0`
and is evicting or eligible with a segment of its size, and the registered ones are
eligible. -/
theorem LRUFileCachePriority.eviction_walk_shape (metadata : CacheMetadata)
    (stop_condition : LRUFileCachePriority → EvictionCandidates → FileCacheReserveStat → Bool)
    (rest : LRUQueue) :
    ∀ (visited : LRUQueue) (self : LRUFileCachePriority) (captured : EvictionWalk)
      (delivered : List Node),
      (rest.map Node.id).Nodup →
      ∃ (kept suffix : LRUQueue) (new : List Nat),
        (kept ++ suffix).Sublist rest
        ∧ (LRUFileCachePriority.iterate_loop metadata
            (LRUFileCachePriority.iterateForEviction_func stop_condition) rest visited self
            captured delivered).self.queue
          = visited ++ (LRUQueue.set_evicting kept new true ++ suffix)
        ∧ (LRUFileCachePriority.iterate_loop metadata
            (LRUFileCachePriority.iterateForEviction_func stop_condition) rest visited self
            captured delivered).captured.res.queue_entries_to_invalidate
          = captured.res.queue_entries_to_invalidate
              ++ new.map (fun id => ({ iterator := some id } : LRUIterator))
        ∧ (LRUFileCachePriority.iterate_loop metadata
            (LRUFileCachePriority.iterateForEviction_func stop_condition) rest visited self
            captured delivered).self.max_size = self.max_size
        ∧ (∀ n ∈ kept, n.entry.size ≠ 0 ∧ (n.entry.evicting = true
            ∨ (metadata.eligible n = true ∧ metadata.mismatch n = false)))
        ∧ (∀ n ∈ kept, n.id ∈ new → metadata.eligible n = true)
        ∧ (∀ id ∈ new, ∃ n ∈ kept, n.id = id) := by
  induction rest with
  | nil =>
    intro visited self captured delivered _
    refine ⟨[], [], [], List.Sublist.refl _, ?_, ?_, rfl, ?_, ?_, ?_⟩
    · simp [LRUFileCachePriority.iterate_loop, LRUQueue.set_evicting]
    · simp [LRUFileCachePriority.iterate_loop]
    · intro n hn; cases hn
    · intro n hn; cases hn
    · intro id hid; cases hid
  | cons n rest ih =>
    intro visited self captured delivered hnd
    rw [List.map_cons, List.nodup_cons] at hnd
    obtain ⟨hn, hrest⟩ := hnd
    have hfresh : ∀ (kept suffix : LRUQueue), (kept ++ suffix).Sublist rest →
        n.id ∉ kept.map Node.id := by
      intro kept suffix hsub hmem
      obtain ⟨m, hm, hid⟩ := List.mem_map.mp hmem
      exact hn (hid ▸ List.mem_map_of_mem Node.id
        (hsub.subset (List.mem_append_left suffix hm)))
    have hnot : ∀ (kept suffix : LRUQueue) (new : List Nat), (kept ++ suffix).Sublist rest →
        (∀ id ∈ new, ∃ m ∈ kept, m.id = id) → n.id ∉ new := by
      intro kept suffix new hsub hi hmem
      obtain ⟨m, hm, hid⟩ := hi _ hmem
      exact hfresh kept suffix hsub (hid ▸ List.mem_map_of_mem Node.id hm)
    rcases CacheMetadata.visit_cases metadata n with hrem | ⟨h0, hev⟩ | ⟨hel, segment, hseg⟩
    · rw [LRUFileCachePriority.iterate_loop_of_removed metadata _ n rest visited self captured
        delivered hrem]
      obtain ⟨kept, suffix, new, hsub, hq, hh, hm, hk, he, hi⟩ := ih visited
        (if n.entry.size ≠ 0 then
          (self.updateSize (to_int64 (to_size_t (-(n.entry.size : Int))))).updateElementsCount
            (-1)
        else self) captured delivered hrest
      refine ⟨kept, suffix, new, hsub.cons _, hq, hh, ?_, hk, he, hi⟩
      rw [hm]
      split <;> rfl
    · rw [LRUFileCachePriority.iterate_loop_of_evicting metadata _ n rest visited self
        captured delivered h0 hev]
      obtain ⟨kept, suffix, new, hsub, hq, hh, hm, hk, he, hi⟩ := ih (visited ++ [n]) self
        captured delivered hrest
      have hnew := hnot kept suffix new hsub hi
      refine ⟨n :: kept, suffix, new, hsub.cons₂ _, ?_, hh, hm, ?_, ?_, ?_⟩
      · rw [hq]
        simp [LRUQueue.set_evicting, hnew]
      · intro m hmem
        rcases List.mem_cons.mp hmem with rfl | hmem
        · exact ⟨h0, Or.inl hev⟩
        · exact hk m hmem
      · intro m hmem hid
        rcases List.mem_cons.mp hmem with rfl | hmem
        · exact absurd hid hnew
        · exact he m hmem hid
      · intro id hid
        obtain ⟨m, hmem, hmid⟩ := hi id hid
        exact ⟨m, List.mem_cons_of_mem _ hmem, hmid⟩
    · by_cases hmatch : segment.size = n.entry.size
      · have hmm : metadata.mismatch n = false := by
          rw [CacheMetadata.mismatch_of_segment metadata n segment hseg]
          simp [hmatch]
        have h0 : n.entry.size ≠ 0 := ((CacheMetadata.eligible_iff metadata n).mp hel).1
        rw [LRUFileCachePriority.iterate_loop_of_match metadata _ n rest visited self
          captured delivered segment hel hseg hmatch]
        by_cases hstop : stop_condition { self with queue := visited ++ n :: rest }
            captured.res captured.stat = true
        · have hf : LRUFileCachePriority.iterateForEviction_func stop_condition captured
              { self with queue := visited ++ n :: rest } n segment
              = { result := .BREAK, captured := captured, entry := n.entry } := by
            unfold LRUFileCachePriority.iterateForEviction_func
            rw [if_pos hstop]
          rw [hf]
          refine ⟨[], n :: rest, [], List.Sublist.refl _, ?_, ?_, rfl, ?_, ?_, ?_⟩
          · simp [LRUQueue.set_evicting]
          · simp
          · intro m hmem; cases hmem
          · intro m hmem; cases hmem
          · intro id hid; cases hid
        · by_cases hrel : segment.releasable = true
          · have hf : LRUFileCachePriority.iterateForEviction_func stop_condition captured
                { self with queue := visited ++ n :: rest } n segment
                = { result := .CONTINUE
                    captured :=
                      { res := (captured.res.add segment n.entry.key n).1
                        stat := captured.stat.update segment.size true }
                    entry := { n.entry with evicting := true } } := by
              unfold LRUFileCachePriority.iterateForEviction_func
              rw [if_neg hstop]
              unfold LRUFileCachePriority.iterate_func
              rw [if_pos hrel]
              rfl
            rw [hf]
            obtain ⟨kept, suffix, new, hsub, hq, hh, hm, hk, he, hi⟩ := ih
              (visited ++ [{ n with entry := { n.entry with evicting := true } }]) self
              { res := (captured.res.add segment n.entry.key n).1
                stat := captured.stat.update segment.size true }
              (delivered ++ [n]) hrest
            have hfr := hfresh kept suffix hsub
            refine ⟨n :: kept, suffix, n.id :: new, hsub.cons₂ _, ?_, ?_, hm, ?_, ?_, ?_⟩
            · simp only []
              rw [hq, ← LRUQueue.set_evicting_cons_of_not_mem kept n.id new true hfr]
              simp [LRUQueue.set_evicting]
            · simp only []
              rw [hh]
              simp [EvictionCandidates.add]
            · intro m hmem
              rcases List.mem_cons.mp hmem with rfl | hmem
              · exact ⟨h0, Or.inr ⟨hel, hmm⟩⟩
              · exact hk m hmem
            · intro m hmem hid
              rcases List.mem_cons.mp hmem with rfl | hmem
              · exact hel
              · rcases List.mem_cons.mp hid with hid | hid
                · exact absurd (hid ▸ List.mem_map_of_mem Node.id hmem) hfr
                · exact he m hmem hid
            · intro id hid
              rcases List.mem_cons.mp hid with rfl | hid
              · exact ⟨n, List.mem_cons_self _ _, rfl⟩
              · obtain ⟨m, hmem, hmid⟩ := hi id hid
                exact ⟨m, List.mem_cons_of_mem _ hmem, hmid⟩
          · have hf : LRUFileCachePriority.iterateForEviction_func stop_condition captured
                { self with queue := visited ++ n :: rest } n segment
                = { result := .CONTINUE
                    captured :=
                      { captured with stat := captured.stat.update segment.size false }
                    entry := n.entry } := by
              unfold LRUFileCachePriority.iterateForEviction_func
              rw [if_neg hstop]
              unfold LRUFileCachePriority.iterate_func
              rw [if_neg hrel]
            rw [hf]
            obtain ⟨kept, suffix, new, hsub, hq, hh, hm, hk, he, hi⟩ := ih
              (visited ++ [n]) self
              { captured with stat := captured.stat.update segment.size false }
              (delivered ++ [n]) hrest
            have hnew := hnot kept suffix new hsub hi
            refine ⟨n :: kept, suffix, new, hsub.cons₂ _, ?_, hh, hm, ?_, ?_, ?_⟩
            · simp only []
              rw [hq]
              simp [LRUQueue.set_evicting, hnew]
            · intro m hmem
              rcases List.mem_cons.mp hmem with rfl | hmem
              · exact ⟨h0, Or.inr ⟨hel, hmm⟩⟩
              · exact hk m hmem
            · intro m hmem hid
              rcases List.mem_cons.mp hmem with rfl | hmem
              · exact hel
              · exact he m hmem hid
            · intro id hid
              obtain ⟨m, hmem, hmid⟩ := hi id hid
              exact ⟨m, List.mem_cons_of_mem _ hmem, hmid⟩
      · have hmm : metadata.mismatch n = true := by
          rw [CacheMetadata.mismatch_of_segment metadata n segment hseg]
          simp [hmatch]
        rw [LRUFileCachePriority.iterate_loop_of_mismatch metadata _ n rest visited self
          captured delivered hel hmm]
        refine ⟨[], n :: rest, [], List.Sublist.refl _, ?_, ?_, rfl, ?_, ?_, ?_⟩
        · simp [LRUQueue.set_evicting]
        · simp
        · intro m hmem; cases hmem
        · intro m hmem; cases hmem
        · intro id hid; cases hid

/-- A walk whose callback never returns `BREAK` goes through nodes with `size > 0` that are
evicting or eligible with a segment of their size, and calls the callback for the eligible
ones. -/
theorem LRUFileCachePriority.iterate_loop_through {σ : Type} (metadata : CacheMetadata)
    (func : IterateFunc σ)
    (h_func : ∀ captured here node segment, (func captured here node segment).result ≠ .BREAK)
    (through : LRUQueue) :
    ∀ (rest visited : LRUQueue) (self : LRUFileCachePriority) (captured : σ)
      (delivered : List Node),
      (∀ n ∈ through, n.entry.size ≠ 0 ∧ (n.entry.evicting = true
          ∨ (metadata.eligible n = true ∧ metadata.mismatch n = false))) →
      ∃ (visited' : LRUQueue) (self' : LRUFileCachePriority) (captured' : σ),
        LRUFileCachePriority.iterate_loop metadata func (through ++ rest) visited self captured
            delivered
          = LRUFileCachePriority.iterate_loop metadata func rest visited' self' captured'
              (delivered ++ through.filter metadata.eligible) := by
  induction through with
  | nil =>
    intro rest visited self captured delivered _
    exact ⟨visited, self, captured, by simp⟩
  | cons n through ih =>
    intro rest visited self captured delivered h
    have hn := h n (List.mem_cons_self _ _)
    have hrest : ∀ m ∈ through, m.entry.size ≠ 0 ∧ (m.entry.evicting = true
        ∨ (metadata.eligible m = true ∧ metadata.mismatch m = false)) :=
      fun m hm => h m (List.mem_cons_of_mem _ hm)
    rw [List.cons_append]
    rcases hn with ⟨h0, hev | ⟨hel, hmm⟩⟩
    · have hne := CacheMetadata.not_eligible_of_evicting metadata n hev
      rw [LRUFileCachePriority.iterate_loop_of_evicting metadata func n (through ++ rest)
        visited self captured delivered h0 hev, List.filter_cons_of_neg (by simp [hne])]
      exact ih rest _ _ _ _ hrest
    · obtain ⟨_, _, _, segment, hseg⟩ := (CacheMetadata.eligible_iff metadata n).mp hel
      have hmatch : segment.size = n.entry.size := by
        rw [CacheMetadata.mismatch_of_segment metadata n segment hseg] at hmm
        simpa using hmm
      rw [LRUFileCachePriority.iterate_loop_of_match metadata func n (through ++ rest) visited
        self captured delivered segment hel hseg hmatch, List.filter_cons_of_pos hel]
      have hd : delivered ++ n :: through.filter metadata.eligible
          = (delivered ++ [n]) ++ through.filter metadata.eligible := by simp
      rw [hd]
      cases hres : (func captured { self with queue := visited ++ n :: (through ++ rest) } n
          segment).result with
      | BREAK => exact absurd hres (h_func _ _ _ _)
      | CONTINUE => exact ih rest _ _ _ _ hrest
      | REMOVE_AND_CONTINUE => exact ih rest _ _ _ _ hrest

/-- What the destructor undoes of an eviction walk that started from empty candidates, the
node identities being distinct: the walk kept `kept ++ suffix` of the queue, marked the
nodes of `kept` with identities `new` and captured their handles; the destructor leaves
`kept ++ suffix`. -/
theorem EvictionCandidates.destroy_after_walk (self : LRUFileCachePriority)
    (metadata : CacheMetadata) (stat : FileCacheReserveStat)
    (stop_condition : LRUFileCachePriority → EvictionCandidates → FileCacheReserveStat → Bool)
    (h_ids : (self.queue.map Node.id).Nodup) :
    ∃ (kept suffix : LRUQueue) (new : List Nat),
      (kept ++ suffix).Sublist self.queue
      ∧ (self.iterateForEviction metadata EvictionCandidates.empty stat
          stop_condition).self.queue = LRUQueue.set_evicting kept new true ++ suffix
      ∧ (self.iterateForEviction metadata EvictionCandidates.empty stat
          stop_condition).captured.res.queue_entries_to_invalidate
        = new.map (fun id => ({ iterator := some id } : LRUIterator))
      ∧ ((self.iterateForEviction metadata EvictionCandidates.empty stat
          stop_condition).captured.res.destroy
            (self.iterateForEviction metadata EvictionCandidates.empty stat
              stop_condition).self).queue = kept ++ suffix
      ∧ (∀ n ∈ kept, n.entry.size ≠ 0 ∧ (n.entry.evicting = true
          ∨ (metadata.eligible n = true ∧ metadata.mismatch n = false)))
      ∧ (∀ n ∈ kept, n.id ∈ new → metadata.eligible n = true)
      ∧ (∀ id ∈ new, ∃ n ∈ kept, n.id = id) := by
  obtain ⟨kept, suffix, new, hsub, hq, hh, _, hk, he, hi⟩ :=
    LRUFileCachePriority.eviction_walk_shape metadata stop_condition self.queue [] self
      { res := EvictionCandidates.empty, stat := stat } [] h_ids
  rw [List.nil_append] at hq
  have hh' : (LRUFileCachePriority.iterate_loop metadata
      (LRUFileCachePriority.iterateForEviction_func stop_condition) self.queue [] self
      { res := EvictionCandidates.empty, stat := stat } []).captured.res.queue_entries_to_invalidate
      = new.map (fun id => ({ iterator := some id } : LRUIterator)) := by
    rw [hh]; rfl
  have hnd : ((kept ++ suffix).map Node.id).Nodup := List.Nodup.sublist (hsub.map Node.id) h_ids
  have hnd' : ((LRUQueue.set_evicting kept new true ++ suffix).map Node.id).Nodup := by
    rw [List.map_append, LRUQueue.set_evicting_ids, ← List.map_append]
    exact hnd
  have hkept : LRUQueue.set_evicting (LRUQueue.set_evicting kept new true) new false = kept := by
    rw [LRUQueue.set_evicting_twice]
    apply LRUQueue.set_evicting_of_flag
    intro n hn hid
    exact ((CacheMetadata.eligible_iff metadata n).mp (he n hn hid)).2.1
  have hsuffix : LRUQueue.set_evicting suffix new false = suffix := by
    apply LRUQueue.set_evicting_of_flag
    intro n hn hid
    obtain ⟨m, hm, hmid⟩ := hi _ hid
    rw [List.map_append] at hnd
    have hdis := (List.nodup_append.mp hnd).2.2
    exact absurd (List.mem_map_of_mem Node.id hn)
      (hdis (hmid ▸ List.mem_map_of_mem Node.id hm))
  refine ⟨kept, suffix, new, hsub, hq, hh', ?_, hk, he, hi⟩
  unfold LRUFileCachePriority.iterateForEviction LRUFileCachePriority.iterate
    EvictionCandidates.destroy
  simp only []
  rw [hh', hq, EvictionCandidates.destroy_queue new _ hnd']
  have happ : LRUQueue.set_evicting (LRUQueue.set_evicting kept new true ++ suffix) new false
      = LRUQueue.set_evicting (LRUQueue.set_evicting kept new true) new false
        ++ LRUQueue.set_evicting suffix new false := by
    unfold LRUQueue.set_evicting
    rw [List.map_append]
  rw [happ, hkept, hsuffix]

/-- C20: for every queue with distinct node identities, key metadata, size, `stat` and
flags, let candidates that start empty be populated by the reservation overload of
`collectCandidatesForEviction` and then destroyed without finalize. The queue after it is
a sublist of the queue before the collection and the counters are those the collection
left. Every entry the collection touched (its handle is in `queue_entries_to_invalidate`)
was linked before the collection, was marked evicting by it, and is linked after the drop
exactly as it was before the collection, so with its size, and with `evicting = false`;
and a later `iterate` whose callback never returns `BREAK` calls the callback for it. -/
theorem EvictionCandidates.destroy_restores_collected {σ : Type}
    (self : LRUFileCachePriority) (metadata : CacheMetadata) (size : Nat)
    (stat : FileCacheReserveStat) (reached_size_limit reached_elements_limit : Bool)
    (func : IterateFunc σ) (captured : σ)
    (h_ids : (self.queue.map Node.id).Nodup)
    (h_func : ∀ captured here node segment, (func captured here node segment).result ≠ .BREAK) :
    (((self.collectCandidatesForEviction metadata size stat EvictionCandidates.empty
          reached_size_limit reached_elements_limit).res.destroy
        (self.collectCandidatesForEviction metadata size stat EvictionCandidates.empty
          reached_size_limit reached_elements_limit).self).queue.Sublist self.queue)
    ∧ ((self.collectCandidatesForEviction metadata size stat EvictionCandidates.empty
          reached_size_limit reached_elements_limit).res.destroy
        (self.collectCandidatesForEviction metadata size stat EvictionCandidates.empty
          reached_size_limit reached_elements_limit).self).state
      = (self.collectCandidatesForEviction metadata size stat EvictionCandidates.empty
          reached_size_limit reached_elements_limit).self.state
    ∧ ∀ handle ∈ (self.collectCandidatesForEviction metadata size stat EvictionCandidates.empty
          reached_size_limit reached_elements_limit).res.queue_entries_to_invalidate,
        ∃ node : Node, handle.iterator = some node.id
          ∧ node ∈ self.queue
          ∧ ({ node with entry := { node.entry with evicting := true } } : Node)
              ∈ (self.collectCandidatesForEviction metadata size stat EvictionCandidates.empty
                  reached_size_limit reached_elements_limit).self.queue
          ∧ node ∈ ((self.collectCandidatesForEviction metadata size stat
                EvictionCandidates.empty reached_size_limit reached_elements_limit).res.destroy
              (self.collectCandidatesForEviction metadata size stat EvictionCandidates.empty
                reached_size_limit reached_elements_limit).self).queue
          ∧ node.entry.evicting = false
          ∧ node ∈ (((self.collectCandidatesForEviction metadata size stat
                EvictionCandidates.empty reached_size_limit reached_elements_limit).res.destroy
              (self.collectCandidatesForEviction metadata size stat EvictionCandidates.empty
                reached_size_limit reached_elements_limit).self).iterate metadata func
              captured).delivered := by
  by_cases hfit : (self.canFit size 1 0 0 (some reached_size_limit)
      (some reached_elements_limit)).fits = true
  · have hres : (self.collectCandidatesForEviction metadata size stat EvictionCandidates.empty
        reached_size_limit reached_elements_limit).res = EvictionCandidates.empty := by
      unfold LRUFileCachePriority.collectCandidatesForEviction
      simp only [hfit, if_true]
    have hself : (self.collectCandidatesForEviction metadata size stat EvictionCandidates.empty
        reached_size_limit reached_elements_limit).self = self := by
      unfold LRUFileCachePriority.collectCandidatesForEviction
      simp only [hfit, if_true]
    rw [hres, hself]
    refine ⟨List.Sublist.refl _, rfl, ?_⟩
    intro handle hmem
    cases hmem
  · have hres : (self.collectCandidatesForEviction metadata size stat EvictionCandidates.empty
        reached_size_limit reached_elements_limit).res
        = (self.iterateForEviction metadata EvictionCandidates.empty stat
            (LRUFileCachePriority.can_fit size)).captured.res := by
      unfold LRUFileCachePriority.collectCandidatesForEviction
      simp only [hfit, Bool.false_eq_true, if_false]
    have hself : (self.collectCandidatesForEviction metadata size stat EvictionCandidates.empty
        reached_size_limit reached_elements_limit).self
        = (self.iterateForEviction metadata EvictionCandidates.empty stat
            (LRUFileCachePriority.can_fit size)).self := by
      unfold LRUFileCachePriority.collectCandidatesForEviction
      simp only [hfit, Bool.false_eq_true, if_false]
    rw [hres, hself]
    obtain ⟨kept, suffix, new, hsub, hq, hh, hd, hk, he, hi⟩ :=
      EvictionCandidates.destroy_after_walk self metadata stat
        (LRUFileCachePriority.can_fit size) h_ids
    refine ⟨hd ▸ hsub, rfl, ?_⟩
    intro handle hmem
    rw [hh] at hmem
    obtain ⟨id, hid, hhandle⟩ := List.mem_map.mp hmem
    obtain ⟨node, hnode, hnid⟩ := hi id hid
    subst hnid
    have hel := he node hnode hid
    refine ⟨node, by rw [← hhandle], hsub.subset (List.mem_append_left _ hnode), ?_, ?_,
      ((CacheMetadata.eligible_iff metadata node).mp hel).2.1, ?_⟩
    · rw [hq]
      apply List.mem_append_left
      unfold LRUQueue.set_evicting
      refine List.mem_map.mpr ⟨node, hnode, ?_⟩
      rw [if_pos hid]
    · rw [hd]
      exact List.mem_append_left _ hnode
    · unfold LRUFileCachePriority.iterate
      rw [hd]
      obtain ⟨visited', self', captured', hthrough⟩ :=
        LRUFileCachePriority.iterate_loop_through metadata func h_func kept suffix []
          ((self.iterateForEviction metadata EvictionCandidates.empty stat
              (LRUFileCachePriority.can_fit size)).captured.res.destroy
            (self.iterateForEviction metadata EvictionCandidates.empty stat
              (LRUFileCachePriority.can_fit size)).self) captured [] hk
      rw [hthrough]
      obtain ⟨pre, post, kept', _, hdel, _⟩ :=
        LRUFileCachePriority.iterate_loop_shape metadata func suffix visited' self' captured'
          ([] ++ kept.filter metadata.eligible)
      rw [hdel]
      apply List.mem_append_left
      rw [List.nil_append]
      exact List.mem_filter.mpr ⟨hnode, hel⟩

/-- C20 (instance): scenario 4. `max_size = 50`, A(50), a reservation of 50 bytes with A
releasable: the collection registers A and marks it evicting; after the drop A is linked
with size 50 and not evicting, and the walk that follows calls the callback for A. -/
theorem EvictionCandidates.destroy_restores_collected_witness :
    ((run false (LRUFileCachePriority.construct 50 0 none)
        [.add (Scenario.entry 1 50)]).collectCandidatesForEviction (Scenario.metadata 50 0) 50
        Scenario.fresh_stat EvictionCandidates.empty false false).res.queue_entries_to_invalidate
      = [{ iterator := some 0 }]
    ∧ ((run false (LRUFileCachePriority.construct 50 0 none)
        [.add (Scenario.entry 1 50)]).collectCandidatesForEviction (Scenario.metadata 50 0) 50
        Scenario.fresh_stat EvictionCandidates.empty false false).self.queue
      = [{ id := 0, entry := { Scenario.entry 1 50 with evicting := true } }]
    ∧ (((run false (LRUFileCachePriority.construct 50 0 none)
        [.add (Scenario.entry 1 50)]).collectCandidatesForEviction (Scenario.metadata 50 0) 50
        Scenario.fresh_stat EvictionCandidates.empty false false).res.destroy
        ((run false (LRUFileCachePriority.construct 50 0 none)
          [.add (Scenario.entry 1 50)]).collectCandidatesForEviction (Scenario.metadata 50 0) 50
          Scenario.fresh_stat EvictionCandidates.empty false false).self).queue
      = [{ id := 0, entry := Scenario.entry 1 50 }]
    ∧ ∃ node : Node, some 0 = some node.id
        ∧ node ∈ (run false (LRUFileCachePriority.construct 50 0 none)
            [.add (Scenario.entry 1 50)]).queue
        ∧ node.entry.evicting = false
        ∧ node ∈ ((((run false (LRUFileCachePriority.construct 50 0 none)
              [.add (Scenario.entry 1 50)]).collectCandidatesForEviction
                (Scenario.metadata 50 0) 50 Scenario.fresh_stat EvictionCandidates.empty false
                false).res.destroy
            ((run false (LRUFileCachePriority.construct 50 0 none)
              [.add (Scenario.entry 1 50)]).collectCandidatesForEviction
                (Scenario.metadata 50 0) 50 Scenario.fresh_stat EvictionCandidates.empty false
                false).self).iterate (Scenario.metadata 50 0) Scenario.keep_going
            ()).delivered :=
  have h := (EvictionCandidates.destroy_restores_collected
      (run false (LRUFileCachePriority.construct 50 0 none) [.add (Scenario.entry 1 50)])
      (Scenario.metadata 50 0) 50 Scenario.fresh_stat false false Scenario.keep_going ()
      (by decide) (fun _ _ _ _ h => by cases h)).2.2 { iterator := some 0 } (by decide)
  ⟨by decide, by decide, by decide,
    h.elim (fun node hn => ⟨node, hn.1, hn.2.1, hn.2.2.2.2.1, hn.2.2.2.2.2⟩)⟩

/-! ## Holding and releasing space -/

/-- C23: for every state with counters in `size_t` range and every `(size, elements)` for
which `holdImpl` returns normally, `holdImpl(size, elements)` followed by
`releaseImpl(size, elements)` leaves the object as it was: both counters have their prior
values, and the queue and the limits are untouched. -/
theorem LRUFileCachePriority.holdImpl_then_releaseImpl (self : LRUFileCachePriority)
    (size elements : Nat)
    (h_size : self.state.current_size < SIZE_T_RANGE)
    (h_elements : self.state.current_elements_num < SIZE_T_RANGE)
    (h_hold : (self.holdImpl size elements).result = .ok ()) :
    (self.holdImpl size elements).self.releaseImpl size elements = self := by
  unfold LRUFileCachePriority.holdImpl at h_hold ⊢
  by_cases hfit : self.canFit_short size elements = true
  · simp only [hfit, Bool.not_true, Bool.false_eq_true, if_false,
      LRUFileCachePriority.releaseImpl]
    have h1 := to_size_t_cast ((self.state.current_size : Int) + size)
    have h2 := to_size_t_cast ((self.state.current_elements_num : Int) + elements)
    have h3 := to_size_t_cast
      (((to_size_t ((self.state.current_size : Int) + size) : Nat) : Int) - size)
    have h4 := to_size_t_cast
      (((to_size_t ((self.state.current_elements_num : Int) + elements) : Nat) : Int) - elements)
    unfold SIZE_T_RANGE at h_size h_elements
    have e1 : to_size_t (((to_size_t ((self.state.current_size : Int) + size) : Nat) : Int) - size)
        = self.state.current_size := by omega
    have e2 : to_size_t
        (((to_size_t ((self.state.current_elements_num : Int) + elements) : Nat) : Int) - elements)
        = self.state.current_elements_num := by omega
    rw [e1, e2]
  · simp only [hfit, Bool.not_false, if_true] at h_hold
    cases h_hold

/-- C23 (witness): scenario 1, holding and releasing 20 bytes and 1 element. -/
theorem LRUFileCachePriority.holdImpl_then_releaseImpl_witness :
    ((Scenario.basic false).holdImpl 20 1).self.state
      = { current_size := 100, current_elements_num := 3 }
    ∧ ((Scenario.basic false).holdImpl 20 1).self.releaseImpl 20 1 = Scenario.basic false :=
  ⟨by decide,
   LRUFileCachePriority.holdImpl_then_releaseImpl (Scenario.basic false) 20 1 (by decide)
    (by decide) (by decide)⟩

/-- C24: `holdImpl(size, elements)` throws a logic error exactly when
`canFit(size, elements)` is false, and then leaves the object as it is; otherwise it
returns normally, adds `size` to `current_size` and `elements` to `current_elements_num`
(in `size_t` arithmetic, so exactly whenever the sums are below `2 ^ 64`) and leaves the
queue and the limits as they are. `releaseImpl` leaves the queue and the limits as they
are too. -/
theorem LRUFileCachePriority.holdImpl_iff_canFit (self : LRUFileCachePriority)
    (size elements : Nat) :
    ((self.holdImpl size elements).result = .error .LOGICAL_ERROR
        ↔ self.canFit_short size elements = false)
    ∧ (self.canFit_short size elements = false → (self.holdImpl size elements).self = self)
    ∧ (self.canFit_short size elements = true →
        (self.holdImpl size elements).result = .ok ()
        ∧ (self.holdImpl size elements).self.state.current_size
            = (self.state.current_size + size) % SIZE_T_RANGE
        ∧ (self.holdImpl size elements).self.state.current_elements_num
            = (self.state.current_elements_num + elements) % SIZE_T_RANGE
        ∧ (self.state.current_size + size < SIZE_T_RANGE →
            (self.holdImpl size elements).self.state.current_size
              = self.state.current_size + size)
        ∧ (self.state.current_elements_num + elements < SIZE_T_RANGE →
            (self.holdImpl size elements).self.state.current_elements_num
              = self.state.current_elements_num + elements))
    ∧ (self.holdImpl size elements).self.queue = self.queue
    ∧ (self.holdImpl size elements).self.max_size = self.max_size
    ∧ (self.holdImpl size elements).self.max_elements = self.max_elements
    ∧ (self.releaseImpl size elements).queue = self.queue
    ∧ (self.releaseImpl size elements).max_size = self.max_size
    ∧ (self.releaseImpl size elements).max_elements = self.max_elements := by
  have h1 := to_size_t_cast ((self.state.current_size : Int) + size)
  have h2 := to_size_t_cast ((self.state.current_elements_num : Int) + elements)
  unfold LRUFileCachePriority.holdImpl
  cases hfit : self.canFit_short size elements with
  | false =>
    simp [LRUFileCachePriority.releaseImpl]
  | true =>
    refine ⟨by simp, by simp, fun _ => ⟨rfl, ?_, ?_, ?_, ?_⟩, rfl, rfl, rfl, rfl, rfl, rfl⟩
    · show to_size_t ((self.state.current_size : Int) + size) = _
      unfold SIZE_T_RANGE; omega
    · show to_size_t ((self.state.current_elements_num : Int) + elements) = _
      unfold SIZE_T_RANGE; omega
    · show _ → to_size_t ((self.state.current_size : Int) + size) = _
      unfold SIZE_T_RANGE; omega
    · show _ → to_size_t ((self.state.current_elements_num : Int) + elements) = _
      unfold SIZE_T_RANGE; omega

/-! ## A handle after remove -/

/-- C25: let `remove` be called on a handle whose node is linked, or that is invalid
already (in both cases the call dereferences no unlinked node). The handle then holds the
position `LRUQueue::iterator{}`, and in whatever state the queue is later, each of
`remove`, `invalidate`, `incrementSize`, `decrementSize` and `increasePriority` on it
throws the logic error of `assertValid` and leaves the handle, the queue, both counters
and the limits as they are. On a handle whose node is linked the `remove` returns
normally. -/
theorem LRUIterator.remove_invalidates_handle (it : LRUIterator)
    (self : LRUFileCachePriority)
    (h_remove : (it.remove self).result ≠ .error .DANGLING_ITERATOR) :
    (it.remove self).handle = { iterator := none }
    ∧ (∀ (iterator : Nat) (entry : Entry), it.iterator = some iterator →
        self.queue.deref iterator = some entry → (it.remove self).result = .ok ())
    ∧ ∀ (later : LRUFileCachePriority) (size : Nat),
        (it.remove self).handle.remove later
          = { result := .error .LOGICAL_ERROR, handle := { iterator := none }
              cache_priority := later }
        ∧ (it.remove self).handle.invalidate later
          = { result := .error .LOGICAL_ERROR, handle := { iterator := none }
              cache_priority := later }
        ∧ (it.remove self).handle.incrementSize later size
          = { result := .error .LOGICAL_ERROR, handle := { iterator := none }
              cache_priority := later }
        ∧ (it.remove self).handle.decrementSize later size
          = { result := .error .LOGICAL_ERROR, handle := { iterator := none }
              cache_priority := later }
        ∧ (it.remove self).handle.increasePriority later
          = { result := .error .LOGICAL_ERROR, handle := { iterator := none }
              cache_priority := later } := by
  have hhandle : (it.remove self).handle = { iterator := none } := by
    rcases it with ⟨_ | iterator⟩
    · rfl
    · simp only [LRUIterator.remove, LRUIterator.assertValid, LRUFileCachePriority.remove]
        at h_remove ⊢
      cases hd : LRUQueue.deref self.queue iterator with
      | none => simp only [hd] at h_remove; exact absurd rfl h_remove
      | some entry => rfl
  refine ⟨hhandle, ?_, ?_⟩
  · intro iterator entry hit hd
    rcases it with ⟨_ | iterator'⟩
    · cases hit
    · injection hit with hit
      subst hit
      simp only [LRUIterator.remove, LRUIterator.assertValid, LRUFileCachePriority.remove, hd]
  · intro later size
    rw [hhandle]
    exact ⟨rfl, rfl, rfl, rfl, rfl⟩

/-- C25 (witness): scenario 2, the handle of B after its `remove`. -/
theorem LRUIterator.remove_invalidates_handle_witness :
    (LRUIterator.remove { iterator := some 1 } (Scenario.three false)).result = .ok ()
    ∧ (LRUIterator.remove { iterator := some 1 } (Scenario.three false)).handle
        = { iterator := none }
    ∧ LRUIterator.increasePriority
          (LRUIterator.remove { iterator := some 1 } (Scenario.three false)).handle
          (LRUIterator.remove { iterator := some 1 } (Scenario.three false)).cache_priority
        = { result := .error .LOGICAL_ERROR, handle := { iterator := none }
            cache_priority :=
              (LRUIterator.remove { iterator := some 1 } (Scenario.three false)).cache_priority } :=
  have h := LRUIterator.remove_invalidates_handle { iterator := some 1 } (Scenario.three false)
    (by decide)
  ⟨by decide, h.1,
    (h.2.2 (LRUIterator.remove { iterator := some 1 } (Scenario.three false)).cache_priority
      0).2.2.2.2⟩

/-! ## Moving an entry between two queues -/

theorem LRUQueue.deref_append_fresh (queue : LRUQueue) (n : Node)
    (h_fresh : n.id ∉ queue.map Node.id) :
    LRUQueue.deref (queue ++ [n]) n.id = some n.entry :=
  LRUQueue.deref_append_cons queue [] n n.id rfl
    (fun _ hm h => h_fresh (h ▸ List.mem_map_of_mem Node.id hm))

/-- With node identities distinct across the two queues (the position moved is not the
identity of a node of the receiver, and the identities of the receiver are distinct), a
`move` that returns, returns the position it was given; in the receiver that position then
denotes the entry it denoted in the giver, and the identities of the receiver are distinct
as before. -/
theorem LRUFileCachePriority.move_handle_denotes_moved (ndebug shared_state : Bool)
    (self other : LRUFileCachePriority) (iterator : Nat) (handle : LRUIterator)
    (h_ids : (self.queue.map Node.id).Nodup)
    (h_fresh : iterator ∉ self.queue.map Node.id)
    (h_ok : (LRUFileCachePriority.move ndebug shared_state self other
      { iterator := some iterator }).result = .ok handle) :
    handle = { iterator := some iterator }
    ∧ ((LRUFileCachePriority.move ndebug shared_state self other
        { iterator := some iterator }).self.queue.map Node.id).Nodup
    ∧ (LRUFileCachePriority.move ndebug shared_state self other
        { iterator := some iterator }).self.queue.deref iterator
      = other.queue.deref iterator
    ∧ (other.queue.deref iterator).isSome = true := by
  unfold LRUFileCachePriority.move at h_ok ⊢
  simp only at h_ok ⊢
  cases hd : other.queue.deref iterator with
  | none => rw [hd] at h_ok; cases h_ok
  | some entry =>
    rw [hd] at h_ok
    simp only at h_ok ⊢
    by_cases h0 : entry.size = 0
    · rw [if_pos h0] at h_ok; cases h_ok
    · rw [if_neg h0] at h_ok ⊢
      split at h_ok
      · cases h_ok
      · rename_i hscan
        rw [if_neg hscan]
        injection h_ok with h
        refine ⟨h.symm, ?_, ?_, rfl⟩
        · have hq : ∀ q : LRUQueue, q = self.queue ++ [{ id := iterator, entry := entry }] →
              (q.map Node.id).Nodup := by
            intro q hq
            rw [hq, List.map_append, List.nodup_append]
            refine ⟨h_ids, List.nodup_singleton _, ?_⟩
            intro a ha hb
            simp only [List.map_cons, List.map_nil, List.mem_singleton] at hb
            exact h_fresh (hb ▸ ha)
          cases shared_state <;> exact hq _ rfl
        · have hq : ∀ q : LRUQueue, q = self.queue ++ [{ id := iterator, entry := entry }] →
              LRUQueue.deref q iterator = some entry := by
            intro q hq
            rw [hq]
            exact LRUQueue.deref_append_fresh self.queue { id := iterator, entry := entry }
              h_fresh
          cases shared_state <;> exact hq _ rfl

/-- The receiver links a node of identity 0 and key 9; B(10), of identity 1 in A(10),
B(10), C(10), is moved into it: the returned handle denotes B in the receiver. -/
theorem LRUFileCachePriority.move_handle_denotes_moved_witness :
    (LRUFileCachePriority.move false false
        (run false (construct 0 0 none) [.add (Scenario.entry 9 10)]) (Scenario.three false)
        { iterator := some 1 }).result = .ok { iterator := some 1 }
    ∧ (LRUFileCachePriority.move false false
        (run false (construct 0 0 none) [.add (Scenario.entry 9 10)]) (Scenario.three false)
        { iterator := some 1 }).self.queue.deref 1 = some (Scenario.entry 2 10) :=
  have h : (LRUFileCachePriority.move false false
      (run false (construct 0 0 none) [.add (Scenario.entry 9 10)]) (Scenario.three false)
      { iterator := some 1 }).result = .ok { iterator := some 1 } := by decide
  ⟨h, ((LRUFileCachePriority.move_handle_denotes_moved false false
      (run false (construct 0 0 none) [.add (Scenario.entry 9 10)]) (Scenario.three false) 1
      { iterator := some 1 } (by decide) (by decide) h).2.2.1).trans (by decide)⟩

/-- C21 (counterexample): debug build, two queues with distinct states. The receiver links
an entry of size 10 with key 2 and offset 0; B(10) of A(10), B(10), C(10) has that key and
offset and `size > 0`. `move` throws a logic error; B stays where it was and the receiver
is as before. -/
theorem LRUFileCachePriority.move_rejects_duplicate :
    LRUFileCachePriority.move false false
        (run false (construct 0 0 none) [.add (Scenario.entry 2 10)]) (Scenario.three false)
        { iterator := some 1 }
      = { result := .error .LOGICAL_ERROR
          self := run false (construct 0 0 none) [.add (Scenario.entry 2 10)]
          other := Scenario.three false } := by
  decide

/-- C21 (amended): for two queues with distinct states and a position `it` of a linked node
of `other`: (1) if the size of the entry is 0, `move` throws a logic error and changes
neither queue; (2) if it is `> 0` and, in a debug build, the receiver links no entry with
`size > 0` and the same key and offset, `move` returns a handle on the node, unlinks the
node from `other`, links it last in `self`, and keeps the other nodes of both queues in
their order and the limits of both; the counters of `self` grow by the size and by 1 and
those of `other` shrink by the size and by 1 (in `size_t` arithmetic, so exactly whenever
nothing wraps); (3) if it is `> 0` and, in a debug build, the receiver links an entry with
`size > 0` and the same key and offset, `move` throws a logic error and changes neither
queue. -/
theorem LRUFileCachePriority.move_splices_to_tail (ndebug : Bool)
    (self other : LRUFileCachePriority) (it : Nat) (l1 l2 : LRUQueue) (n : Node)
    (h_queue : other.queue = l1 ++ n :: l2) (h_id : n.id = it)
    (h_first : ∀ m ∈ l1, m.id ≠ it) :
    (n.entry.size = 0 →
      LRUFileCachePriority.move ndebug false self other { iterator := some it }
        = { result := .error .LOGICAL_ERROR, self := self, other := other })
    ∧ (0 < n.entry.size →
        (ndebug = true ∨ (n.entry.key, n.entry.offset) ∉ live_keys self.queue) →
        (LRUFileCachePriority.move ndebug false self other { iterator := some it }).result
            = .ok { iterator := some it }
        ∧ (LRUFileCachePriority.move ndebug false self other { iterator := some it }).self.queue
            = self.queue ++ [n]
        ∧ (LRUFileCachePriority.move ndebug false self other { iterator := some it }).other.queue
            = l1 ++ l2
        ∧ (LRUFileCachePriority.move ndebug false self other
            { iterator := some it }).self.max_size = self.max_size
        ∧ (LRUFileCachePriority.move ndebug false self other
            { iterator := some it }).self.max_elements = self.max_elements
        ∧ (LRUFileCachePriority.move ndebug false self other
            { iterator := some it }).other.max_size = other.max_size
        ∧ (LRUFileCachePriority.move ndebug false self other
            { iterator := some it }).other.max_elements = other.max_elements
        ∧ (LRUFileCachePriority.move ndebug false self other
            { iterator := some it }).self.state.current_size
            = (self.state.current_size + n.entry.size) % SIZE_T_RANGE
        ∧ (LRUFileCachePriority.move ndebug false self other
            { iterator := some it }).self.state.current_elements_num
            = (self.state.current_elements_num + 1) % SIZE_T_RANGE
        ∧ (((LRUFileCachePriority.move ndebug false self other
            { iterator := some it }).other.state.current_size : Nat) : Int)
            = ((other.state.current_size : Int) - n.entry.size) % (SIZE_T_RANGE : Nat)
        ∧ (((LRUFileCachePriority.move ndebug false self other
            { iterator := some it }).other.state.current_elements_num : Nat) : Int)
            = ((other.state.current_elements_num : Int) - 1) % (SIZE_T_RANGE : Nat)
        ∧ (self.state.current_size + n.entry.size < SIZE_T_RANGE →
            (LRUFileCachePriority.move ndebug false self other
              { iterator := some it }).self.state.current_size
              = self.state.current_size + n.entry.size)
        ∧ (self.state.current_elements_num + 1 < SIZE_T_RANGE →
            (LRUFileCachePriority.move ndebug false self other
              { iterator := some it }).self.state.current_elements_num
              = self.state.current_elements_num + 1)
        ∧ (n.entry.size ≤ other.state.current_size → other.state.current_size < SIZE_T_RANGE →
            (LRUFileCachePriority.move ndebug false self other
              { iterator := some it }).other.state.current_size + n.entry.size
              = other.state.current_size)
        ∧ (1 ≤ other.state.current_elements_num →
            other.state.current_elements_num < SIZE_T_RANGE →
            (LRUFileCachePriority.move ndebug false self other
              { iterator := some it }).other.state.current_elements_num + 1
              = other.state.current_elements_num))
    ∧ (0 < n.entry.size → ndebug = false →
        (n.entry.key, n.entry.offset) ∈ live_keys self.queue →
        LRUFileCachePriority.move ndebug false self other { iterator := some it }
          = { result := .error .LOGICAL_ERROR, self := self, other := other }) := by
  have hd := LRUQueue.deref_append_cons l1 l2 n it h_id h_first
  have he := LRUQueue.erase_append_cons l1 l2 n it h_id h_first
  rw [← h_queue] at hd he
  refine ⟨?_, ?_, ?_⟩
  · intro h0
    simp only [LRUFileCachePriority.move, hd, h0, if_true]
  · intro hpos hdup
    have h0 : n.entry.size ≠ 0 := by omega
    have hscan := duplicate_scan_eq_false ndebug self.queue n.entry (by
      rcases hdup with h | h
      · exact Or.inl h
      · right
        intro m hm hs hk
        exact h ((mem_live_keys self.queue n.entry.key n.entry.offset).mpr
          ⟨m, hm, hs, hk.1, hk.2⟩))
    have hadd := to_size_t_add_to_int64 self.state.current_size n.entry.size
    have hone := to_size_t_cast ((self.state.current_elements_num : Int) + 1)
    have hsub := to_size_t_sub_to_int64 other.state.current_size n.entry.size
    have hcnt := to_size_t_cast ((other.state.current_elements_num : Int) + -1)
    subst h_id
    simp only [LRUFileCachePriority.move, hd, h0, hscan, if_false, Bool.false_eq_true,
      updateSize, updateElementsCount, he, true_and]
    refine ⟨hadd, ?_, ?_, ?_, ?_, ?_, ?_, ?_⟩
    · unfold SIZE_T_RANGE; omega
    · unfold SIZE_T_RANGE; omega
    · unfold SIZE_T_RANGE; omega
    · rw [hadd]; intro h; exact Nat.mod_eq_of_lt h
    · unfold SIZE_T_RANGE; omega
    · unfold SIZE_T_RANGE; omega
    · unfold SIZE_T_RANGE; omega
  · intro hpos hnd hdup
    subst hnd
    exact LRUFileCachePriority.move_eq_of_duplicate false self other it n.entry hd hdup

/-- C21 (witness): B(10) of A(10), B(10), C(10) moved into an empty queue with its own
state. -/
theorem LRUFileCachePriority.move_splices_to_tail_witness :
    (LRUFileCachePriority.move false false (construct 0 0 none) (Scenario.three false)
        { iterator := some 1 }).result = .ok { iterator := some 1 }
    ∧ (LRUFileCachePriority.move false false (construct 0 0 none) (Scenario.three false)
        { iterator := some 1 }).self.queue = [{ id := 1, entry := Scenario.entry 2 10 }]
    ∧ (LRUFileCachePriority.move false false (construct 0 0 none) (Scenario.three false)
        { iterator := some 1 }).other.queue
        = [{ id := 0, entry := Scenario.entry 1 10 }, { id := 2, entry := Scenario.entry 3 10 }]
    ∧ (LRUFileCachePriority.move false false (construct 0 0 none) (Scenario.three false)
        { iterator := some 1 }).self.state = { current_size := 10, current_elements_num := 1 }
    ∧ (LRUFileCachePriority.move false false (construct 0 0 none) (Scenario.three false)
        { iterator := some 1 }).other.state
        = { current_size := 20, current_elements_num := 2 } :=
  have h := (LRUFileCachePriority.move_splices_to_tail false (construct 0 0 none)
    (Scenario.three false) 1
    [{ id := 0, entry := Scenario.entry 1 10 }] [{ id := 2, entry := Scenario.entry 3 10 }]
    { id := 1, entry := Scenario.entry 2 10 } (by decide) rfl (by decide)).2.1 (by decide)
    (Or.inr (by decide))
  ⟨h.1, h.2.1, h.2.2.1, by decide, by decide⟩

/-- C22: let two queues share one state object (both views read the same counters, which
are in `size_t` range). Whatever `move` between them does, the shared `current_size` and
`current_elements_num` are after the call exactly what they were before; and for a linked
node with `size > 0` whose key and offset the receiver does not link with `size > 0` (in a
debug build) the call returns a handle on the node, which is then last in the receiver
and unlinked from the giver. -/
theorem LRUFileCachePriority.move_keeps_shared_state (ndebug : Bool)
    (self other : LRUFileCachePriority) (it : LRUIterator)
    (h_shared : other.state = self.state)
    (h_size : self.state.current_size < SIZE_T_RANGE)
    (h_elements : self.state.current_elements_num < SIZE_T_RANGE) :
    (LRUFileCachePriority.move ndebug true self other it).self.state = self.state
    ∧ (LRUFileCachePriority.move ndebug true self other it).other.state = self.state
    ∧ ∀ (iterator : Nat) (entry : Entry), it.iterator = some iterator →
        other.queue.deref iterator = some entry → 0 < entry.size →
        (ndebug = true ∨ (entry.key, entry.offset) ∉ live_keys self.queue) →
        (LRUFileCachePriority.move ndebug true self other it).result
            = .ok { iterator := some iterator }
        ∧ (LRUFileCachePriority.move ndebug true self other it).self.queue
            = self.queue ++ [{ id := iterator, entry := entry }]
        ∧ (LRUFileCachePriority.move ndebug true self other it).other.queue
            = other.queue.erase iterator := by
  have hstate : ∀ (size : Nat),
      ({ current_size :=
          to_size_t (((to_size_t ((self.state.current_size : Int) + to_int64 size) : Nat) : Int)
            + to_int64 (to_size_t (-(size : Int))))
         current_elements_num :=
          to_size_t (((to_size_t ((self.state.current_elements_num : Int) + 1) : Nat) : Int)
            + -1) } : State) = self.state := by
    intro size
    have h1 := to_size_t_add_to_int64 self.state.current_size size
    have h2 := to_size_t_sub_to_int64 (to_size_t ((self.state.current_size : Int) + to_int64 size))
      size
    have h3 := to_size_t_cast ((self.state.current_elements_num : Int) + 1)
    have h4 := to_size_t_cast
      (((to_size_t ((self.state.current_elements_num : Int) + 1) : Nat) : Int) + -1)
    unfold SIZE_T_RANGE at h_size h_elements h1
    have e1 : to_size_t
        (((to_size_t ((self.state.current_size : Int) + to_int64 size) : Nat) : Int)
          + to_int64 (to_size_t (-(size : Int)))) = self.state.current_size := by omega
    have e2 : to_size_t
        (((to_size_t ((self.state.current_elements_num : Int) + 1) : Nat) : Int) + -1)
        = self.state.current_elements_num := by omega
    rw [e1, e2]
  rcases it with ⟨_ | iterator⟩
  · refine ⟨rfl, h_shared, ?_⟩
    intro iterator entry hit
    cases hit
  · cases hd : other.queue.deref iterator with
    | none =>
      refine ⟨by simp only [LRUFileCachePriority.move, hd], by
        simp only [LRUFileCachePriority.move, hd]; exact h_shared, ?_⟩
      intro iterator' entry hit hd'
      injection hit with hit
      subst hit
      rw [hd] at hd'
      cases hd'
    | some entry =>
      by_cases h0 : entry.size = 0
      · refine ⟨by simp only [LRUFileCachePriority.move, hd, h0, if_true], by
          simp only [LRUFileCachePriority.move, hd, h0, if_true]; exact h_shared, ?_⟩
        intro iterator' entry' hit hd' hpos
        injection hit with hit
        subst hit
        rw [hd] at hd'
        injection hd' with hd'
        subst hd'
        omega
      · cases hscan : (!ndebug && self.queue.any (fun queue_entry =>
            decide (queue_entry.entry.size ≠ 0) && decide (queue_entry.entry.key = entry.key)
              && decide (queue_entry.entry.offset = entry.offset))) with
        | true =>
          refine ⟨by simp only [LRUFileCachePriority.move, hd, h0, hscan, if_true, if_false],
            by simp only [LRUFileCachePriority.move, hd, h0, hscan, if_true, if_false]
               exact h_shared, ?_⟩
          intro iterator' entry' hit hd' hpos hdup
          injection hit with hit
          subst hit
          rw [hd] at hd'
          injection hd' with hd'
          subst hd'
          have hfalse := duplicate_scan_eq_false ndebug self.queue entry (by
            rcases hdup with h | h
            · exact Or.inl h
            · right
              intro m hm hs hk
              exact h ((mem_live_keys self.queue entry.key entry.offset).mpr
                ⟨m, hm, hs, hk.1, hk.2⟩))
          rw [hscan] at hfalse
          cases hfalse
        | false =>
          have hs := hstate entry.size
          refine ⟨?_, ?_, ?_⟩
          · simp only [LRUFileCachePriority.move, hd, h0, hscan, if_false, if_true,
              Bool.false_eq_true, updateSize, updateElementsCount]
            exact hs
          · simp only [LRUFileCachePriority.move, hd, h0, hscan, if_false, if_true,
              Bool.false_eq_true, updateSize, updateElementsCount]
            exact hs
          · intro iterator' entry' hit hd' hpos hdup
            injection hit with hit
            subst hit
            rw [hd] at hd'
            injection hd' with hd'
            subst hd'
            simp only [LRUFileCachePriority.move, hd, h0, hscan, if_false, if_true,
              Bool.false_eq_true, updateSize, updateElementsCount, and_self]

/-- C22 (witness): scenario 6. Q1 and Q2 share a state, A(20) is added to Q1 and moved to
Q2: the shared `current_size` is 20 and the element count 1 before and after; A is linked
in Q2 and Q1 links nothing. -/
theorem LRUFileCachePriority.move_keeps_shared_state_witness :
    (Scenario.shared_receiver false).state = { current_size := 20, current_elements_num := 1 }
    ∧ (LRUFileCachePriority.move false true (Scenario.shared_receiver false)
        (Scenario.shared_giver false) { iterator := some 0 }).self.state
        = { current_size := 20, current_elements_num := 1 }
    ∧ (LRUFileCachePriority.move false true (Scenario.shared_receiver false)
        (Scenario.shared_giver false) { iterator := some 0 }).other.state
        = { current_size := 20, current_elements_num := 1 }
    ∧ (LRUFileCachePriority.move false true (Scenario.shared_receiver false)
        (Scenario.shared_giver false) { iterator := some 0 }).self.queue
        = [{ id := 0, entry := Scenario.entry 1 20 }]
    ∧ (LRUFileCachePriority.move false true (Scenario.shared_receiver false)
        (Scenario.shared_giver false) { iterator := some 0 }).other.queue = [] :=
  have h := LRUFileCachePriority.move_keeps_shared_state false (Scenario.shared_receiver false)
    (Scenario.shared_giver false) { iterator := some 0 } (by decide) (by decide) (by decide)
  ⟨by decide, h.1.trans (by decide), h.2.1.trans (by decide),
    (h.2.2 0 (Scenario.entry 1 20) rfl (by decide) (by decide) (Or.inr (by decide))).2.1,
    by decide⟩

/-! ## firstTruthy -/

theorem FunctionFirstTruthy.cast_arguments_eq {Field : Type}
    (castColumn : IColumn Field → IDataType Field → IColumn Field)
    (result_type : IDataType Field) (arguments : List (IColumn Field))
    (h_cast : ∀ argument ∈ arguments,
      (castColumn argument result_type).getDataType = result_type.column_data_type) :
    FunctionFirstTruthy.cast_arguments castColumn result_type arguments
      = .ok (arguments.map (fun argument => castColumn argument result_type)) := by
  induction arguments with
  | nil => rfl
  | cons arg rest ih =>
    have h1 := h_cast arg (List.mem_cons_self _ _)
    have h2 := ih (fun a ha => h_cast a (List.mem_cons_of_mem _ ha))
    simp only [FunctionFirstTruthy.cast_arguments, IColumn.convertToFullColumnIfConst,
      IColumn.convertToFullColumnIfSparse, h1, h2, ne_eq, not_true_eq_false, if_false,
      List.map_cons]

theorem FunctionFirstTruthy.scan_row_eq {Field : Type} (cast : IColumn Field → IColumn Field)
    (arguments : List (IColumn Field)) (row : Nat) :
    FunctionFirstTruthy.scan_row arguments (arguments.map cast) row
      = (arguments.find? (fun argument =>
          !argument.isNullAt row && !argument.isDefaultAt row)).map
            (fun argument => (cast argument).value row) := by
  induction arguments with
  | nil => rfl
  | cons arg rest ih =>
    simp only [List.map_cons, FunctionFirstTruthy.scan_row, List.find?_cons]
    cases h : (!arg.isNullAt row && !arg.isDefaultAt row) with
    | true => simp
    | false => simpa using ih

/-- C26: for every cast, every list of at least one argument column whose casted columns
have the data type of the result column, and every number of rows, `executeImpl` returns a
column with that number of rows; at every row its value is the value of the casted column
of the leftmost argument that is neither NULL nor default at that row, and the value of
the casted column of the last argument if there is none. -/
theorem FunctionFirstTruthy.executeImpl_leftmost_truthy {Field : Type}
    (castColumn : IColumn Field → IDataType Field → IColumn Field)
    (arguments : List (IColumn Field)) (result_type : IDataType Field)
    (input_rows_count : Nat) (h_arguments : arguments ≠ [])
    (h_cast : ∀ argument ∈ arguments,
      (castColumn argument result_type).getDataType = result_type.column_data_type) :
    ∃ result_col : List Field,
      FunctionFirstTruthy.executeImpl castColumn arguments result_type input_rows_count
        = .ok result_col
      ∧ result_col.length = input_rows_count
      ∧ ∀ row, row < input_rows_count →
          result_col[row]? = some
            (match arguments.find? (fun argument =>
                !argument.isNullAt row && !argument.isDefaultAt row) with
              | some argument => (castColumn argument result_type).value row
              | none => (castColumn (arguments.getLast h_arguments) result_type).value row) := by
  match arguments, h_arguments, h_cast with
  | [], h, _ => exact absurd rfl h
  | [argument], _, _ =>
    refine ⟨_, rfl, by simp, ?_⟩
    intro row hrow
    simp only [List.getElem?_map, List.getElem?_range hrow, Option.map_some', List.find?_cons,
      List.find?_nil, List.getLast_singleton]
    cases (!argument.isNullAt row && !argument.isDefaultAt row) <;> rfl
  | first :: second :: rest, h, h_cast =>
    have hc := FunctionFirstTruthy.cast_arguments_eq castColumn result_type
      (first :: second :: rest) h_cast
    have he : FunctionFirstTruthy.executeImpl castColumn (first :: second :: rest) result_type
        input_rows_count
        = .ok ((List.range input_rows_count).map (fun row =>
            match FunctionFirstTruthy.scan_row (first :: second :: rest)
                ((first :: second :: rest).map (fun argument => castColumn argument result_type))
                row with
            | some found => found
            | none =>
              match ((first :: second :: rest).map
                  (fun argument => castColumn argument result_type)).getLast? with
              | some last_column => last_column.value row
              | none => result_type.default_value)) := by
      simp only [FunctionFirstTruthy.executeImpl, hc]
    refine ⟨_, he, by simp, ?_⟩
    intro row hrow
    rw [List.getElem?_map, List.getElem?_range hrow, Option.map_some']
    congr 1
    rw [FunctionFirstTruthy.scan_row_eq (fun argument => castColumn argument result_type)]
    cases hfind : (first :: second :: rest).find? (fun argument =>
        !argument.isNullAt row && !argument.isDefaultAt row) with
    | some argument => rfl
    | none =>
      simp only [Option.map_none']
      rw [List.getLast?_map, List.getLast?_eq_getLast _ h]
      rfl

/-- C26 (witness): three integer columns and three rows under the identity cast. Row 0: the
first two arguments are 0 and NULL, the third is 7. Row 1: the second argument is 5. Row 2:
all are falsy and the last argument is 0. -/
theorem FunctionFirstTruthy.executeImpl_leftmost_truthy_witness :
    FunctionFirstTruthy.executeImpl (fun column _ => column)
        [Scenario.column [0, 0, 0] [], Scenario.column [3, 5, 0] [true],
          Scenario.column [7, 8, 0] []] Scenario.result_type 3 = .ok [7, 5, 0]
    ∧ ∃ result_col : List Int,
        FunctionFirstTruthy.executeImpl (fun column _ => column)
          [Scenario.column [0, 0, 0] [], Scenario.column [3, 5, 0] [true],
            Scenario.column [7, 8, 0] []] Scenario.result_type 3 = .ok result_col
        ∧ result_col.length = 3 :=
  have h := FunctionFirstTruthy.executeImpl_leftmost_truthy (fun column _ => column)
    [Scenario.column [0, 0, 0] [], Scenario.column [3, 5, 0] [true],
      Scenario.column [7, 8, 0] []] Scenario.result_type 3 (by simp)
    (by intro argument h; simp only [List.mem_cons, List.mem_singleton, List.mem_nil_iff,
          or_false] at h; rcases h with rfl | rfl | rfl <;> rfl)
  ⟨by decide, h.elim (fun result_col hr => ⟨result_col, hr.1, hr.2.1⟩)⟩

/-! ## A complete walk -/

theorem CacheMetadata.stays_of_removed (metadata : CacheMetadata) (n : Node)
    (h : n.entry.size = 0 ∨ (n.entry.evicting = false ∧
        (metadata.tryLock n.entry.key = false
          ∨ metadata.tryGetByOffset n.entry.key n.entry.offset = none))) :
    metadata.stays n = false := by
  have hne := CacheMetadata.not_eligible_of_removed metadata n h
  unfold CacheMetadata.stays
  rcases h with h | ⟨h, _⟩
  · simp [h]
  · simp [h, hne]

theorem CacheMetadata.stays_of_evicting (metadata : CacheMetadata) (n : Node)
    (h_size : n.entry.size ≠ 0) (h_evicting : n.entry.evicting = true) :
    metadata.stays n = true := by
  unfold CacheMetadata.stays
  simp [h_size, h_evicting]

theorem CacheMetadata.stays_of_eligible (metadata : CacheMetadata) (n : Node)
    (h : metadata.eligible n = true) : metadata.stays n = true := by
  have h0 := ((CacheMetadata.eligible_iff metadata n).mp h).1
  unfold CacheMetadata.stays
  simp [h0, h]

/-- A walk that returns normally and whose callback always returns `CONTINUE`, from a
cursor: what it keeps of the remaining nodes, what it hands to the callback, and the
counters. -/
theorem LRUFileCachePriority.iterate_loop_complete {σ : Type} (metadata : CacheMetadata)
    (func : IterateFunc σ)
    (h_continue : ∀ captured here node segment,
      (func captured here node segment).result = .CONTINUE)
    (rest : LRUQueue) :
    ∀ (visited : LRUQueue) (self : LRUFileCachePriority) (captured : σ)
      (delivered : List Node),
      self.state.current_size < SIZE_T_RANGE →
      self.state.current_elements_num < SIZE_T_RANGE →
      (LRUFileCachePriority.iterate_loop metadata func rest visited self captured
        delivered).result = .ok () →
      ∃ kept : LRUQueue,
        (LRUFileCachePriority.iterate_loop metadata func rest visited self captured
          delivered).self.queue = visited ++ kept
        ∧ kept.map Node.id = (rest.filter metadata.stays).map Node.id
        ∧ (rest.filter (fun n => decide (n.entry.size ≠ 0) && n.entry.evicting)).Sublist kept
        ∧ ((∀ captured here node segment, (func captured here node segment).entry = node.entry) →
            kept = rest.filter metadata.stays)
        ∧ (LRUFileCachePriority.iterate_loop metadata func rest visited self captured
            delivered).delivered = delivered ++ rest.filter metadata.eligible
        ∧ (((LRUFileCachePriority.iterate_loop metadata func rest visited self captured
            delivered).self.state.current_size : Nat) : Int)
          = ((self.state.current_size : Int)
              - live_size (rest.filter (fun n => !metadata.stays n))) % 18446744073709551616
        ∧ (((LRUFileCachePriority.iterate_loop metadata func rest visited self captured
            delivered).self.state.current_elements_num : Nat) : Int)
          = ((self.state.current_elements_num : Int)
              - live_count (rest.filter (fun n => !metadata.stays n))) % 18446744073709551616
        ∧ (LRUFileCachePriority.iterate_loop metadata func rest visited self captured
            delivered).self.max_size = self.max_size
        ∧ (LRUFileCachePriority.iterate_loop metadata func rest visited self captured
            delivered).self.max_elements = self.max_elements := by
  induction rest with
  | nil =>
    intro visited self captured delivered hs he _
    refine ⟨[], by simp [LRUFileCachePriority.iterate_loop], rfl, List.Sublist.refl _,
      fun _ => rfl, by simp [LRUFileCachePriority.iterate_loop], ?_, ?_, rfl, rfl⟩
    · simp only [LRUFileCachePriority.iterate_loop, List.filter_nil, live_size_nil]
      unfold SIZE_T_RANGE at hs
      omega
    · simp only [LRUFileCachePriority.iterate_loop, List.filter_nil]
      have : live_count ([] : LRUQueue) = 0 := rfl
      rw [this]
      unfold SIZE_T_RANGE at he
      omega
  | cons n rest ih =>
    intro visited self captured delivered hs he hok
    rcases CacheMetadata.visit_cases metadata n with hrem | ⟨h0, hev⟩ | ⟨hel, segment, hseg⟩
    · have hst := CacheMetadata.stays_of_removed metadata n hrem
      have hne := CacheMetadata.not_eligible_of_removed metadata n hrem
      have hnev : (decide (n.entry.size ≠ 0) && n.entry.evicting) = false := by
        rcases hrem with h | ⟨h, _⟩
        · simp [h]
        · simp [h]
      rw [LRUFileCachePriority.iterate_loop_of_removed metadata func n rest visited self captured
        delivered hrem] at hok ⊢
      have hsub := to_size_t_sub_to_int64 self.state.current_size n.entry.size
      have hcnt := to_size_t_cast ((self.state.current_elements_num : Int) + -1)
      obtain ⟨kept, hq, hids, hevs, hent, hdel, hcs, hen, hms, hme⟩ := ih visited
        (if n.entry.size ≠ 0 then
          (self.updateSize (to_int64 (to_size_t (-(n.entry.size : Int))))).updateElementsCount
            (-1)
        else self) captured delivered
        (by split
            · simp only [updateSize, updateElementsCount]; unfold SIZE_T_RANGE; omega
            · exact hs)
        (by split
            · simp only [updateSize, updateElementsCount]; unfold SIZE_T_RANGE; omega
            · exact he) hok
      refine ⟨kept, hq, ?_, ?_, ?_, ?_, ?_, ?_, ?_, ?_⟩
      · rw [hids, List.filter_cons_of_neg (by simp [hst])]
      · rw [List.filter_cons_of_neg (by rw [hnev]; exact Bool.false_ne_true)]; exact hevs
      · intro h; rw [hent h, List.filter_cons_of_neg (by simp [hst])]
      · rw [hdel, List.filter_cons_of_neg (by simp [hne])]
      · rw [hcs, List.filter_cons_of_pos (by simp [hst]), live_size_cons]
        by_cases hz : n.entry.size = 0
        · simp only [hz, ne_eq, not_true_eq_false, if_false]; omega
        · simp only [hz, ne_eq, not_false_eq_true, if_true, updateSize, updateElementsCount]
          omega
      · rw [hen, List.filter_cons_of_pos (by simp [hst]), live_count_cons]
        by_cases hz : n.entry.size = 0
        · simp only [hz, ne_eq, not_true_eq_false, if_false]; omega
        · simp only [hz, ne_eq, not_false_eq_true, if_true, updateSize, updateElementsCount]
          omega
      · rw [hms]; split <;> rfl
      · rw [hme]; split <;> rfl
    · have hst := CacheMetadata.stays_of_evicting metadata n h0 hev
      have hne := CacheMetadata.not_eligible_of_evicting metadata n hev
      rw [LRUFileCachePriority.iterate_loop_of_evicting metadata func n rest visited self
        captured delivered h0 hev] at hok ⊢
      obtain ⟨kept, hq, hids, hevs, hent, hdel, hcs, hen, hms, hme⟩ := ih (visited ++ [n]) self
        captured delivered hs he hok
      refine ⟨n :: kept, by rw [hq]; simp, ?_, ?_, ?_, ?_, ?_, ?_, hms, hme⟩
      · rw [List.filter_cons_of_pos hst, List.map_cons, List.map_cons, hids]
      · rw [List.filter_cons_of_pos (by simp [h0, hev])]; exact List.Sublist.cons₂ _ hevs
      · intro h; rw [hent h, List.filter_cons_of_pos hst]
      · rw [hdel, List.filter_cons_of_neg (by simp [hne])]
      · rw [hcs, List.filter_cons_of_neg (by simp [hst])]
      · rw [hen, List.filter_cons_of_neg (by simp [hst])]
    · have hst := CacheMetadata.stays_of_eligible metadata n hel
      have hnev : n.entry.evicting = false := ((CacheMetadata.eligible_iff metadata n).mp hel).2.1
      by_cases hmatch : segment.size = n.entry.size
      · rw [LRUFileCachePriority.iterate_loop_of_match metadata func n rest visited self
          captured delivered segment hel hseg hmatch, h_continue] at hok ⊢
        simp only [] at hok ⊢
        obtain ⟨kept, hq, hids, hevs, hent, hdel, hcs, hen, hms, hme⟩ := ih
          (visited ++ [{ n with entry :=
            (func captured { self with queue := visited ++ n :: rest } n segment).entry }])
          self (func captured { self with queue := visited ++ n :: rest } n segment).captured
          (delivered ++ [n]) hs he hok
        refine ⟨{ n with entry :=
            (func captured { self with queue := visited ++ n :: rest } n segment).entry } :: kept,
          by rw [hq]; simp, ?_, ?_, ?_, ?_, ?_, ?_, hms, hme⟩
        · rw [List.filter_cons_of_pos hst, List.map_cons, List.map_cons, hids]
        · rw [List.filter_cons_of_neg (by simp [hnev])]; exact List.Sublist.cons _ hevs
        · intro h; rw [hent h, List.filter_cons_of_pos hst, h]
        · rw [hdel, List.filter_cons_of_pos hel]; simp
        · rw [hcs, List.filter_cons_of_neg (by simp [hst])]
        · rw [hen, List.filter_cons_of_neg (by simp [hst])]
      · have hmm : metadata.mismatch n = true := by
          rw [CacheMetadata.mismatch_of_segment metadata n segment hseg]
          simp [hmatch]
        rw [LRUFileCachePriority.iterate_loop_of_mismatch metadata func n rest visited self
          captured delivered hel hmm] at hok
        cases hok

/-- C27: let `iterate` return normally with a callback that always returns `CONTINUE`, the
counters being in `size_t` range. The queue after it holds, in their original order,
exactly the nodes that had `size > 0` and were evicting, which are as they were, and the
nodes handed to the callback (`size > 0`, not evicting, key lock acquired, segment
present), which are as the callback left them, so as they were if it writes no entry.
Every other node is unlinked: those with size 0, and those not evicting whose key could
not be locked or whose segment was absent. `current_size` and `current_elements_num` have
decreased by the total size and by the number of the unlinked nodes with `size > 0` (in
`size_t` arithmetic, so exactly whenever the counters cover them), and the limits stay. -/
theorem LRUFileCachePriority.iterate_complete_walk {σ : Type} (self : LRUFileCachePriority)
    (metadata : CacheMetadata) (func : IterateFunc σ) (captured : σ)
    (h_continue : ∀ captured here node segment,
      (func captured here node segment).result = .CONTINUE)
    (h_size : self.state.current_size < SIZE_T_RANGE)
    (h_elements : self.state.current_elements_num < SIZE_T_RANGE)
    (h_ok : (self.iterate metadata func captured).result = .ok ()) :
    (self.iterate metadata func captured).self.queue.map Node.id
      = (self.queue.filter metadata.stays).map Node.id
    ∧ (self.queue.filter (fun n => decide (n.entry.size ≠ 0) && n.entry.evicting)).Sublist
        (self.iterate metadata func captured).self.queue
    ∧ ((∀ captured here node segment, (func captured here node segment).entry = node.entry) →
        (self.iterate metadata func captured).self.queue = self.queue.filter metadata.stays)
    ∧ (self.iterate metadata func captured).delivered = self.queue.filter metadata.eligible
    ∧ (((self.iterate metadata func captured).self.state.current_size : Nat) : Int)
        = ((self.state.current_size : Int)
            - live_size (self.queue.filter (fun n => !metadata.stays n)))
          % (SIZE_T_RANGE : Nat)
    ∧ (((self.iterate metadata func captured).self.state.current_elements_num : Nat) : Int)
        = ((self.state.current_elements_num : Int)
            - live_count (self.queue.filter (fun n => !metadata.stays n)))
          % (SIZE_T_RANGE : Nat)
    ∧ (live_size (self.queue.filter (fun n => !metadata.stays n)) ≤ self.state.current_size →
        (self.iterate metadata func captured).self.state.current_size
            + live_size (self.queue.filter (fun n => !metadata.stays n))
          = self.state.current_size)
    ∧ (live_count (self.queue.filter (fun n => !metadata.stays n))
          ≤ self.state.current_elements_num →
        (self.iterate metadata func captured).self.state.current_elements_num
            + live_count (self.queue.filter (fun n => !metadata.stays n))
          = self.state.current_elements_num)
    ∧ (self.iterate metadata func captured).self.max_size = self.max_size
    ∧ (self.iterate metadata func captured).self.max_elements = self.max_elements := by
  unfold LRUFileCachePriority.iterate at h_ok ⊢
  obtain ⟨kept, hq, hids, hevs, hent, hdel, hcs, hen, hms, hme⟩ :=
    LRUFileCachePriority.iterate_loop_complete metadata func h_continue self.queue [] self
      captured [] h_size h_elements h_ok
  rw [List.nil_append] at hq hdel
  rw [hq]
  refine ⟨hids, hevs, hent, hdel, ?_, ?_, ?_, ?_, hms, hme⟩
  · rw [hcs]; rfl
  · rw [hen]; rfl
  · intro hle
    unfold SIZE_T_RANGE at h_size
    omega
  · intro hle
    unfold SIZE_T_RANGE at h_elements
    omega

/-- C27 (witness): A(10), B(10), C(10) after `invalidate` of A, the key of B not lockable.
The walk unlinks A, which has size 0, and B, whose key lock fails, and hands C to the
callback; the queue holds C alone and the counters go from 20 and 2 to 10 and 1. -/
theorem LRUFileCachePriority.iterate_complete_walk_witness :
    (run false (construct 0 0 none)
        [.add (Scenario.entry 1 10), .add (Scenario.entry 2 10), .add (Scenario.entry 3 10),
          .invalidate { iterator := some 0 }]).state
      = { current_size := 20, current_elements_num := 2 }
    ∧ ((run false (construct 0 0 none)
        [.add (Scenario.entry 1 10), .add (Scenario.entry 2 10), .add (Scenario.entry 3 10),
          .invalidate { iterator := some 0 }]).iterate (Scenario.metadata_stale 10 2)
          Scenario.keep_going ()).self.queue = [{ id := 2, entry := Scenario.entry 3 10 }]
    ∧ ((run false (construct 0 0 none)
        [.add (Scenario.entry 1 10), .add (Scenario.entry 2 10), .add (Scenario.entry 3 10),
          .invalidate { iterator := some 0 }]).iterate (Scenario.metadata_stale 10 2)
          Scenario.keep_going ()).delivered = [{ id := 2, entry := Scenario.entry 3 10 }]
    ∧ ((run false (construct 0 0 none)
        [.add (Scenario.entry 1 10), .add (Scenario.entry 2 10), .add (Scenario.entry 3 10),
          .invalidate { iterator := some 0 }]).iterate (Scenario.metadata_stale 10 2)
          Scenario.keep_going ()).self.state
      = { current_size := 10, current_elements_num := 1 } :=
  have h := LRUFileCachePriority.iterate_complete_walk
    (run false (construct 0 0 none)
      [.add (Scenario.entry 1 10), .add (Scenario.entry 2 10), .add (Scenario.entry 3 10),
        .invalidate { iterator := some 0 }])
    (Scenario.metadata_stale 10 2) Scenario.keep_going () (fun _ _ _ _ => rfl) (by decide)
    (by decide) (by decide)
  ⟨by decide, (h.2.2.1 (fun _ _ _ _ => rfl)).trans (by decide), h.2.2.2.1.trans (by decide),
    by decide⟩

/-! ## Classification of the delivered segments -/

theorem EvictionCandidates.flatten_push_size (buckets : List (FileCacheKey × KeyCandidates))
    (key : FileCacheKey) (candidate : FileSegmentMetadata) :
    ((((EvictionCandidates.push buckets key candidate).map
        (fun bucket => bucket.2.candidates)).flatten).map FileSegmentMetadata.size).sum
      = (((buckets.map (fun bucket => bucket.2.candidates)).flatten).map
          FileSegmentMetadata.size).sum + candidate.size := by
  induction buckets with
  | nil => simp [EvictionCandidates.push]
  | cons bucket rest ih =>
    unfold EvictionCandidates.push
    by_cases h : bucket.1 = key
    · rw [if_pos h]
      simp only [List.map_cons, List.flatten_cons, List.map_append, List.sum_append,
        List.sum_cons, List.sum_nil, List.map_nil]
      omega
    · rw [if_neg h]
      simp only [List.map_cons, List.flatten_cons, List.map_append, List.sum_append] at ih ⊢
      omega

/-- The segments held after `add` report the size of the new one more. -/
theorem EvictionCandidates.segments_size_add (res : EvictionCandidates)
    (candidate : FileSegmentMetadata) (key : FileCacheKey) (node : Node) :
    (res.add candidate key node).1.segments_size = res.segments_size + candidate.size := by
  unfold EvictionCandidates.add EvictionCandidates.segments_size EvictionCandidates.segments
  exact EvictionCandidates.flatten_push_size res.candidates key candidate

/-- The releasable side of `stat` follows the candidates through every eviction walk. -/
theorem LRUFileCachePriority.eviction_walk_stat (metadata : CacheMetadata)
    (stop_condition : LRUFileCachePriority → EvictionCandidates → FileCacheReserveStat → Bool)
    (self : LRUFileCachePriority) :
    (self.iterateForEviction metadata EvictionCandidates.empty Scenario.fresh_stat
        stop_condition).captured.stat.stat.releasable_count
      = (self.iterateForEviction metadata EvictionCandidates.empty Scenario.fresh_stat
          stop_condition).captured.res.size
    ∧ (self.iterateForEviction metadata EvictionCandidates.empty Scenario.fresh_stat
        stop_condition).captured.stat.stat.releasable_count
      = (self.iterateForEviction metadata EvictionCandidates.empty Scenario.fresh_stat
          stop_condition).captured.res.segments.length % SIZE_T_RANGE
    ∧ (self.iterateForEviction metadata EvictionCandidates.empty Scenario.fresh_stat
        stop_condition).captured.stat.stat.releasable_size
      = (self.iterateForEviction metadata EvictionCandidates.empty Scenario.fresh_stat
          stop_condition).captured.res.segments_size % SIZE_T_RANGE := by
  unfold LRUFileCachePriority.iterateForEviction LRUFileCachePriority.iterate
  exact LRUFileCachePriority.iterate_loop_captured metadata
    (LRUFileCachePriority.iterateForEviction_func stop_condition)
    (fun captured =>
      captured.stat.stat.releasable_count = captured.res.size
      ∧ captured.stat.stat.releasable_count = captured.res.segments.length % SIZE_T_RANGE
      ∧ captured.stat.stat.releasable_size = captured.res.segments_size % SIZE_T_RANGE)
    (by
      intro captured here node segment hP
      unfold LRUFileCachePriority.iterateForEviction_func
      by_cases hstop : stop_condition here captured.res captured.stat = true
      · rw [if_pos hstop]; exact hP
      · rw [if_neg hstop]
        unfold LRUFileCachePriority.iterate_func
        by_cases hrel : segment.releasable = true
        · rw [if_pos hrel]
          obtain ⟨h1, h2, h3⟩ := hP
          have hlen := EvictionCandidates.segments_add captured.res segment node.entry.key node
          have hsum := EvictionCandidates.segments_size_add captured.res segment node.entry.key
            node
          have hc := to_size_t_cast ((captured.stat.stat.releasable_count : Int) + 1)
          have hs := to_size_t_cast ((captured.stat.stat.releasable_size : Int) + segment.size)
          have hsz : (captured.res.add segment node.entry.key node).1.size
              = to_size_t ((captured.res.candidates_size : Int) + 1) := rfl
          unfold EvictionCandidates.size at h1
          unfold SIZE_T_RANGE at h2 h3 ⊢
          refine ⟨?_, ?_, ?_⟩
          · show to_size_t ((captured.stat.stat.releasable_count : Int) + 1)
              = (captured.res.add segment node.entry.key node).1.size
            rw [hsz, h1]
          · show to_size_t ((captured.stat.stat.releasable_count : Int) + 1)
              = (captured.res.add segment node.entry.key node).1.segments.length
                % 18446744073709551616
            rw [hlen]; omega
          · show to_size_t ((captured.stat.stat.releasable_size : Int) + segment.size)
              = (captured.res.add segment node.entry.key node).1.segments_size
                % 18446744073709551616
            rw [hsum]; omega
        · rw [if_neg hrel]
          simp only [FileCacheReserveStat.update, hrel, Bool.false_eq_true, if_false]
          exact hP)
    self.queue [] self { res := EvictionCandidates.empty, stat := Scenario.fresh_stat } []
    ⟨rfl, rfl, rfl⟩

theorem CacheMetadata.releasable_of_segment (metadata : CacheMetadata) (n : Node)
    (segment : FileSegmentMetadata)
    (h_segment : metadata.tryGetByOffset n.entry.key n.entry.offset = some segment) :
    metadata.releasable n = segment.releasable := by
  unfold CacheMetadata.releasable
  rw [h_segment]

/-- Where an eviction walk ends and what it classifies, from a cursor: the remaining nodes
split into those the walk went through and those it never reached, which stay as they
are. Either the walk ends normally at the last node it went through, which is handed to
the callback while the stop condition holds on the state the walk returns; then the
nodes classified are the eligible ones before that node. Or the stop condition never
holds at a node handed over; then all eligible nodes the walk went through are
classified, and the walk ends at the end of the queue or with a logic error at an
eligible node whose segment reports another size. The releasable classified nodes are
those registered, in order, and `stat` has counted the classified ones. -/
theorem LRUFileCachePriority.eviction_walk_stops (metadata : CacheMetadata)
    (stop_condition : LRUFileCachePriority → EvictionCandidates → FileCacheReserveStat → Bool)
    (rest : LRUQueue) :
    ∀ (visited : LRUQueue) (self : LRUFileCachePriority) (captured : EvictionWalk)
      (delivered : List Node),
      ∃ pre post kept classified : LRUQueue,
        rest = pre ++ post
        ∧ (LRUFileCachePriority.iterate_loop metadata
            (LRUFileCachePriority.iterateForEviction_func stop_condition) rest visited self
            captured delivered).delivered = delivered ++ pre.filter metadata.eligible
        ∧ (LRUFileCachePriority.iterate_loop metadata
            (LRUFileCachePriority.iterateForEviction_func stop_condition) rest visited self
            captured delivered).self.queue = visited ++ kept ++ post
        ∧ (LRUFileCachePriority.iterate_loop metadata
            (LRUFileCachePriority.iterateForEviction_func stop_condition) rest visited self
            captured delivered).captured.res.queue_entries_to_invalidate
          = captured.res.queue_entries_to_invalidate
            ++ (classified.filter metadata.releasable).map
                (fun n => ({ iterator := some n.id } : LRUIterator))
        ∧ (LRUFileCachePriority.iterate_loop metadata
            (LRUFileCachePriority.iterateForEviction_func stop_condition) rest visited self
            captured delivered).captured.stat = captured.stat.classify metadata classified
        ∧ (((LRUFileCachePriority.iterate_loop metadata
              (LRUFileCachePriority.iterateForEviction_func stop_condition) rest visited self
              captured delivered).result = .ok ()
            ∧ stop_condition
                (LRUFileCachePriority.iterate_loop metadata
                  (LRUFileCachePriority.iterateForEviction_func stop_condition) rest visited
                  self captured delivered).self
                (LRUFileCachePriority.iterate_loop metadata
                  (LRUFileCachePriority.iterateForEviction_func stop_condition) rest visited
                  self captured delivered).captured.res
                (LRUFileCachePriority.iterate_loop metadata
                  (LRUFileCachePriority.iterateForEviction_func stop_condition) rest visited
                  self captured delivered).captured.stat = true
            ∧ ∃ (pre' kept' : LRUQueue) (n : Node), pre = pre' ++ [n] ∧ kept = kept' ++ [n]
                ∧ metadata.eligible n = true ∧ classified = pre'.filter metadata.eligible)
          ∨ (classified = pre.filter metadata.eligible
            ∧ ((post = []
                ∧ (LRUFileCachePriority.iterate_loop metadata
                    (LRUFileCachePriority.iterateForEviction_func stop_condition) rest visited
                    self captured delivered).result = .ok ())
              ∨ ((LRUFileCachePriority.iterate_loop metadata
                    (LRUFileCachePriority.iterateForEviction_func stop_condition) rest visited
                    self captured delivered).result = .error .LOGICAL_ERROR
                ∧ ∃ (n : Node) (post' : LRUQueue), post = n :: post'
                    ∧ metadata.eligible n = true ∧ metadata.mismatch n = true)))) := by
  induction rest with
  | nil =>
    intro visited self captured delivered
    refine ⟨[], [], [], [], rfl, ?_, ?_, ?_, rfl, Or.inr ⟨rfl, Or.inl ⟨rfl, rfl⟩⟩⟩
    · simp [LRUFileCachePriority.iterate_loop]
    · simp [LRUFileCachePriority.iterate_loop]
    · simp [LRUFileCachePriority.iterate_loop]
  | cons n rest ih =>
    intro visited self captured delivered
    rcases CacheMetadata.visit_cases metadata n with hrem | ⟨h0, hev⟩ | ⟨hel, segment, hseg⟩
    · rw [LRUFileCachePriority.iterate_loop_of_removed metadata _ n rest visited self captured
        delivered hrem]
      have hne : ¬ (metadata.eligible n = true) := by
        rw [CacheMetadata.not_eligible_of_removed metadata n hrem]; exact Bool.false_ne_true
      obtain ⟨pre, post, kept, classified, h1, h2, h3, h4, h5, h6⟩ := ih visited
        (if n.entry.size ≠ 0 then
          (self.updateSize (to_int64 (to_size_t (-(n.entry.size : Int))))).updateElementsCount
            (-1)
        else self) captured delivered
      refine ⟨n :: pre, post, kept, classified, by rw [h1]; rfl, ?_, h3, h4, h5, ?_⟩
      · rw [h2, List.filter_cons_of_neg hne]
      · rcases h6 with ⟨hr, hs, pre', kept', m, hp, hk, he, hc⟩ | ⟨hc, hend⟩
        · exact Or.inl ⟨hr, hs, n :: pre', kept', m, by rw [hp]; rfl, hk, he, by
            rw [hc, List.filter_cons_of_neg hne]⟩
        · exact Or.inr ⟨by rw [hc, List.filter_cons_of_neg hne], hend⟩
    · rw [LRUFileCachePriority.iterate_loop_of_evicting metadata _ n rest visited self
        captured delivered h0 hev]
      have hne : ¬ (metadata.eligible n = true) := by
        rw [CacheMetadata.not_eligible_of_evicting metadata n hev]; exact Bool.false_ne_true
      obtain ⟨pre, post, kept, classified, h1, h2, h3, h4, h5, h6⟩ := ih (visited ++ [n]) self
        captured delivered
      refine ⟨n :: pre, post, n :: kept, classified, by rw [h1]; rfl, ?_, by rw [h3]; simp, h4,
        h5, ?_⟩
      · rw [h2, List.filter_cons_of_neg hne]
      · rcases h6 with ⟨hr, hs, pre', kept', m, hp, hk, he, hc⟩ | ⟨hc, hend⟩
        · exact Or.inl ⟨hr, hs, n :: pre', n :: kept', m, by rw [hp]; rfl, by rw [hk]; rfl, he,
            by rw [hc, List.filter_cons_of_neg hne]⟩
        · exact Or.inr ⟨by rw [hc, List.filter_cons_of_neg hne], hend⟩
    · have hrelm := CacheMetadata.releasable_of_segment metadata n segment hseg
      by_cases hmatch : segment.size = n.entry.size
      · rw [LRUFileCachePriority.iterate_loop_of_match metadata _ n rest visited self
          captured delivered segment hel hseg hmatch]
        by_cases hstop : stop_condition { self with queue := visited ++ n :: rest }
            captured.res captured.stat = true
        · have hf : LRUFileCachePriority.iterateForEviction_func stop_condition captured
              { self with queue := visited ++ n :: rest } n segment
              = { result := .BREAK, captured := captured, entry := n.entry } := by
            unfold LRUFileCachePriority.iterateForEviction_func
            rw [if_pos hstop]
          rw [hf]
          refine ⟨[n], rest, [n], [], rfl, ?_, ?_, ?_, rfl,
            Or.inl ⟨rfl, hstop, [], [], n, rfl, rfl, hel, rfl⟩⟩
          · simp [List.filter_cons, hel]
          · simp
          · simp
        · by_cases hrel : segment.releasable = true
          · have hf : LRUFileCachePriority.iterateForEviction_func stop_condition captured
                { self with queue := visited ++ n :: rest } n segment
                = { result := .CONTINUE
                    captured :=
                      { res := (captured.res.add segment n.entry.key n).1
                        stat := captured.stat.update segment.size true }
                    entry := { n.entry with evicting := true } } := by
              unfold LRUFileCachePriority.iterateForEviction_func
              rw [if_neg hstop]
              unfold LRUFileCachePriority.iterate_func
              rw [if_pos hrel]
              rfl
            rw [hf]
            have hrn : metadata.releasable n = true := by rw [hrelm, hrel]
            obtain ⟨pre, post, kept, classified, h1, h2, h3, h4, h5, h6⟩ := ih
              (visited ++ [{ n with entry := { n.entry with evicting := true } }]) self
              { res := (captured.res.add segment n.entry.key n).1
                stat := captured.stat.update segment.size true }
              (delivered ++ [n])
            refine ⟨n :: pre, post,
              { n with entry := { n.entry with evicting := true } } :: kept, n :: classified,
              by rw [h1]; rfl, ?_, ?_, ?_, ?_, ?_⟩
            · simp only []
              rw [h2, List.filter_cons_of_pos hel]; simp
            · simp only []
              rw [h3]; simp
            · simp only []
              rw [h4, List.filter_cons_of_pos hrn, List.map_cons]
              simp [EvictionCandidates.add]
            · simp only []
              rw [h5]
              unfold FileCacheReserveStat.classify
              rw [List.foldl_cons, hrn, hmatch]
            · rcases h6 with ⟨hr, hs, pre', kept', m, hp, hk, he, hc⟩ | ⟨hc, hend⟩
              · exact Or.inl ⟨hr, hs, n :: pre', _ :: kept', m, by rw [hp]; rfl,
                  by rw [hk]; rfl, he,
                  by rw [hc, List.filter_cons_of_pos hel]⟩
              · exact Or.inr ⟨by rw [hc, List.filter_cons_of_pos hel], hend⟩
          · have hf : LRUFileCachePriority.iterateForEviction_func stop_condition captured
                { self with queue := visited ++ n :: rest } n segment
                = { result := .CONTINUE
                    captured :=
                      { captured with stat := captured.stat.update segment.size false }
                    entry := n.entry } := by
              unfold LRUFileCachePriority.iterateForEviction_func
              rw [if_neg hstop]
              unfold LRUFileCachePriority.iterate_func
              rw [if_neg hrel]
            rw [hf]
            have hrn : metadata.releasable n = false := by
              rw [hrelm]; exact Bool.eq_false_iff.mpr hrel
            obtain ⟨pre, post, kept, classified, h1, h2, h3, h4, h5, h6⟩ := ih
              (visited ++ [n]) self
              { captured with stat := captured.stat.update segment.size false }
              (delivered ++ [n])
            refine ⟨n :: pre, post, n :: kept, n :: classified, by rw [h1]; rfl, ?_, ?_, ?_,
              ?_, ?_⟩
            · simp only []
              rw [h2, List.filter_cons_of_pos hel]; simp
            · simp only []
              rw [h3]; simp
            · simp only []
              rw [h4, List.filter_cons_of_neg (by rw [hrn]; exact Bool.false_ne_true)]
            · simp only []
              rw [h5]
              unfold FileCacheReserveStat.classify
              rw [List.foldl_cons, hrn, hmatch]
            · rcases h6 with ⟨hr, hs, pre', kept', m, hp, hk, he, hc⟩ | ⟨hc, hend⟩
              · exact Or.inl ⟨hr, hs, n :: pre', n :: kept', m, by rw [hp]; rfl,
                  by rw [hk]; rfl, he,
                  by rw [hc, List.filter_cons_of_pos hel]⟩
              · exact Or.inr ⟨by rw [hc, List.filter_cons_of_pos hel], hend⟩
      · have hmm : metadata.mismatch n = true := by
          rw [CacheMetadata.mismatch_of_segment metadata n segment hseg]
          simp [hmatch]
        rw [LRUFileCachePriority.iterate_loop_of_mismatch metadata _ n rest visited self
          captured delivered hel hmm]
        refine ⟨[], n :: rest, [], [], rfl, ?_, ?_, ?_, rfl,
          Or.inr ⟨rfl, Or.inr ⟨rfl, n, rest, rfl, hel, hmm⟩⟩⟩
        · simp
        · simp
        · simp

/-- C28 (counterexample): scenario 1, `max_size = 100`, A(40), B(40), both releasable, a
reservation of 30 bytes. The walk hands A and then B to the callback; at B the stop
condition holds, so B, which is releasable, is neither registered nor counted on either
side of `stat`. -/
theorem LRUFileCachePriority.iterateForEviction_leaves_last_unclassified :
    ((Scenario.basic false).iterateForEviction (Scenario.metadata 40 0) EvictionCandidates.empty
        Scenario.fresh_stat (LRUFileCachePriority.can_fit 30)).delivered
      = [{ id := 0, entry := Scenario.entry 1 40 }, { id := 1, entry := Scenario.entry 2 40 }]
    ∧ (Scenario.metadata 40 0).tryGetByOffset 2 0
      = some { key := 2, offset := 0, size := 40, releasable := true }
    ∧ ((Scenario.basic false).iterateForEviction (Scenario.metadata 40 0)
        EvictionCandidates.empty Scenario.fresh_stat
        (LRUFileCachePriority.can_fit 30)).captured.res.segments
      = [{ key := 1, offset := 0, size := 40, releasable := true }]
    ∧ ((Scenario.basic false).iterateForEviction (Scenario.metadata 40 0)
        EvictionCandidates.empty Scenario.fresh_stat
        (LRUFileCachePriority.can_fit 30)).captured.stat
      = { stat := { releasable_size := 40, releasable_count := 1, non_releasable_size := 0
                    non_releasable_count := 0 } } := by
  decide

/-- C28 (amended): in every eviction walk the callback first evaluates the stop condition.
(1) If it holds, the callback returns `BREAK` and the segment is left unclassified:
candidates, `stat` and the entry are as they were. (2) Otherwise a releasable segment is
registered (one more segment held, `size()` one more, the entry marked evicting) and adds
its size to `stat.releasable_size` and 1 to `stat.releasable_count`, the non-releasable
side being kept; (3) and a segment that is not releasable leaves the candidates and the
entry as they are and adds its size and 1 to the non-releasable side, the releasable side
being kept. (4) Hence, from a zeroed `stat` and empty candidates, after the walk and at the
return of the reservation overload `stat.releasable_count` is `size()` of the candidates
and the number of segments they hold, and `stat.releasable_size` is the total of their
sizes (all in `size_t` arithmetic). (5) The segment at which the stop condition holds ends
the walk: for all candidates and `stat` the walk starts with, the queue splits into the
nodes the walk went through and the nodes it never reached, which are not handed over
and stay linked as they are; either the walk ends at the last node it went through, which
was handed over while the stop condition holds on the state the walk returns, and
exactly the eligible nodes before it are classified; or the stop condition held at no
node handed over, all eligible nodes gone through are classified, and the walk ends at
the end of the queue or with the logic error of a size mismatch. The registered handles
are those of the releasable classified nodes, in order, and `stat` has counted exactly
the classified nodes, each on its side. -/
theorem LRUFileCachePriority.iterateForEviction_classifies (metadata : CacheMetadata)
    (stop_condition : LRUFileCachePriority → EvictionCandidates → FileCacheReserveStat → Bool)
    (self : LRUFileCachePriority) (size : Nat)
    (reached_size_limit reached_elements_limit : Bool) :
    (∀ (captured : EvictionWalk) (here : LRUFileCachePriority) (node : Node)
        (segment : FileSegmentMetadata),
        stop_condition here captured.res captured.stat = true →
        LRUFileCachePriority.iterateForEviction_func stop_condition captured here node segment
          = { result := .BREAK, captured := captured, entry := node.entry })
    ∧ (∀ (captured : EvictionWalk) (here : LRUFileCachePriority) (node : Node)
        (segment : FileSegmentMetadata),
        stop_condition here captured.res captured.stat = false → segment.releasable = true →
        (LRUFileCachePriority.iterateForEviction_func stop_condition captured here node
            segment).result = .CONTINUE
        ∧ (LRUFileCachePriority.iterateForEviction_func stop_condition captured here node
            segment).entry = { node.entry with evicting := true }
        ∧ (LRUFileCachePriority.iterateForEviction_func stop_condition captured here node
            segment).captured.res.segments.length = captured.res.segments.length + 1
        ∧ (LRUFileCachePriority.iterateForEviction_func stop_condition captured here node
            segment).captured.res.segments_size = captured.res.segments_size + segment.size
        ∧ (LRUFileCachePriority.iterateForEviction_func stop_condition captured here node
            segment).captured.res.size = (captured.res.size + 1) % SIZE_T_RANGE
        ∧ (LRUFileCachePriority.iterateForEviction_func stop_condition captured here node
            segment).captured.res.queue_entries_to_invalidate
          = captured.res.queue_entries_to_invalidate ++ [{ iterator := some node.id }]
        ∧ (LRUFileCachePriority.iterateForEviction_func stop_condition captured here node
            segment).captured.stat.stat
          = { captured.stat.stat with
              releasable_size := (captured.stat.stat.releasable_size + segment.size)
                % SIZE_T_RANGE
              releasable_count := (captured.stat.stat.releasable_count + 1) % SIZE_T_RANGE })
    ∧ (∀ (captured : EvictionWalk) (here : LRUFileCachePriority) (node : Node)
        (segment : FileSegmentMetadata),
        stop_condition here captured.res captured.stat = false → segment.releasable = false →
        (LRUFileCachePriority.iterateForEviction_func stop_condition captured here node
            segment).result = .CONTINUE
        ∧ (LRUFileCachePriority.iterateForEviction_func stop_condition captured here node
            segment).entry = node.entry
        ∧ (LRUFileCachePriority.iterateForEviction_func stop_condition captured here node
            segment).captured.res = captured.res
        ∧ (LRUFileCachePriority.iterateForEviction_func stop_condition captured here node
            segment).captured.stat.stat
          = { captured.stat.stat with
              non_releasable_size := (captured.stat.stat.non_releasable_size + segment.size)
                % SIZE_T_RANGE
              non_releasable_count := (captured.stat.stat.non_releasable_count + 1)
                % SIZE_T_RANGE })
    ∧ ((self.iterateForEviction metadata EvictionCandidates.empty Scenario.fresh_stat
          stop_condition).captured.stat.stat.releasable_count
        = (self.iterateForEviction metadata EvictionCandidates.empty Scenario.fresh_stat
            stop_condition).captured.res.size
      ∧ (self.iterateForEviction metadata EvictionCandidates.empty Scenario.fresh_stat
          stop_condition).captured.stat.stat.releasable_count
        = (self.iterateForEviction metadata EvictionCandidates.empty Scenario.fresh_stat
            stop_condition).captured.res.segments.length % SIZE_T_RANGE
      ∧ (self.iterateForEviction metadata EvictionCandidates.empty Scenario.fresh_stat
          stop_condition).captured.stat.stat.releasable_size
        = (self.iterateForEviction metadata EvictionCandidates.empty Scenario.fresh_stat
            stop_condition).captured.res.segments_size % SIZE_T_RANGE)
    ∧ ((self.collectCandidatesForEviction metadata size Scenario.fresh_stat
          EvictionCandidates.empty reached_size_limit
          reached_elements_limit).stat.stat.releasable_count
        = (self.collectCandidatesForEviction metadata size Scenario.fresh_stat
            EvictionCandidates.empty reached_size_limit reached_elements_limit).res.size
      ∧ (self.collectCandidatesForEviction metadata size Scenario.fresh_stat
          EvictionCandidates.empty reached_size_limit
          reached_elements_limit).stat.stat.releasable_count
        = (self.collectCandidatesForEviction metadata size Scenario.fresh_stat
            EvictionCandidates.empty reached_size_limit
            reached_elements_limit).res.segments.length % SIZE_T_RANGE
      ∧ (self.collectCandidatesForEviction metadata size Scenario.fresh_stat
          EvictionCandidates.empty reached_size_limit
          reached_elements_limit).stat.stat.releasable_size
        = (self.collectCandidatesForEviction metadata size Scenario.fresh_stat
            EvictionCandidates.empty reached_size_limit
            reached_elements_limit).res.segments_size % SIZE_T_RANGE)
    ∧ (∀ (res : EvictionCandidates) (stat : FileCacheReserveStat),
        ∃ pre post kept classified : LRUQueue,
          self.queue = pre ++ post
          ∧ (self.iterateForEviction metadata res stat stop_condition).delivered
            = pre.filter metadata.eligible
          ∧ (self.iterateForEviction metadata res stat stop_condition).self.queue = kept ++ post
          ∧ (self.iterateForEviction metadata res stat
              stop_condition).captured.res.queue_entries_to_invalidate
            = res.queue_entries_to_invalidate
              ++ (classified.filter metadata.releasable).map
                  (fun n => ({ iterator := some n.id } : LRUIterator))
          ∧ (self.iterateForEviction metadata res stat stop_condition).captured.stat
            = stat.classify metadata classified
          ∧ (((self.iterateForEviction metadata res stat stop_condition).result = .ok ()
              ∧ stop_condition
                  (self.iterateForEviction metadata res stat stop_condition).self
                  (self.iterateForEviction metadata res stat stop_condition).captured.res
                  (self.iterateForEviction metadata res stat stop_condition).captured.stat
                = true
              ∧ ∃ (pre' kept' : LRUQueue) (n : Node), pre = pre' ++ [n] ∧ kept = kept' ++ [n]
                  ∧ metadata.eligible n = true ∧ classified = pre'.filter metadata.eligible)
            ∨ (classified = pre.filter metadata.eligible
              ∧ ((post = []
                  ∧ (self.iterateForEviction metadata res stat stop_condition).result = .ok ())
                ∨ ((self.iterateForEviction metadata res stat stop_condition).result
                      = .error .LOGICAL_ERROR
                  ∧ ∃ (n : Node) (post' : LRUQueue), post = n :: post'
                      ∧ metadata.eligible n = true ∧ metadata.mismatch n = true))))) := by
  refine ⟨?_, ?_, ?_, LRUFileCachePriority.eviction_walk_stat metadata stop_condition self, ?_,
    ?_⟩
  · intro captured here node segment hstop
    unfold LRUFileCachePriority.iterateForEviction_func
    rw [if_pos hstop]
  · intro captured here node segment hstop hrel
    have hf : LRUFileCachePriority.iterateForEviction_func stop_condition captured here node
        segment
        = { result := .CONTINUE
            captured :=
              { res := (captured.res.add segment node.entry.key node).1
                stat := captured.stat.update segment.size true }
            entry := { node.entry with evicting := true } } := by
      unfold LRUFileCachePriority.iterateForEviction_func
      rw [hstop]
      unfold LRUFileCachePriority.iterate_func
      rw [if_neg Bool.false_ne_true, if_pos hrel]
      rfl
    rw [hf]
    have hc := to_size_t_cast ((captured.res.candidates_size : Int) + 1)
    have h1 := to_size_t_cast ((captured.stat.stat.releasable_size : Int) + segment.size)
    have h2 := to_size_t_cast ((captured.stat.stat.releasable_count : Int) + 1)
    refine ⟨rfl, rfl, EvictionCandidates.segments_add _ _ _ _,
      EvictionCandidates.segments_size_add _ _ _ _, ?_, rfl, ?_⟩
    · show to_size_t ((captured.res.candidates_size : Int) + 1) = _
      unfold EvictionCandidates.size SIZE_T_RANGE
      omega
    · have e1 : to_size_t ((captured.stat.stat.releasable_size : Int) + segment.size)
          = (captured.stat.stat.releasable_size + segment.size) % SIZE_T_RANGE := by
        unfold SIZE_T_RANGE; omega
      have e2 : to_size_t ((captured.stat.stat.releasable_count : Int) + 1)
          = (captured.stat.stat.releasable_count + 1) % SIZE_T_RANGE := by
        unfold SIZE_T_RANGE; omega
      simp only [FileCacheReserveStat.update, if_true, e1, e2]
  · intro captured here node segment hstop hrel
    have hf : LRUFileCachePriority.iterateForEviction_func stop_condition captured here node
        segment
        = { result := .CONTINUE
            captured := { captured with stat := captured.stat.update segment.size false }
            entry := node.entry } := by
      unfold LRUFileCachePriority.iterateForEviction_func
      rw [hstop]
      unfold LRUFileCachePriority.iterate_func
      rw [if_neg Bool.false_ne_true, hrel, if_neg Bool.false_ne_true]
    rw [hf]
    have h1 := to_size_t_cast ((captured.stat.stat.non_releasable_size : Int) + segment.size)
    have h2 := to_size_t_cast ((captured.stat.stat.non_releasable_count : Int) + 1)
    have e1 : to_size_t ((captured.stat.stat.non_releasable_size : Int) + segment.size)
        = (captured.stat.stat.non_releasable_size + segment.size) % SIZE_T_RANGE := by
      unfold SIZE_T_RANGE; omega
    have e2 : to_size_t ((captured.stat.stat.non_releasable_count : Int) + 1)
        = (captured.stat.stat.non_releasable_count + 1) % SIZE_T_RANGE := by
      unfold SIZE_T_RANGE; omega
    refine ⟨rfl, rfl, rfl, ?_⟩
    simp only [FileCacheReserveStat.update, Bool.false_eq_true, if_false, e1, e2]
  · by_cases hfit : (self.canFit size 1 0 0 (some reached_size_limit)
        (some reached_elements_limit)).fits = true
    · have hres : (self.collectCandidatesForEviction metadata size Scenario.fresh_stat
          EvictionCandidates.empty reached_size_limit reached_elements_limit).res
          = EvictionCandidates.empty := by
        unfold LRUFileCachePriority.collectCandidatesForEviction
        simp only [hfit, if_true]
      have hstat : (self.collectCandidatesForEviction metadata size Scenario.fresh_stat
          EvictionCandidates.empty reached_size_limit reached_elements_limit).stat
          = Scenario.fresh_stat := by
        unfold LRUFileCachePriority.collectCandidatesForEviction
        simp only [hfit, if_true]
      rw [hres, hstat]
      exact ⟨rfl, rfl, rfl⟩
    · have hres : (self.collectCandidatesForEviction metadata size Scenario.fresh_stat
          EvictionCandidates.empty reached_size_limit reached_elements_limit).res
          = (self.iterateForEviction metadata EvictionCandidates.empty Scenario.fresh_stat
              (LRUFileCachePriority.can_fit size)).captured.res := by
        unfold LRUFileCachePriority.collectCandidatesForEviction
        simp only [hfit, Bool.false_eq_true, if_false]
      have hstat : (self.collectCandidatesForEviction metadata size Scenario.fresh_stat
          EvictionCandidates.empty reached_size_limit reached_elements_limit).stat
          = (self.iterateForEviction metadata EvictionCandidates.empty Scenario.fresh_stat
              (LRUFileCachePriority.can_fit size)).captured.stat := by
        unfold LRUFileCachePriority.collectCandidatesForEviction
        simp only [hfit, Bool.false_eq_true, if_false]
      rw [hres, hstat]
      exact LRUFileCachePriority.eviction_walk_stat metadata (LRUFileCachePriority.can_fit size)
        self
  · intro res stat
    unfold LRUFileCachePriority.iterateForEviction LRUFileCachePriority.iterate
    obtain ⟨pre, post, kept, classified, h1, h2, h3, h4, h5, h6⟩ :=
      LRUFileCachePriority.eviction_walk_stops metadata stop_condition self.queue [] self
        { res := res, stat := stat } []
    rw [List.nil_append] at h2
    rw [List.nil_append] at h3
    exact ⟨pre, post, kept, classified, h1, h2, h3, h4, h5, h6⟩

/-- C28 (instance): `max_size = 150`, A(40), B(40), C(40), all releasable, a reservation
of 70 bytes. The walk registers A, hands B over while the request fits and
ends there: C is not handed over, and `stat` counts A alone. -/
theorem LRUFileCachePriority.iterateForEviction_classifies_witness :
    ((run false (construct 150 0 none)
        [.add (Scenario.entry 1 40), .add (Scenario.entry 2 40),
          .add (Scenario.entry 3 40)]).iterateForEviction (Scenario.metadata 40 0)
        EvictionCandidates.empty Scenario.fresh_stat
        (LRUFileCachePriority.can_fit 70)).delivered
      = [{ id := 0, entry := Scenario.entry 1 40 }, { id := 1, entry := Scenario.entry 2 40 }]
    ∧ ((run false (construct 150 0 none)
        [.add (Scenario.entry 1 40), .add (Scenario.entry 2 40),
          .add (Scenario.entry 3 40)]).iterateForEviction (Scenario.metadata 40 0)
        EvictionCandidates.empty Scenario.fresh_stat
        (LRUFileCachePriority.can_fit 70)).captured.stat
      = { stat := { releasable_size := 40, releasable_count := 1, non_releasable_size := 0
                    non_releasable_count := 0 } }
    ∧ ((run false (construct 150 0 none)
        [.add (Scenario.entry 1 40), .add (Scenario.entry 2 40),
          .add (Scenario.entry 3 40)]).iterateForEviction (Scenario.metadata 40 0)
        EvictionCandidates.empty Scenario.fresh_stat
        (LRUFileCachePriority.can_fit 70)).captured.stat.stat.releasable_count
      = ((run false (construct 150 0 none)
        [.add (Scenario.entry 1 40), .add (Scenario.entry 2 40),
          .add (Scenario.entry 3 40)]).iterateForEviction (Scenario.metadata 40 0)
        EvictionCandidates.empty Scenario.fresh_stat
        (LRUFileCachePriority.can_fit 70)).captured.res.size :=
  ⟨by decide, by decide,
    (LRUFileCachePriority.iterateForEviction_classifies (Scenario.metadata 40 0)
      (LRUFileCachePriority.can_fit 70)
      (run false (construct 150 0 none)
        [.add (Scenario.entry 1 40), .add (Scenario.entry 2 40), .add (Scenario.entry 3 40)])
      70 false false).2.2.2.1.1⟩

/-! ## The trimming overload and the collected targets -/

/-- C29 (evaluation of the code): `max_size = 100`, A(50), B(50), both releasable; trimming
to 50 bytes and 1 element with up to 5 candidates. Once A is registered, `current_size`
minus the registered size is 50 and `current_elements_num` minus the registered number is
1, so both targets are met by what is collected; the stop condition reads the counters
alone, which stay 100 and 2, and B is registered too. -/
theorem LRUFileCachePriority.collectCandidatesForEviction_trim_overshoots :
    (Scenario.pair50 false).collectCandidatesForEviction_trim (Scenario.metadata 50 0) 50 1 5
        Scenario.fresh_stat
      = { result := .ok
            { candidates :=
                [(1, { candidates := [{ key := 1, offset := 0, size := 50, releasable := true }] }),
                 (2, { candidates := [{ key := 2, offset := 0, size := 50, releasable := true }] })]
              candidates_size := 2
              queue_entries_to_invalidate := [{ iterator := some 0 }, { iterator := some 1 }] }
          self :=
            { max_size := 100, max_elements := 0
              state := { current_size := 100, current_elements_num := 2 }
              queue := [{ id := 0, entry := { Scenario.entry 1 50 with evicting := true } },
                        { id := 1, entry := { Scenario.entry 2 50 with evicting := true } }]
              next_id := 2 }
          stat := { stat := { releasable_size := 100, releasable_count := 2
                              non_releasable_size := 0, non_releasable_count := 0 } } } := by
  decide

/-! ## The candidates of a reservation -/

theorem to_size_t_congr (a b : Int)
    (h : a % 18446744073709551616 = b % 18446744073709551616) : to_size_t a = to_size_t b := by
  unfold to_size_t
  rw [h]

theorem LRUFileCachePriority.after_passing_nil (self : LRUFileCachePriority)
    (metadata : CacheMetadata)
    (h_size : self.state.current_size < SIZE_T_RANGE)
    (h_elements : self.state.current_elements_num < SIZE_T_RANGE) :
    self.after_passing metadata [] = self := by
  unfold LRUFileCachePriority.after_passing
  have h1 := to_size_t_cast ((self.state.current_size : Int) - (0 : Nat))
  have h2 := to_size_t_cast ((self.state.current_elements_num : Int) - (0 : Nat))
  unfold SIZE_T_RANGE at h_size h_elements
  have e1 : to_size_t ((self.state.current_size : Int) - (0 : Nat)) = self.state.current_size := by
    omega
  have e2 : to_size_t ((self.state.current_elements_num : Int) - (0 : Nat))
      = self.state.current_elements_num := by omega
  have l1 : live_size (List.filter (fun n => !metadata.stays n) ([] : LRUQueue)) = 0 := rfl
  have l2 : live_count (List.filter (fun n => !metadata.stays n) ([] : LRUQueue)) = 0 := rfl
  rw [l1, l2, e1, e2]

/-- Passing a node that stays linked, or that has size 0, leaves the counters. -/
theorem LRUFileCachePriority.after_passing_cons_of_kept (self : LRUFileCachePriority)
    (metadata : CacheMetadata) (n : Node) (passed : LRUQueue)
    (h : metadata.stays n = true ∨ n.entry.size = 0) :
    self.after_passing metadata (n :: passed) = self.after_passing metadata passed := by
  unfold LRUFileCachePriority.after_passing
  rcases h with h | h
  · rw [List.filter_cons_of_neg (by simp [h])]
  · cases hst : metadata.stays n with
    | true => rw [List.filter_cons_of_neg (by simp [hst])]
    | false =>
      rw [List.filter_cons_of_pos (by simp [hst]), live_size_cons, live_count_cons]
      simp only [h, ne_eq, not_true_eq_false, if_false, Nat.zero_add]

/-- Passing a node that the walk unlinks with `size > 0` takes its size and 1 off. -/
theorem LRUFileCachePriority.after_passing_cons_of_unlinked (self : LRUFileCachePriority)
    (metadata : CacheMetadata) (n : Node) (passed : LRUQueue)
    (h_stays : metadata.stays n = false) (h_size : n.entry.size ≠ 0) :
    ((self.updateSize (to_int64 (to_size_t (-(n.entry.size : Int))))).updateElementsCount
        (-1)).after_passing metadata passed
      = self.after_passing metadata (n :: passed) := by
  unfold LRUFileCachePriority.after_passing
  rw [List.filter_cons_of_pos (by simp [h_stays]), live_size_cons, live_count_cons]
  simp only [h_size, ne_eq, not_false_eq_true, if_true, updateSize, updateElementsCount]
  have hsub := to_size_t_sub_to_int64 self.state.current_size n.entry.size
  have hcnt := to_size_t_cast ((self.state.current_elements_num : Int) + -1)
  have e1 : to_size_t
      (((to_size_t ((self.state.current_size : Int)
          + to_int64 (to_size_t (-(n.entry.size : Int)))) : Nat) : Int)
        - (live_size (List.filter (fun n => !metadata.stays n) passed) : Nat))
      = to_size_t ((self.state.current_size : Int)
          - ((n.entry.size + live_size (List.filter (fun n => !metadata.stays n) passed) : Nat)
              : Int)) := by
    apply to_size_t_congr
    omega
  have e2 : to_size_t
      (((to_size_t ((self.state.current_elements_num : Int) + -1) : Nat) : Int)
        - (live_count (List.filter (fun n => !metadata.stays n) passed) : Nat))
      = to_size_t ((self.state.current_elements_num : Int)
          - ((1 + live_count (List.filter (fun n => !metadata.stays n) passed) : Nat) : Int)) := by
    apply to_size_t_congr
    omega
  rw [e1, e2]

/-- The flag `canFit` returns reads the limits and the counters only. -/
theorem LRUFileCachePriority.canFit_fits_queue (self : LRUFileCachePriority) (queue : LRUQueue)
    (size elements released_size released_elements : Nat) :
    ({ self with queue := queue }.canFit size elements released_size released_elements none
        none).fits
      = (self.canFit size elements released_size released_elements none none).fits := rfl

theorem CacheMetadata.collectible_of_not_eligible (metadata : CacheMetadata) (n : Node)
    (h : metadata.eligible n = false) : ¬ (metadata.collectible n = true) := by
  unfold CacheMetadata.collectible
  simp [h]

theorem CacheMetadata.collectible_of_segment (metadata : CacheMetadata) (n : Node)
    (segment : FileSegmentMetadata) (h_eligible : metadata.eligible n = true)
    (h_segment : metadata.tryGetByOffset n.entry.key n.entry.offset = some segment) :
    metadata.collectible n = segment.releasable := by
  unfold CacheMetadata.collectible CacheMetadata.releasable
  simp [h_eligible, h_segment]

/-- The shape of the walk of a reservation from a cursor: it registers, in queue order, the
first `k` of the remaining nodes that are handed over with a releasable segment; the
limits stay; when a node is registered, the request does not fit the counters of that
moment with what the earlier registered nodes release; and the counters stay when every
remaining node with `size > 0` that is not evicting has its key lock and its segment. -/
theorem LRUFileCachePriority.reservation_walk_shape (metadata : CacheMetadata) (size : Nat)
    (rest : LRUQueue) :
    ∀ (visited : LRUQueue) (self : LRUFileCachePriority) (captured : EvictionWalk)
      (delivered : List Node),
      captured.stat.stat.releasable_size < SIZE_T_RANGE →
      captured.stat.stat.releasable_count < SIZE_T_RANGE →
      self.state.current_size < SIZE_T_RANGE →
      self.state.current_elements_num < SIZE_T_RANGE →
      ∃ k : Nat,
        (LRUFileCachePriority.iterate_loop metadata
            (LRUFileCachePriority.iterateForEviction_func (LRUFileCachePriority.can_fit size))
            rest visited self captured delivered).captured.res.queue_entries_to_invalidate
          = captured.res.queue_entries_to_invalidate
            ++ ((rest.filter metadata.collectible).take k).map
                (fun n => ({ iterator := some n.id } : LRUIterator))
        ∧ (LRUFileCachePriority.iterate_loop metadata
            (LRUFileCachePriority.iterateForEviction_func (LRUFileCachePriority.can_fit size))
            rest visited self captured delivered).self.max_size = self.max_size
        ∧ (LRUFileCachePriority.iterate_loop metadata
            (LRUFileCachePriority.iterateForEviction_func (LRUFileCachePriority.can_fit size))
            rest visited self captured delivered).self.max_elements = self.max_elements
        ∧ (∀ (init : LRUQueue) (last : Node),
            (rest.filter metadata.collectible).take k = init ++ [last] →
            ∃ pre post : LRUQueue, rest = pre ++ last :: post
              ∧ pre.filter metadata.collectible = init
              ∧ ((self.after_passing metadata pre).canFit size 1
                  ((captured.stat.stat.releasable_size
                    + (init.map (fun n => n.entry.size)).sum) % SIZE_T_RANGE)
                  ((captured.stat.stat.releasable_count + init.length) % SIZE_T_RANGE)
                  none none).fits = false)
        ∧ ((∀ n ∈ rest, n.entry.size ≠ 0 → n.entry.evicting = false →
              metadata.tryLock n.entry.key = true
              ∧ (metadata.tryGetByOffset n.entry.key n.entry.offset).isSome = true) →
            (LRUFileCachePriority.iterate_loop metadata
              (LRUFileCachePriority.iterateForEviction_func (LRUFileCachePriority.can_fit size))
              rest visited self captured delivered).self.state = self.state) := by
  induction rest with
  | nil =>
    intro visited self captured delivered _ _ _ _
    refine ⟨0, by simp [LRUFileCachePriority.iterate_loop], rfl, rfl, ?_, fun _ => rfl⟩
    intro init last h
    simp at h
  | cons n rest ih =>
    intro visited self captured delivered hrs hrc hcs hen
    rcases CacheMetadata.visit_cases metadata n with hrem | ⟨h0, hev⟩ | ⟨hel, segment, hseg⟩
    · have hG := CacheMetadata.collectible_of_not_eligible metadata n
        (CacheMetadata.not_eligible_of_removed metadata n hrem)
      have hst := CacheMetadata.stays_of_removed metadata n hrem
      rw [LRUFileCachePriority.iterate_loop_of_removed metadata _ n rest visited self captured
        delivered hrem]
      by_cases hz : n.entry.size = 0
      · rw [if_neg (fun h => h hz)]
        obtain ⟨k, hh, hms, hme, hmin, hstate⟩ := ih visited self captured delivered hrs hrc
          hcs hen
        refine ⟨k, by rw [hh, List.filter_cons_of_neg hG], hms, hme, ?_, ?_⟩
        · intro init last htake
          rw [List.filter_cons_of_neg hG] at htake
          obtain ⟨pre, post, hsplit, hpre, hfit⟩ := hmin init last htake
          refine ⟨n :: pre, post, by rw [hsplit]; rfl, by
            rw [List.filter_cons_of_neg hG, hpre], ?_⟩
          rw [LRUFileCachePriority.after_passing_cons_of_kept self metadata n pre (Or.inr hz)]
          exact hfit
        · intro H
          exact hstate (fun m hm => H m (List.mem_cons_of_mem _ hm))
      · rw [if_pos hz]
        have hsub := to_size_t_sub_to_int64 self.state.current_size n.entry.size
        have hcnt := to_size_t_cast ((self.state.current_elements_num : Int) + -1)
        obtain ⟨k, hh, hms, hme, hmin, hstate⟩ := ih visited
          ((self.updateSize (to_int64 (to_size_t (-(n.entry.size : Int))))).updateElementsCount
            (-1)) captured delivered hrs hrc
          (by simp only [updateSize, updateElementsCount]; unfold SIZE_T_RANGE; omega)
          (by simp only [updateSize, updateElementsCount]; unfold SIZE_T_RANGE; omega)
        refine ⟨k, by rw [hh, List.filter_cons_of_neg hG], hms, hme, ?_, ?_⟩
        · intro init last htake
          rw [List.filter_cons_of_neg hG] at htake
          obtain ⟨pre, post, hsplit, hpre, hfit⟩ := hmin init last htake
          refine ⟨n :: pre, post, by rw [hsplit]; rfl, by
            rw [List.filter_cons_of_neg hG, hpre], ?_⟩
          rw [← LRUFileCachePriority.after_passing_cons_of_unlinked self metadata n pre hst hz]
          exact hfit
        · intro H
          exfalso
          rcases hrem with h | ⟨hev, hbad⟩
          · exact hz h
          · obtain ⟨hl, hs⟩ := H n (List.mem_cons_self _ _) hz hev
            rcases hbad with hbad | hbad
            · rw [hl] at hbad; cases hbad
            · rw [hbad] at hs; cases hs
    · have hG := CacheMetadata.collectible_of_not_eligible metadata n
        (CacheMetadata.not_eligible_of_evicting metadata n hev)
      have hst := CacheMetadata.stays_of_evicting metadata n h0 hev
      rw [LRUFileCachePriority.iterate_loop_of_evicting metadata _ n rest visited self
        captured delivered h0 hev]
      obtain ⟨k, hh, hms, hme, hmin, hstate⟩ := ih (visited ++ [n]) self captured delivered
        hrs hrc hcs hen
      refine ⟨k, by rw [hh, List.filter_cons_of_neg hG], hms, hme, ?_, ?_⟩
      · intro init last htake
        rw [List.filter_cons_of_neg hG] at htake
        obtain ⟨pre, post, hsplit, hpre, hfit⟩ := hmin init last htake
        refine ⟨n :: pre, post, by rw [hsplit]; rfl, by
          rw [List.filter_cons_of_neg hG, hpre], ?_⟩
        rw [LRUFileCachePriority.after_passing_cons_of_kept self metadata n pre (Or.inl hst)]
        exact hfit
      · intro H
        exact hstate (fun m hm => H m (List.mem_cons_of_mem _ hm))
    · have hst := CacheMetadata.stays_of_eligible metadata n hel
      have hcol := CacheMetadata.collectible_of_segment metadata n segment hel hseg
      by_cases hmatch : segment.size = n.entry.size
      · rw [LRUFileCachePriority.iterate_loop_of_match metadata _ n rest visited self
          captured delivered segment hel hseg hmatch]
        by_cases hstop : LRUFileCachePriority.can_fit size
            { self with queue := visited ++ n :: rest } captured.res captured.stat = true
        · have hf : LRUFileCachePriority.iterateForEviction_func
              (LRUFileCachePriority.can_fit size) captured
              { self with queue := visited ++ n :: rest } n segment
              = { result := .BREAK, captured := captured, entry := n.entry } := by
            unfold LRUFileCachePriority.iterateForEviction_func
            rw [if_pos hstop]
          rw [hf]
          refine ⟨0, by simp, rfl, rfl, ?_, fun _ => rfl⟩
          intro init last h
          simp at h
        · by_cases hrel : segment.releasable = true
          · have hG : metadata.collectible n = true := by rw [hcol, hrel]
            have hf : LRUFileCachePriority.iterateForEviction_func
                (LRUFileCachePriority.can_fit size) captured
                { self with queue := visited ++ n :: rest } n segment
                = { result := .CONTINUE
                    captured :=
                      { res := (captured.res.add segment n.entry.key n).1
                        stat := captured.stat.update segment.size true }
                    entry := { n.entry with evicting := true } } := by
              unfold LRUFileCachePriority.iterateForEviction_func
              rw [if_neg hstop]
              unfold LRUFileCachePriority.iterate_func
              rw [if_pos hrel]
              rfl
            rw [hf]
            have h1 := to_size_t_cast
              ((captured.stat.stat.releasable_size : Int) + segment.size)
            have h2 := to_size_t_cast ((captured.stat.stat.releasable_count : Int) + 1)
            have e1 : (captured.stat.update segment.size true).stat.releasable_size
                = to_size_t ((captured.stat.stat.releasable_size : Int) + segment.size) := rfl
            have e2 : (captured.stat.update segment.size true).stat.releasable_count
                = to_size_t ((captured.stat.stat.releasable_count : Int) + 1) := rfl
            obtain ⟨k, hh, hms, hme, hmin, hstate⟩ := ih
              (visited ++ [{ n with entry := { n.entry with evicting := true } }]) self
              { res := (captured.res.add segment n.entry.key n).1
                stat := captured.stat.update segment.size true }
              (delivered ++ [n])
              (by show (captured.stat.update segment.size true).stat.releasable_size < _
                  rw [e1]; unfold SIZE_T_RANGE; omega)
              (by show (captured.stat.update segment.size true).stat.releasable_count < _
                  rw [e2]; unfold SIZE_T_RANGE; omega)
              hcs hen
            refine ⟨k + 1, ?_, hms, hme, ?_, ?_⟩
            · simp only []
              rw [hh, List.filter_cons_of_pos hG, List.take_succ_cons, List.map_cons]
              simp [EvictionCandidates.add]
            · intro init last htake
              rw [List.filter_cons_of_pos hG, List.take_succ_cons] at htake
              cases init with
              | nil =>
                rw [List.nil_append] at htake
                injection htake with hlast htail
                subst hlast
                refine ⟨[], rest, rfl, rfl, ?_⟩
                rw [LRUFileCachePriority.after_passing_nil self metadata hcs hen]
                simp only [List.map_nil, List.sum_nil, List.length_nil, Nat.add_zero,
                  Nat.mod_eq_of_lt hrs, Nat.mod_eq_of_lt hrc]
                have hs := hstop
                unfold LRUFileCachePriority.can_fit at hs
                rw [LRUFileCachePriority.canFit_fits_queue] at hs
                simpa using hs
              | cons i init' =>
                rw [List.cons_append] at htake
                injection htake with hi htail
                subst hi
                obtain ⟨pre, post, hsplit, hpre, hfit⟩ := hmin init' last htail
                refine ⟨n :: pre, post, by rw [hsplit]; rfl, by
                  rw [List.filter_cons_of_pos hG, hpre], ?_⟩
                rw [LRUFileCachePriority.after_passing_cons_of_kept self metadata n pre
                  (Or.inl hst)]
                have a1 : ((captured.stat.update segment.size true).stat.releasable_size
                      + (init'.map (fun n => n.entry.size)).sum) % SIZE_T_RANGE
                    = (captured.stat.stat.releasable_size
                      + ((n :: init').map (fun n => n.entry.size)).sum) % SIZE_T_RANGE := by
                  rw [e1, List.map_cons, List.sum_cons, ← hmatch]
                  unfold SIZE_T_RANGE
                  omega
                have a2 : ((captured.stat.update segment.size true).stat.releasable_count
                      + init'.length) % SIZE_T_RANGE
                    = (captured.stat.stat.releasable_count + (n :: init').length)
                      % SIZE_T_RANGE := by
                  rw [e2, List.length_cons]
                  unfold SIZE_T_RANGE
                  omega
                rw [← a1, ← a2]
                exact hfit
            · intro H
              exact hstate (fun m hm => H m (List.mem_cons_of_mem _ hm))
          · have hG : ¬ (metadata.collectible n = true) := by rw [hcol]; exact hrel
            have hf : LRUFileCachePriority.iterateForEviction_func
                (LRUFileCachePriority.can_fit size) captured
                { self with queue := visited ++ n :: rest } n segment
                = { result := .CONTINUE
                    captured :=
                      { captured with stat := captured.stat.update segment.size false }
                    entry := n.entry } := by
              unfold LRUFileCachePriority.iterateForEviction_func
              rw [if_neg hstop]
              unfold LRUFileCachePriority.iterate_func
              rw [if_neg hrel]
            rw [hf]
            obtain ⟨k, hh, hms, hme, hmin, hstate⟩ := ih (visited ++ [n]) self
              { captured with stat := captured.stat.update segment.size false }
              (delivered ++ [n]) hrs hrc hcs hen
            refine ⟨k, by simp only []; rw [hh, List.filter_cons_of_neg hG], hms, hme, ?_, ?_⟩
            · intro init last htake
              rw [List.filter_cons_of_neg hG] at htake
              obtain ⟨pre, post, hsplit, hpre, hfit⟩ := hmin init last htake
              refine ⟨n :: pre, post, by rw [hsplit]; rfl, by
                rw [List.filter_cons_of_neg hG, hpre], ?_⟩
              rw [LRUFileCachePriority.after_passing_cons_of_kept self metadata n pre
                (Or.inl hst)]
              exact hfit
            · intro H
              exact hstate (fun m hm => H m (List.mem_cons_of_mem _ hm))
      · have hmm : metadata.mismatch n = true := by
          rw [CacheMetadata.mismatch_of_segment metadata n segment hseg]
          simp [hmatch]
        rw [LRUFileCachePriority.iterate_loop_of_mismatch metadata _ n rest visited self
          captured delivered hel hmm]
        refine ⟨0, by simp, rfl, rfl, ?_, fun _ => rfl⟩
        intro init last h
        simp at h

/-- Passing nodes of which none is unlinked with `size > 0` leaves the counters. -/
theorem LRUFileCachePriority.after_passing_of_live (self : LRUFileCachePriority)
    (metadata : CacheMetadata) (passed : LRUQueue)
    (h_size : self.state.current_size < SIZE_T_RANGE)
    (h_elements : self.state.current_elements_num < SIZE_T_RANGE)
    (h_live : ∀ n ∈ passed, n.entry.size ≠ 0 → n.entry.evicting = false →
      metadata.tryLock n.entry.key = true
      ∧ (metadata.tryGetByOffset n.entry.key n.entry.offset).isSome = true) :
    self.after_passing metadata passed = self := by
  induction passed with
  | nil => exact LRUFileCachePriority.after_passing_nil self metadata h_size h_elements
  | cons n passed ih =>
    have hkept : metadata.stays n = true ∨ n.entry.size = 0 := by
      by_cases h0 : n.entry.size = 0
      · exact Or.inr h0
      · left
        cases hev : n.entry.evicting with
        | true => exact CacheMetadata.stays_of_evicting metadata n h0 hev
        | false =>
          obtain ⟨hl, hs⟩ := h_live n (List.mem_cons_self _ _) h0 hev
          obtain ⟨segment, hseg⟩ := Option.isSome_iff_exists.mp hs
          exact CacheMetadata.stays_of_eligible metadata n
            ((CacheMetadata.eligible_iff metadata n).mpr ⟨h0, hev, hl, segment, hseg⟩)
    rw [LRUFileCachePriority.after_passing_cons_of_kept self metadata n passed hkept]
    exact ih (fun m hm => h_live m (List.mem_cons_of_mem _ hm))

/-- C30 (amended): let the reservation overload be called with a zeroed `stat`, counters
in `size_t` range and `canFit(size, 1)` false. (1) The handles it registers are, in queue
order, those of the first `k` nodes of the queue that are handed to the callback
(`size > 0`, not evicting, key lock acquired, segment present) with a releasable segment.
(2) The set is
minimal: for the last registered node, with `pre` the nodes before it in the queue,
`canFit(size, 1, released size, released count)` is false on the counters the queue has
when the node is handed over, what the earlier registered nodes release being taken as
released; so no node is registered from the first point on where the request fits.
(3) When every linked node with `size > 0` that is not evicting has its key lock and its
segment, the walk unlinks nothing that counts, the counters and the limits at return are
those at the call, and the same holds on the state at return. (4) The walk ends at the
first node handed over while the request fits: the queue splits into the nodes the walk
went through and those it never reached, which stay linked as they are and of which none
is registered or counted; either the call returns true, the request fits the state at
return with what `stat` holds, the last node gone through was handed over and is not
classified, and exactly the eligible nodes before it are; or the request fitted at no
node handed over, all eligible nodes gone through are classified, and the walk ended
at the end of the queue or with the logic error of a size mismatch. The registered
handles are those of the releasable classified nodes, and `stat` has counted the
classified nodes. -/
theorem LRUFileCachePriority.collectCandidatesForEviction_registers_minimal
    (self : LRUFileCachePriority) (metadata : CacheMetadata) (size : Nat)
    (res : EvictionCandidates) (reached_size_limit reached_elements_limit : Bool)
    (h_size : self.state.current_size < SIZE_T_RANGE)
    (h_elements : self.state.current_elements_num < SIZE_T_RANGE)
    (h_fit : self.canFit_short size 1 = false) :
    (∃ k : Nat,
      (self.collectCandidatesForEviction metadata size Scenario.fresh_stat res
          reached_size_limit reached_elements_limit).res.queue_entries_to_invalidate
        = res.queue_entries_to_invalidate
          ++ ((self.queue.filter metadata.collectible).take k).map
              (fun n => ({ iterator := some n.id } : LRUIterator))
      ∧ (∀ (init : LRUQueue) (last : Node),
          (self.queue.filter metadata.collectible).take k = init ++ [last] →
          ∃ pre post : LRUQueue, self.queue = pre ++ last :: post
            ∧ pre.filter metadata.collectible = init
            ∧ ((self.after_passing metadata pre).canFit size 1
                ((init.map (fun n => n.entry.size)).sum % SIZE_T_RANGE)
                (init.length % SIZE_T_RANGE) none none).fits = false)
      ∧ ((∀ n ∈ self.queue, n.entry.size ≠ 0 → n.entry.evicting = false →
            metadata.tryLock n.entry.key = true
            ∧ (metadata.tryGetByOffset n.entry.key n.entry.offset).isSome = true) →
          (self.collectCandidatesForEviction metadata size Scenario.fresh_stat res
            reached_size_limit reached_elements_limit).self.state = self.state
          ∧ (self.collectCandidatesForEviction metadata size Scenario.fresh_stat res
            reached_size_limit reached_elements_limit).self.max_size = self.max_size
          ∧ (self.collectCandidatesForEviction metadata size Scenario.fresh_stat res
            reached_size_limit reached_elements_limit).self.max_elements = self.max_elements
          ∧ ∀ (init : LRUQueue) (last : Node),
              (self.queue.filter metadata.collectible).take k = init ++ [last] →
              ((self.collectCandidatesForEviction metadata size Scenario.fresh_stat res
                  reached_size_limit reached_elements_limit).self.canFit size 1
                ((init.map (fun n => n.entry.size)).sum % SIZE_T_RANGE)
                (init.length % SIZE_T_RANGE) none none).fits = false))
    ∧ (∃ pre post kept classified : LRUQueue,
        self.queue = pre ++ post
        ∧ (self.collectCandidatesForEviction metadata size Scenario.fresh_stat res
            reached_size_limit reached_elements_limit).self.queue = kept ++ post
        ∧ (self.collectCandidatesForEviction metadata size Scenario.fresh_stat res
            reached_size_limit reached_elements_limit).res.queue_entries_to_invalidate
          = res.queue_entries_to_invalidate
            ++ (classified.filter metadata.releasable).map
                (fun n => ({ iterator := some n.id } : LRUIterator))
        ∧ (self.collectCandidatesForEviction metadata size Scenario.fresh_stat res
            reached_size_limit reached_elements_limit).stat
          = Scenario.fresh_stat.classify metadata classified
        ∧ (((self.collectCandidatesForEviction metadata size Scenario.fresh_stat res
                reached_size_limit reached_elements_limit).result = .ok true
            ∧ LRUFileCachePriority.can_fit size
                (self.collectCandidatesForEviction metadata size Scenario.fresh_stat res
                  reached_size_limit reached_elements_limit).self
                (self.collectCandidatesForEviction metadata size Scenario.fresh_stat res
                  reached_size_limit reached_elements_limit).res
                (self.collectCandidatesForEviction metadata size Scenario.fresh_stat res
                  reached_size_limit reached_elements_limit).stat = true
            ∧ ∃ (pre' kept' : LRUQueue) (n : Node), pre = pre' ++ [n] ∧ kept = kept' ++ [n]
                ∧ metadata.eligible n = true ∧ classified = pre'.filter metadata.eligible)
          ∨ (classified = pre.filter metadata.eligible
            ∧ ((post = []
                ∧ (self.collectCandidatesForEviction metadata size Scenario.fresh_stat res
                    reached_size_limit reached_elements_limit).result
                  = .ok (LRUFileCachePriority.can_fit size
                      (self.collectCandidatesForEviction metadata size Scenario.fresh_stat res
                        reached_size_limit reached_elements_limit).self
                      (self.collectCandidatesForEviction metadata size Scenario.fresh_stat res
                        reached_size_limit reached_elements_limit).res
                      (self.collectCandidatesForEviction metadata size Scenario.fresh_stat res
                        reached_size_limit reached_elements_limit).stat))
              ∨ ((self.collectCandidatesForEviction metadata size Scenario.fresh_stat res
                    reached_size_limit reached_elements_limit).result = .error .LOGICAL_ERROR
                ∧ ∃ (n : Node) (post' : LRUQueue), post = n :: post'
                    ∧ metadata.eligible n = true ∧ metadata.mismatch n = true))))) := by
  have hfit : ¬ ((self.canFit size 1 0 0 (some reached_size_limit)
      (some reached_elements_limit)).fits = true) := by
    have h : (self.canFit size 1 0 0 (some reached_size_limit)
        (some reached_elements_limit)).fits = self.canFit_short size 1 := rfl
    rw [h, h_fit]
    exact Bool.false_ne_true
  have hres : (self.collectCandidatesForEviction metadata size Scenario.fresh_stat res
      reached_size_limit reached_elements_limit).res
      = (self.iterateForEviction metadata res Scenario.fresh_stat
          (LRUFileCachePriority.can_fit size)).captured.res := by
    unfold LRUFileCachePriority.collectCandidatesForEviction
    simp only [hfit, Bool.false_eq_true, if_false]
  have hself : (self.collectCandidatesForEviction metadata size Scenario.fresh_stat res
      reached_size_limit reached_elements_limit).self
      = (self.iterateForEviction metadata res Scenario.fresh_stat
          (LRUFileCachePriority.can_fit size)).self := by
    unfold LRUFileCachePriority.collectCandidatesForEviction
    simp only [hfit, Bool.false_eq_true, if_false]
  obtain ⟨k, hh, hms, hme, hmin, hstate⟩ :=
    LRUFileCachePriority.reservation_walk_shape metadata size self.queue [] self
      { res := res, stat := Scenario.fresh_stat } [] (show (0 : Nat) < SIZE_T_RANGE by decide)
      (show (0 : Nat) < SIZE_T_RANGE by decide) h_size h_elements
  have hmin' : ∀ (init : LRUQueue) (last : Node),
      (self.queue.filter metadata.collectible).take k = init ++ [last] →
      ∃ pre post : LRUQueue, self.queue = pre ++ last :: post
        ∧ pre.filter metadata.collectible = init
        ∧ ((self.after_passing metadata pre).canFit size 1
            ((init.map (fun n => n.entry.size)).sum % SIZE_T_RANGE)
            (init.length % SIZE_T_RANGE) none none).fits = false := by
    intro init last htake
    obtain ⟨pre, post, hsplit, hpre, hf⟩ := hmin init last htake
    refine ⟨pre, post, hsplit, hpre, ?_⟩
    have z1 : (Scenario.fresh_stat.stat.releasable_size
        + (init.map (fun n => n.entry.size)).sum) = (init.map (fun n => n.entry.size)).sum :=
      Nat.zero_add _
    have z2 : (Scenario.fresh_stat.stat.releasable_count + init.length) = init.length :=
      Nat.zero_add _
    rw [z1, z2] at hf
    exact hf
  have hstat : (self.collectCandidatesForEviction metadata size Scenario.fresh_stat res
      reached_size_limit reached_elements_limit).stat
      = (self.iterateForEviction metadata res Scenario.fresh_stat
          (LRUFileCachePriority.can_fit size)).captured.stat := by
    unfold LRUFileCachePriority.collectCandidatesForEviction
    simp only [hfit, Bool.false_eq_true, if_false]
  have hresult : (self.collectCandidatesForEviction metadata size Scenario.fresh_stat res
      reached_size_limit reached_elements_limit).result
      = (match (self.iterateForEviction metadata res Scenario.fresh_stat
            (LRUFileCachePriority.can_fit size)).result with
          | .error failure => .error failure
          | .ok _ => .ok (LRUFileCachePriority.can_fit size
              (self.iterateForEviction metadata res Scenario.fresh_stat
                (LRUFileCachePriority.can_fit size)).self
              (self.iterateForEviction metadata res Scenario.fresh_stat
                (LRUFileCachePriority.can_fit size)).captured.res
              (self.iterateForEviction metadata res Scenario.fresh_stat
                (LRUFileCachePriority.can_fit size)).captured.stat)) := by
    unfold LRUFileCachePriority.collectCandidatesForEviction
    simp only [hfit, Bool.false_eq_true, if_false]
  rw [hresult, hstat, hres, hself]
  refine ⟨⟨k, hh, hmin', ?_⟩, ?_⟩
  rotate_left
  · unfold LRUFileCachePriority.iterateForEviction LRUFileCachePriority.iterate
    obtain ⟨pre, post, kept, classified, h1, _, h3, h4, h5, h6⟩ :=
      LRUFileCachePriority.eviction_walk_stops metadata (LRUFileCachePriority.can_fit size)
        self.queue [] self { res := res, stat := Scenario.fresh_stat } []
    rw [List.nil_append] at h3
    refine ⟨pre, post, kept, classified, h1, h3, h4, h5, ?_⟩
    rcases h6 with ⟨hr, hs, hrest⟩ | ⟨hc, ⟨hp, hr⟩ | ⟨hr, hm⟩⟩
    · refine Or.inl ⟨?_, hs, hrest⟩
      rw [hr]
      simp only []
      rw [hs]
    · refine Or.inr ⟨hc, Or.inl ⟨hp, ?_⟩⟩
      rw [hr]
    · refine Or.inr ⟨hc, Or.inr ⟨?_, hm⟩⟩
      rw [hr]
  intro H
  have hst := hstate H
  refine ⟨hst, hms, hme, ?_⟩
  intro init last htake
  obtain ⟨pre, post, hsplit, hpre, hf⟩ := hmin' init last htake
  have hpass := LRUFileCachePriority.after_passing_of_live self metadata pre h_size h_elements
    (fun n hn => H n (by rw [hsplit]; exact List.mem_append_left _ hn))
  rw [hpass] at hf
  unfold LRUFileCachePriority.iterateForEviction LRUFileCachePriority.iterate
  unfold LRUFileCachePriority.canFit at hf ⊢
  simp only [hst, hms, hme]
  exact hf

/-- C30 (witness): scenario 1, `max_size = 100`, A(40), B(40), both releasable, a
reservation of 30 bytes: `canFit(30, 1)` is false, A alone is registered, and with A left
out nothing is released and the request does not fit. -/
theorem LRUFileCachePriority.collectCandidatesForEviction_registers_minimal_witness :
    ((Scenario.basic false).collectCandidatesForEviction (Scenario.metadata 40 0) 30
        Scenario.fresh_stat EvictionCandidates.empty false false).result = .ok true
    ∧ ((Scenario.basic false).collectCandidatesForEviction (Scenario.metadata 40 0) 30
        Scenario.fresh_stat EvictionCandidates.empty false
        false).res.queue_entries_to_invalidate = [{ iterator := some 0 }]
    ∧ ∃ k : Nat,
        ((Scenario.basic false).collectCandidatesForEviction (Scenario.metadata 40 0) 30
            Scenario.fresh_stat EvictionCandidates.empty false
            false).res.queue_entries_to_invalidate
          = EvictionCandidates.empty.queue_entries_to_invalidate
            ++ (((Scenario.basic false).queue.filter
                  (Scenario.metadata 40 0).collectible).take k).map
                (fun n => ({ iterator := some n.id } : LRUIterator)) :=
  ⟨by decide, by decide,
    (LRUFileCachePriority.collectCandidatesForEviction_registers_minimal (Scenario.basic false)
      (Scenario.metadata 40 0) 30 EvictionCandidates.empty false false (by decide) (by decide)
      (by decide)).1.elim (fun k hk => ⟨k, hk.1⟩)⟩

/-- C30 (counterexample): after a reservation whose walk unlinks an entry with `size > 0`,
the request can fit the counters at return without the last registered candidate, so the
registered set is not minimal on the state at return: `max_size = 100`, A(40)
releasable, B(40) with a key that cannot be locked, a reservation of 30 bytes. A is
registered while the counters are 80 and 1; B is then unlinked and the counters at return
are 40 and 1. -/
theorem LRUFileCachePriority.collectCandidatesForEviction_after_unlinking :
    (Scenario.basic false).canFit_short 30 1 = false
    ∧ ((Scenario.basic false).collectCandidatesForEviction (Scenario.metadata_stale 40 2) 30
        Scenario.fresh_stat EvictionCandidates.empty false false).result = .ok true
    ∧ ((Scenario.basic false).collectCandidatesForEviction (Scenario.metadata_stale 40 2) 30
        Scenario.fresh_stat EvictionCandidates.empty false
        false).res.queue_entries_to_invalidate = [{ iterator := some 0 }]
    ∧ ((Scenario.basic false).collectCandidatesForEviction (Scenario.metadata_stale 40 2) 30
        Scenario.fresh_stat EvictionCandidates.empty false false).self.state
      = { current_size := 40, current_elements_num := 1 }
    ∧ (((Scenario.basic false).collectCandidatesForEviction (Scenario.metadata_stale 40 2) 30
        Scenario.fresh_stat EvictionCandidates.empty false false).self.canFit 30 1 0 0 none
        none).fits = true := by
  decide

end DB
